import Mathlib

/-!
# spn-gameserver: toroidal geometry, snake kinematics, food and kill resolution

A shallow embedding of `src/Field.cpp` and `src/Snake.cpp`.

Conventions of the embedding:

* `real_t` is modelled by the exact rationals `ℚ`; rounding of machine floats is not modelled,
  except in `Field.unwrapRelativeCoordsRounded`, where the rounding decides the result.
* A C++ `while` loop is run with an explicit bound on its number of iterations
  (`whileLoop`); `none` means that the bound was reached while the loop condition still held.
  Every function that contains such a loop takes the bound as its `fuel` argument.
* Undefined behaviour of the C++ program (indexing an empty container, a floating value that
  does not fit the integer type it is converted to) is also reported as `none`.
* The constants of `config.h` and the functions of the C math library that have no rational
  counterpart (`cos`, `sin`, `sqrt`, `pow`) are parameters, collected in `Config`,
  `FieldConfig` and `Libm`.
* The field is a record `FieldState`; bots are named by numbers, the random distributions are
  streams of values, and the calls on the update tracker are collected in a list.
-/

namespace Spn

/-! ## Basic types -/

/-- The type `Vector2D` of the program: a pair of `real_t` coordinates. -/
structure Vector2D where
  x : ℚ
  y : ℚ
deriving DecidableEq

namespace Vector2D

/-- Componentwise sum, `operator+`. -/
def add (a b : Vector2D) : Vector2D := ⟨a.x + b.x, a.y + b.y⟩

/-- Componentwise difference, `operator-`. -/
def sub (a b : Vector2D) : Vector2D := ⟨a.x - b.x, a.y - b.y⟩

/-- Multiplication by a scalar, `operator*` and `operator*=`. -/
def smul (a : Vector2D) (k : ℚ) : Vector2D := ⟨a.x * k, a.y * k⟩

/-- The squared Euclidean norm, `squaredNorm()`. -/
def squaredNorm (a : Vector2D) : ℚ := a.x * a.x + a.y * a.y

end Vector2D

/-- The part of a `Field` that the toroidal utilities read: the size of the world. -/
structure Field where
  m_width : ℚ
  m_height : ℚ
deriving DecidableEq

/-! ## Loops -/

/-- The loop `while (cond(s)) s = body(s);`, run for at most `fuel` iterations. The body may
fail (`none`); the result is also `none` when the condition still holds after `fuel`
iterations. -/
def whileLoop {σ : Type} (cond : σ → Bool) (body : σ → Option σ) : Nat → σ → Option σ
  | 0, s => if cond s then none else some s
  | fuel + 1, s => if cond s then (body s).bind (whileLoop cond body fuel) else some s

/-- The loop `for (i = start; i < start + count; i++) s = body(i, s);`. -/
def forLoop {σ : Type} (body : Nat → σ → Option σ) : Nat → Nat → σ → Option σ
  | _, 0, s => some s
  | i, count + 1, s => (body i s).bind (forLoop body (i + 1) count)

/-! ## Toroidal utilities of `Field` -/

/-- The function `Field::wrapCoords`: four loops, two per coordinate. -/
def Field.wrapCoords (f : Field) (fuel : Nat) (v : Vector2D) : Option Vector2D := do
  let x ← whileLoop (fun x => decide (x < 0)) (fun x => some (x + f.m_width)) fuel v.x
  let x ← whileLoop (fun x => decide (x > f.m_width)) (fun x => some (x - f.m_width)) fuel x
  let y ← whileLoop (fun y => decide (y < 0)) (fun y => some (y + f.m_height)) fuel v.y
  let y ← whileLoop (fun y => decide (y > f.m_height)) (fun y => some (y - f.m_height)) fuel y
  some ⟨x, y⟩

/-- The function `Field::unwrapCoords`: the same four loops, relative to `ref` and with the
thresholds `-m_width/2`, `m_width/2` (resp. `m_height`). -/
def Field.unwrapCoords (f : Field) (fuel : Nat) (v ref : Vector2D) : Option Vector2D := do
  let x ← whileLoop (fun x => decide (x - ref.x < -f.m_width / 2)) (fun x => some (x + f.m_width)) fuel v.x
  let x ← whileLoop (fun x => decide (x - ref.x > f.m_width / 2)) (fun x => some (x - f.m_width)) fuel x
  let y ← whileLoop (fun y => decide (y - ref.y < -f.m_height / 2)) (fun y => some (y + f.m_height)) fuel v.y
  let y ← whileLoop (fun y => decide (y - ref.y > f.m_height / 2)) (fun y => some (y - f.m_height)) fuel y
  some ⟨x, y⟩

/-- Conversion of a floating value to an integer type in C++: the fractional part is
discarded (rounding toward zero). -/
def truncate (q : ℚ) : ℤ := if 0 ≤ q then ⌊q⌋ else ⌈q⌉

/-- The C library function `fmod` for `y ≠ 0`: `x - n * y`, where `n` is `x / y` rounded
toward zero. -/
def fmod (x y : ℚ) : ℚ := x - (truncate (x / y) : ℚ) * y

/-- The conversion `(int)q` of a floating value: the fractional part is discarded; the
behaviour is undefined (`none`) when the truncated value is not representable in the 32-bit
signed type. -/
def toInt (q : ℚ) : Option ℤ :=
  if -2 ^ 31 - 1 < q ∧ q < 2 ^ 31 then some (truncate q) else none

/-- The function `Field::unwrapRelativeCoords`. The lower thresholds are the C++ expressions
`-(int)m_width/2` and `-(int)m_height/2`: the size is converted to `int`, negated, and divided
by `2` with integer division (rounding toward zero). -/
def Field.unwrapRelativeCoords (f : Field) (relativeCoords : Vector2D) : Option Vector2D := do
  let x := fmod relativeCoords.x f.m_width
  let y := fmod relativeCoords.y f.m_height
  let x := if x > f.m_width / 2 then x - f.m_width else x
  let intWidth ← toInt f.m_width
  let x := if x < ((Int.tdiv (-intWidth) 2 : ℤ) : ℚ) then x + f.m_width else x
  let y := if y > f.m_height / 2 then y - f.m_height else y
  let intHeight ← toInt f.m_height
  let y := if y < ((Int.tdiv (-intHeight) 2 : ℤ) : ℚ) then y + f.m_height else y
  some ⟨x, y⟩

/-! ## Rounding of floating-point arithmetic -/

/-- Rounding of a number to the nearest integer, a tie going to the even one. -/
def roundHalfEven (q : ℚ) : ℤ :=
  if q - ⌊q⌋ < 1 / 2 then ⌊q⌋
  else if q - ⌊q⌋ > 1 / 2 then ⌊q⌋ + 1
  else if ⌊q⌋ % 2 = 0 then ⌊q⌋
  else ⌊q⌋ + 1

/-- The value of type `real_t` that an arithmetic operation with the exact result `q` returns:
`q` rounded to the nearest binary floating-point number with `precision` significant bits, a
tie going to the even significand (the default rounding of IEEE 754). The header that
declares `real_t` is not part of the sources, so the precision is a parameter: `53` for
`double`, `24` for `float`. The range of the exponent is not modelled (no overflow, no
subnormal numbers). For `2 ^ e ≤ |q| < 2 ^ (e + 1)` the floating-point numbers next to `q`
are the multiples of `2 ^ (e - (precision - 1))`. -/
def roundReal (precision : Nat) (q : ℚ) : ℚ :=
  if q = 0 then 0
  else
    roundHalfEven (q / 2 ^ (Int.log 2 |q| - ((precision : ℤ) - 1)))
      * 2 ^ (Int.log 2 |q| - ((precision : ℤ) - 1))

/-- The function `Field::unwrapRelativeCoords` in floating-point arithmetic with `precision`
significant bits: the translation of the source as in `Field.unwrapRelativeCoords`, where the
results of `x -= m_width`, `x += m_width` (and the same for `y`) and of the conversion of the
`int` thresholds to `real_t` are rounded. The function `fmod` and the division of a size by
`2` are exact in floating-point arithmetic. The arguments are values of type `real_t`. -/
def Field.unwrapRelativeCoordsRounded (precision : Nat) (f : Field) (relativeCoords : Vector2D) :
    Option Vector2D := do
  let x := fmod relativeCoords.x f.m_width
  let y := fmod relativeCoords.y f.m_height
  let x := if x > f.m_width / 2 then roundReal precision (x - f.m_width) else x
  let intWidth ← toInt f.m_width
  let x :=
    if x < roundReal precision ((Int.tdiv (-intWidth) 2 : ℤ) : ℚ) then
      roundReal precision (x + f.m_width)
    else x
  let y := if y > f.m_height / 2 then roundReal precision (y - f.m_height) else y
  let intHeight ← toInt f.m_height
  let y :=
    if y < roundReal precision ((Int.tdiv (-intHeight) 2 : ℤ) : ℚ) then
      roundReal precision (y + f.m_height)
    else y
  some ⟨x, y⟩

/-! ## Configuration and math library -/

/-- The constants of `config.h` that `Snake.cpp` reads. The header is not part of the sources,
so the constants are parameters. -/
structure Config where
  SNAKE_SEGMENT_DISTANCE_FACTOR : ℚ
  SNAKE_SEGMENT_DISTANCE_EXPONENT : ℚ
  SNAKE_BOOST_STEPS : Nat
  SNAKE_DISTANCE_PER_STEP : ℚ
  SNAKE_PULL_FACTOR : ℚ
  SNAKE_CONSUME_RANGE : ℚ

/-- The functions of the C math library that `Snake.cpp` calls and that have no exact
counterpart on the rationals. -/
structure Libm where
  cos : ℚ → ℚ
  sin : ℚ → ℚ
  sqrt : ℚ → ℚ
  pow : ℚ → ℚ → ℚ

/-- The constant `M_PI` of `math.h`, the decimal literal `3.14159265358979323846`. -/
def M_PI : ℚ := 314159265358979323846 / 100000000000000000000

/-- The Euclidean norm, `norm()`: the square root of `squaredNorm()`. -/
def Vector2D.norm (lm : Libm) (a : Vector2D) : ℚ := lm.sqrt a.squaredNorm

/-- The conversion `static_cast<std::size_t>(q)` of a floating value: the fractional part is
discarded; the behaviour is undefined (`none`) when the truncated value is not representable
in the 64-bit unsigned type. -/
def toSizeT (q : ℚ) : Option Nat :=
  if -1 < q ∧ q < 2 ^ 64 then some (truncate q).toNat else none

/-! ## Snake -/

/-- A segment of a snake: `Snake.cpp` reads and writes its position only. -/
structure Segment where
  pos : Vector2D
deriving DecidableEq

/-- A piece of food (`Food.h`): a position and a value. -/
structure Food where
  pos : Vector2D
  m_value : ℚ
deriving DecidableEq

/-- The data members of `Snake` that `Snake.cpp` uses. The member `m_field` is passed to the
functions as an argument of its own. -/
structure Snake where
  m_mass : ℚ
  m_heading : ℚ
  m_segments : List Segment
  m_targetSegmentDistance : ℚ
  m_segmentRadius : ℚ
  m_movedSinceLastSpawn : ℚ
deriving DecidableEq

/-- The segment that `std::deque::resize` appends when it has to grow the container: a
value-initialised `Segment`. `Segment.h` is not part of the sources; the origin stands for
its position. -/
def Segment.valueInit : Segment := ⟨⟨0, 0⟩⟩

/-- The call `m_segments.resize(n)`. -/
def resize (segs : List Segment) (n : Nat) : List Segment :=
  segs.take n ++ List.replicate (n - segs.length) Segment.valueInit

/-- The function `Snake::ensureSizeMatchesMass`. The result is `none` where the C++ program
has undefined behaviour: the quotient handed to `static_cast<std::size_t>` is not finite or
out of range, or `m_segments[curLen-1]` is read from an empty container. -/
def Snake.ensureSizeMatchesMass (cfg : Config) (lm : Libm) (s : Snake) : Option Snake := do
  let targetSegmentDistance :=
    lm.pow (s.m_mass * cfg.SNAKE_SEGMENT_DISTANCE_FACTOR) cfg.SNAKE_SEGMENT_DISTANCE_EXPONENT
  let curLen := s.m_segments.length
  let targetLen ←
    if targetSegmentDistance = 0 then none else toSizeT (s.m_mass / targetSegmentDistance / 5)
  let targetLen := if targetLen < 2 then 2 else targetLen
  let segments ←
    if curLen < targetLen then
      (s.m_segments[curLen - 1]?).map
        (fun refSegment => s.m_segments ++ List.replicate (targetLen - curLen) refSegment)
    else if curLen > targetLen then
      some (resize s.m_segments targetLen)
    else
      some s.m_segments
  some { s with
    m_targetSegmentDistance := targetSegmentDistance
    m_segments := segments
    m_segmentRadius := lm.sqrt s.m_mass / 2 }

/-- The function `Snake::maxRotationPerStep`. -/
def Snake.maxRotationPerStep (s : Snake) : ℚ := 10 / (s.m_segmentRadius / 10 + 1)

/-- The function `Snake::getConsumeRadius`. -/
def Snake.getConsumeRadius (cfg : Config) (s : Snake) : ℚ :=
  s.m_segmentRadius * cfg.SNAKE_CONSUME_RANGE

/-- The function `Snake::canConsume`; `none` when `m_segments[0]` does not exist. -/
def Snake.canConsume (cfg : Config) (f : Field) (fuel : Nat) (s : Snake) (food : Food) :
    Option Bool := do
  let headSegment ← s.m_segments[0]?
  let headPos := headSegment.pos
  let foodPos := food.pos
  let unwrappedFoodPos ← f.unwrapCoords fuel foodPos headPos
  let maxRange := s.getConsumeRadius cfg
  some (decide ((headPos.sub unwrappedFoodPos).squaredNorm < maxRange * maxRange))

/-- Both normalisations of an angle in `Snake::move`:
`if (a > 180) a -= 360; else if (a < -180) a += 360;`. -/
def normalizeAngle (a : ℚ) : ℚ :=
  if a > 180 then a - 360 else if a < -180 then a + 360 else a

/-- The first part of `Snake::move`: the delta angle, normalised and then limited to the
rotation rate. -/
def Snake.deltaAngle (s : Snake) (targetAngle : ℚ) : ℚ :=
  let deltaAngle := normalizeAngle (targetAngle - s.m_heading)
  let maxDelta := s.maxRotationPerStep
  if deltaAngle > maxDelta then maxDelta
  else if deltaAngle < -maxDelta then -maxDelta
  else deltaAngle

/-- One iteration of the loop "unwrap all coordinates" of `Snake::move`. -/
def unwrapSegment (f : Field) (fuel : Nat) (i : Nat) (segs : List Segment) :
    Option (List Segment) := do
  let ref ← (if i = 0 then segs[0]? else segs[i - 1]?)
  let cur ← segs[i]?
  let pos ← f.unwrapCoords fuel cur.pos ref.pos
  some (segs.set i ⟨pos⟩)

/-- The variables that the loop "create new segments at head" of `Snake::move` updates. -/
structure MoveState where
  m_heading : ℚ
  headSegment : Segment
  m_movedSinceLastSpawn : ℚ
  m_segments : List Segment
deriving DecidableEq

/-- The body of the inner loop `while(m_movedSinceLastSpawn > m_targetSegmentDistance)`:
one new segment is put in front of `m_segments`. -/
def spawnSegment (lm : Libm) (targetSegmentDistance : ℚ) (st : MoveState) : Option MoveState := do
  let front ← st.m_segments[0]?
  let newSegmentOffset := st.headSegment.pos.sub front.pos
  let newSegmentOffset :=
    newSegmentOffset.smul (targetSegmentDistance / newSegmentOffset.norm lm)
  some { st with
    m_movedSinceLastSpawn := st.m_movedSinceLastSpawn - targetSegmentDistance
    m_segments := ⟨front.pos.add newSegmentOffset⟩ :: st.m_segments }

/-- The body of the loop `for(std::size_t i = 0; i < steps; i++)` of `Snake::move`. -/
def moveStep (cfg : Config) (lm : Libm) (fuel : Nat) (targetSegmentDistance deltaAngle : ℚ)
    (st : MoveState) : Option MoveState :=
  let heading := st.m_heading + deltaAngle
  let headingRad := heading * M_PI / 180
  let movementVector2D : Vector2D :=
    (Vector2D.mk (lm.cos headingRad) (lm.sin headingRad)).smul cfg.SNAKE_DISTANCE_PER_STEP
  let st : MoveState :=
    { st with
      m_heading := heading
      headSegment := ⟨st.headSegment.pos.add movementVector2D⟩
      m_movedSinceLastSpawn := st.m_movedSinceLastSpawn + cfg.SNAKE_DISTANCE_PER_STEP }
  whileLoop (fun st => decide (st.m_movedSinceLastSpawn > targetSegmentDistance))
    (spawnSegment lm targetSegmentDistance) fuel st

/-- The first half of `Snake::move`, up to the end of the loop "create new segments at head":
the state of that loop when it is left. -/
def Snake.moveHead (cfg : Config) (lm : Libm) (f : Field) (fuel : Nat) (s : Snake)
    (targetAngle : ℚ) (boost : Bool) : Option MoveState := do
  let deltaAngle := s.deltaAngle targetAngle
  let segments ← forLoop (unwrapSegment f fuel) 0 s.m_segments.length s.m_segments
  match segments with
  | [] => none
  | headSegment :: rest =>
    let steps := if boost then cfg.SNAKE_BOOST_STEPS else 1
    forLoop (fun _ st => moveStep cfg lm fuel s.m_targetSegmentDistance deltaAngle st) 0 steps
      ⟨s.m_heading, headSegment, s.m_movedSinceLastSpawn, rest⟩

/-- One iteration of the loop "pull-together effect" of `Snake::move`. -/
def pullSegment (cfg : Config) (i : Nat) (segs : List Segment) : Option (List Segment) := do
  let cur ← segs[i]?
  let next ← segs[i + 1]?
  let prev ← segs[i - 1]?
  some (segs.set i
    ⟨(cur.pos.smul (1 - cfg.SNAKE_PULL_FACTOR)).add
      (((next.pos.smul (1 / 2)).add (prev.pos.smul (1 / 2))).smul cfg.SNAKE_PULL_FACTOR)⟩)

/-- One iteration of the loop "wrap coordinates" of `Snake::move`. -/
def wrapSegment (f : Field) (fuel : Nat) (i : Nat) (segs : List Segment) :
    Option (List Segment) := do
  let cur ← segs[i]?
  let pos ← f.wrapCoords fuel cur.pos
  some (segs.set i ⟨pos⟩)

/-- The function `Snake::move`: the snake after the call and the returned value. The bound
`m_segments.size()-1` of the loop "pull-together effect" is computed on a container that is
not empty here: `moveHead` has read `m_segments[0]`. -/
def Snake.move (cfg : Config) (lm : Libm) (f : Field) (fuel : Nat) (s : Snake)
    (targetAngle : ℚ) (boost : Bool) : Option (Snake × Nat) := do
  let oldSize := s.m_segments.length
  let st ← s.moveHead cfg lm f fuel targetAngle boost
  let segments := st.headSegment :: st.m_segments
  let heading := normalizeAngle st.m_heading
  let segments := resize segments oldSize
  let segments ← forLoop (pullSegment cfg) 1 (segments.length - 1 - 1) segments
  let segments ← forLoop (wrapSegment f fuel) 0 segments.length segments
  some ({ s with
          m_heading := heading
          m_movedSinceLastSpawn := st.m_movedSinceLastSpawn
          m_segments := segments },
        segments.length)

/-! ## Sample parameters -/

/-- A sample math library on the rationals: the Taylor polynomials `1 - a²/2` and `a` for
`cos` and `sin`, one Newton step from `1` for `sqrt`, and the first-order expansion around
base `1` for `pow`. They are exact at `cos 0`, `sin 0`, `sqrt 1` and `pow 1 e`. -/
def sampleLibm : Libm :=
  ⟨fun a => 1 - a * a / 2, fun a => a, fun a => (1 + a) / 2, fun b e => 1 + e * (b - 1)⟩

/-- A sample configuration. -/
def sampleConfig : Config :=
  { SNAKE_SEGMENT_DISTANCE_FACTOR := 1
    SNAKE_SEGMENT_DISTANCE_EXPONENT := 1 / 2
    SNAKE_BOOST_STEPS := 3
    SNAKE_DISTANCE_PER_STEP := 1
    SNAKE_PULL_FACTOR := 1 / 10
    SNAKE_CONSUME_RANGE := 3 }

/-- A sample snake: what the constructor `Snake(field, (10, 10), 1, 0)` builds under
`sampleConfig` and `sampleLibm` (see `sampleSnake_constructed`), with
`m_movedSinceLastSpawn = 0`. -/
def sampleSnake : Snake :=
  { m_mass := 1
    m_heading := 0
    m_segments := [⟨⟨10, 10⟩⟩, ⟨⟨10, 10⟩⟩]
    m_targetSegmentDistance := 1
    m_segmentRadius := 1 / 2
    m_movedSinceLastSpawn := 0 }

/-- The sample snake with heading `-175`. -/
def sampleSnakeWest : Snake := { sampleSnake with m_heading := -175 }

/-- A snake whose head is next to the right edge of a world of width `10`. -/
def seamSnake : Snake := { sampleSnake with m_segments := [⟨⟨19 / 2, 5⟩⟩, ⟨⟨17 / 2, 5⟩⟩] }

/-- The state in which the constructor `Snake(field, (10, 10), 20, 0)` calls
`ensureSizeMatchesMass`: one segment at the start position; the members that
`ensureSizeMatchesMass` overwrites are `0`. -/
def freshSnake : Snake :=
  { m_mass := 20
    m_heading := 0
    m_segments := [⟨⟨10, 10⟩⟩]
    m_targetSegmentDistance := 0
    m_segmentRadius := 0
    m_movedSinceLastSpawn := 0 }

/-- The sample configuration with exponent `0`: every target segment distance is `1`. -/
def unitDistanceConfig : Config := { sampleConfig with SNAKE_SEGMENT_DISTANCE_EXPONENT := 0 }

/-! ## Notions used in the statements -/

/-- The squared distance between the head at `headPos` and the copy of the food at `foodPos`
that is shifted by `i` widths and `j` heights of the world. -/
def shiftedSquaredDistance (f : Field) (headPos foodPos : Vector2D) (i j : ℤ) : ℚ :=
  (headPos.sub (foodPos.add ⟨i * f.m_width, j * f.m_height⟩)).squaredNorm

/-- The movement vector of one step of `Snake::move` at heading `heading` (in degrees). -/
def movementVector (cfg : Config) (lm : Libm) (heading : ℚ) : Vector2D :=
  (Vector2D.mk (lm.cos (heading * M_PI / 180)) (lm.sin (heading * M_PI / 180))).smul
    cfg.SNAKE_DISTANCE_PER_STEP

/-- The position of the detached head after `i` steps of the loop "create new segments at
head", started at position `p` with heading `heading` and turning by `deltaAngle` before
each step. -/
def headPath (cfg : Config) (lm : Libm) (heading deltaAngle : ℚ) (p : Vector2D) : Nat → Vector2D
  | 0 => p
  | i + 1 =>
    (headPath cfg lm heading deltaAngle p i).add
      (movementVector cfg lm (heading + (i + 1 : ℕ) * deltaAngle))

/-- A run of `n` successive calls `move(targetAngle, boost)` on the same snake. -/
def Snake.moveTimes (cfg : Config) (lm : Libm) (f : Field) (fuel : Nat) (targetAngle : ℚ)
    (boost : Bool) : Nat → Snake → Option Snake
  | 0, s => some s
  | n + 1, s =>
    (s.move cfg lm f fuel targetAngle boost).bind
      (fun r => Snake.moveTimes cfg lm f fuel targetAngle boost n r.1)

/-- One coordinate of `unwrapRelativeCoords`, for the size `W` and the lower threshold `t`:
`fmod` and the two conditional corrections. -/
def relativeCoordinate (W t x : ℚ) : ℚ :=
  let x := fmod x W
  let x := if x > W / 2 then x - W else x
  if x < t then x + W else x

/-! ## Field: random numbers, food, bots and kill resolution -/

/-- The loop `for (auto &a : as) s = body(a, s);`. -/
def forEach {α σ : Type} (body : α → σ → Option σ) : List α → σ → Option σ
  | [], s => some s
  | a :: as, s => (body a s).bind (forEach body as)

/-- The constants of `config.h` that `Field.cpp` and `Snake::convertToFood` read. The header
is not part of the sources, so the constants are parameters. -/
structure FieldConfig where
  FOOD_SIZE_MEAN : ℚ
  KILLER_MIN_MASS_RATIO : ℚ
  SNAKE_BOOST_LOSS_FACTOR : ℚ
  SNAKE_SELF_KILL_MASS_THESHOLD : ℚ
  SNAKE_CONVERSION_FACTOR : ℚ

/-- A bot is referred to through a `std::shared_ptr<Bot>`; the model names it by a number. -/
abbrev BotId := Nat

/-- The values that the distributions of `Field` return when they are applied to the
generator `m_rndGen`, one stream for each distribution. The head of a stream is the next
value; a draw removes it. -/
structure RndGen where
  foodSize : Nat → ℚ
  positionX : Nat → ℚ
  positionY : Nat → ℚ
  angleRad : Nat → ℚ
  simple0To1 : Nat → ℚ

/-- The call `(*m_foodSizeDistribution)(*m_rndGen)`. -/
def RndGen.drawFoodSize (g : RndGen) : ℚ × RndGen :=
  (g.foodSize 0, { g with foodSize := fun i => g.foodSize (i + 1) })

/-- The call `(*m_positionXDistribution)(*m_rndGen)`. -/
def RndGen.drawPositionX (g : RndGen) : ℚ × RndGen :=
  (g.positionX 0, { g with positionX := fun i => g.positionX (i + 1) })

/-- The call `(*m_positionYDistribution)(*m_rndGen)`. -/
def RndGen.drawPositionY (g : RndGen) : ℚ × RndGen :=
  (g.positionY 0, { g with positionY := fun i => g.positionY (i + 1) })

/-- The call `(*m_angleRadDistribution)(*m_rndGen)`. -/
def RndGen.drawAngleRad (g : RndGen) : ℚ × RndGen :=
  (g.angleRad 0, { g with angleRad := fun i => g.angleRad (i + 1) })

/-- The call `(*m_simple0To1Distribution)(*m_rndGen)`. -/
def RndGen.drawSimple0To1 (g : RndGen) : ℚ × RndGen :=
  (g.simple0To1 0, { g with simple0To1 := fun i => g.simple0To1 (i + 1) })

/-- A piece of food as `Field.cpp` builds it, `Food {isStatic, pos, value, hunter}`: the
position and value of `Food`, the flag for static food and the bot that made the food. -/
structure FoodItem extends Food where
  isStatic : Bool
  hunter : Option BotId

/-- The calls that `Field` makes on `m_updateTracker` and on the registered
`BotKilledCallback`s (named by their index in `m_botKilledCallbacks`). -/
inductive Call where
  | foodSpawned (food : FoodItem)
  | botMoved (bot : BotId) (steps : Nat)
  | botKilled (killer victim : BotId)
  | botKilledCallback (callback : Nat) (victim killer : BotId)

/-- Modelled from the spec: `SpatialMap<T>`, whose header is not part of the sources. "A
uniform-grid bucket index storing elements that carry a position; `insert(e)`: canonicalise
position, place in its cell; `clear()`: discards all entries." The model keeps the elements
of all cells in one list, in the order of insertion. -/
structure SpatialMap (α : Type) where
  elements : List α

/-- Modelled from the spec: `SpatialMap::addElement`, the `insert(e)` of the specification. -/
def SpatialMap.addElement {α : Type} (m : SpatialMap α) (e : α) : SpatialMap α :=
  ⟨m.elements ++ [e]⟩

/-- Modelled from the spec: `SpatialMap::clear`, "discards all entries". -/
def SpatialMap.clear {α : Type} (_ : SpatialMap α) : SpatialMap α := ⟨[]⟩

/-- The data members of `Field` that `Field.cpp` uses on the paths modelled here, together
with the objects they refer to: `snakes b` is the snake of the bot `b` (alive or killed; a
killed bot is still referred to by its job), `boostedLastMove b` is what
`getSnake()->boostedLastMove()` returns for it (`Snake.cpp` does not define the member), and
`calls` lists the calls made on `m_updateTracker` and on the callbacks, oldest first. The set
`m_bots` is a list without regard to repetition; its order is the order of iteration.
`m_botKilledCallbacks` is the number of registered callbacks. -/
structure FieldState where
  size : Field
  m_bots : List BotId
  snakes : BotId → Snake
  boostedLastMove : BotId → Bool
  m_foodMap : SpatialMap FoodItem
  m_segmentInfoMap : SpatialMap (Segment × BotId)
  m_rndGen : RndGen
  m_botKilledCallbacks : Nat
  calls : List Call

/-- One iteration of the loop of `Field::createStaticFood`. -/
def FieldState.createOneStaticFood (w : FieldState) : FieldState :=
  let drawnValue := w.m_rndGen.drawFoodSize
  let drawnX := drawnValue.2.drawPositionX
  let drawnY := drawnX.2.drawPositionY
  let food : FoodItem :=
    { pos := ⟨drawnX.1, drawnY.1⟩, m_value := drawnValue.1, isStatic := true, hunter := none }
  { w with
    m_rndGen := drawnY.2
    calls := w.calls ++ [Call.foodSpawned food]
    m_foodMap := w.m_foodMap.addElement food }

/-- The function `Field::createStaticFood`. -/
def FieldState.createStaticFood (w : FieldState) (count : Nat) : FieldState :=
  FieldState.createOneStaticFood^[count] w

/-- The body of the loop `while(remainingValue > 0)` of `Field::createDynamicFood`, on the
pair of `remainingValue` and the field. -/
def FieldState.createOneDynamicFood (fcfg : FieldConfig) (lm : Libm) (fuel : Nat)
    (center : Vector2D) (radius : ℚ) (hunter : Option BotId) (st : ℚ × FieldState) :
    Option (ℚ × FieldState) :=
  let remainingValue := st.1
  let w := st.2
  let drawnValue :=
    if remainingValue > fcfg.FOOD_SIZE_MEAN then w.m_rndGen.drawFoodSize
    else (remainingValue, w.m_rndGen)
  let value := drawnValue.1
  let drawnRadius := drawnValue.2.drawSimple0To1
  let rndRadius := radius * drawnRadius.1
  let drawnAngle := drawnRadius.2.drawAngleRad
  let rndAngle := drawnAngle.1
  let offset := (Vector2D.mk (lm.cos rndAngle) (lm.sin rndAngle)).smul rndRadius
  (w.size.wrapCoords fuel (center.add offset)).map (fun pos =>
    let food : FoodItem := { pos := pos, m_value := value, isStatic := false, hunter := hunter }
    (remainingValue - value,
      { w with
        m_rndGen := drawnAngle.2
        calls := w.calls ++ [Call.foodSpawned food]
        m_foodMap := w.m_foodMap.addElement food }))

/-- The function `Field::createDynamicFood`. -/
def FieldState.createDynamicFood (fcfg : FieldConfig) (lm : Libm) (fuel : Nat) (w : FieldState)
    (totalValue : ℚ) (center : Vector2D) (radius : ℚ) (hunter : Option BotId) :
    Option FieldState :=
  (whileLoop (fun st => decide (st.1 > 0))
    (FieldState.createOneDynamicFood fcfg lm fuel center radius hunter) fuel
    (totalValue, w)).map Prod.snd

/-- The function `Snake::convertToFood`, applied to the snake `s` in the field `w`. -/
def Snake.convertToFood (fcfg : FieldConfig) (lm : Libm) (fuel : Nat) (s : Snake)
    (w : FieldState) (hunter : Option BotId) : Option FieldState :=
  let foodPerSegment := s.m_mass / s.m_segments.length * fcfg.SNAKE_CONVERSION_FACTOR
  forEach (fun seg w =>
      w.createDynamicFood fcfg lm fuel foodPerSegment seg.pos s.m_segmentRadius hunter)
    s.m_segments w

/-- Modelled from the spec: `Snake::dropFood`, which `Field.cpp` calls and `Snake.cpp` does
not define. "Drop `BOOST_LOSS_FACTOR · mass` of mass as dynamic food": the value is handed to
`createDynamicFood`, with the bot itself as hunter, and taken off the mass. The specification
does not say where the food is dropped; the position of the last segment stands for it (the
origin when there is no segment). -/
def FieldState.dropFood (fcfg : FieldConfig) (lm : Libm) (fuel : Nat) (w : FieldState)
    (bot : BotId) (value : ℚ) : Option FieldState := do
  let s := w.snakes bot
  let dropPos := (s.m_segments.getLast?.map (fun seg => seg.pos)).getD ⟨0, 0⟩
  let w ← w.createDynamicFood fcfg lm fuel value dropPos s.m_segmentRadius (some bot)
  some { w with snakes := Function.update w.snakes bot { s with m_mass := s.m_mass - value } }

/-- The function `Field::killBot`. The registered callbacks are called one after the other;
by the specification they do not change the set of bots. -/
def FieldState.killBot (fcfg : FieldConfig) (lm : Libm) (fuel : Nat) (w : FieldState)
    (victim killer : BotId) : Option FieldState := do
  let w ← (w.snakes victim).convertToFood fcfg lm fuel w (some killer)
  let w := { w with m_bots := w.m_bots.filter (fun b => b ≠ victim) }
  let w := { w with calls := w.calls ++ [Call.botKilled killer victim] }
  some { w with
    calls := w.calls ++
      (List.range w.m_botKilledCallbacks).map (fun c => Call.botKilledCallback c victim killer) }

/-- A processed job of the thread pool as the loop "collision check for all bots" of
`Field::moveAllBots` reads it: the bot, the steps of its move, and the killer that the
collision check recorded, if any. -/
structure Job where
  bot : BotId
  steps : Nat
  killer : Option BotId

/-- The lines of `Field::moveAllBots` under `if(victim->getSnake()->boostedLastMove())`: the
boost loss is dropped as food, and a bot that is too small now dies. -/
def FieldState.applyBoostLoss (fcfg : FieldConfig) (lm : Libm) (fuel : Nat) (victim : BotId)
    (w : FieldState) : Option FieldState := do
  let lossValue := fcfg.SNAKE_BOOST_LOSS_FACTOR * (w.snakes victim).m_mass
  let w ← w.dropFood fcfg lm fuel victim lossValue
  if (w.snakes victim).m_mass < fcfg.SNAKE_SELF_KILL_MASS_THESHOLD then
    w.killBot fcfg lm fuel victim victim
  else
    some w

/-- The body of the loop "collision check for all bots" of `Field::moveAllBots`. -/
def FieldState.resolveJob (cfg : Config) (fcfg : FieldConfig) (lm : Libm) (fuel : Nat)
    (job : Job) (w : FieldState) : Option FieldState :=
  let victim := job.bot
  let steps := job.steps
  match job.killer with
  | some killer =>
    let killerMass := (w.snakes killer).m_mass
    let victimMass := (w.snakes victim).m_mass
    if killerMass > victimMass * FieldConfig.KILLER_MIN_MASS_RATIO fcfg then
      w.killBot fcfg lm fuel victim killer
    else
      some w
  | none =>
    let w := { w with calls := w.calls ++ [Call.botMoved victim steps] }
    (if w.boostedLastMove victim then w.applyBoostLoss fcfg lm fuel victim else some w).bind
      (fun w =>
        ((w.snakes victim).ensureSizeMatchesMass cfg lm).map
          (fun snake => { w with snakes := Function.update w.snakes victim snake }))

/-- The function `Field::updateSnakeSegmentMap`. -/
def FieldState.updateSnakeSegmentMap (w : FieldState) : FieldState :=
  let map := w.m_segmentInfoMap.clear
  let map := w.m_bots.foldl
    (fun map b => (w.snakes b).m_segments.foldl (fun map s => map.addElement (s, b)) map) map
  { w with m_segmentInfoMap := map }

/-- The last part of `Field::moveAllBots`, from the loop "collision check for all bots" on:
`jobs` are the processed jobs of the second round in the order in which
`getProcessedJob` hands them out, `w` is the field after the second round. The two rounds on
the thread pool are not modelled. -/
def FieldState.moveAllBots (cfg : Config) (fcfg : FieldConfig) (lm : Libm) (fuel : Nat)
    (jobs : List Job) (w : FieldState) : Option FieldState :=
  (forEach (FieldState.resolveJob cfg fcfg lm fuel) jobs w).map FieldState.updateSnakeSegmentMap

/-- The field `w'` arises from `w` by spawning the food items `new` (oldest first): the items
are appended to the food map and reported to the tracker, values of the generator are used
up, and nothing else changes. -/
def FoodSpawned (w w' : FieldState) (new : List FoodItem) : Prop :=
  w'.size = w.size ∧ w'.m_bots = w.m_bots ∧ w'.snakes = w.snakes ∧
  w'.boostedLastMove = w.boostedLastMove ∧ w'.m_segmentInfoMap = w.m_segmentInfoMap ∧
  w'.m_botKilledCallbacks = w.m_botKilledCallbacks ∧
  w'.m_foodMap.elements = w.m_foodMap.elements ++ new ∧
  w'.calls = w.calls ++ new.map Call.foodSpawned ∧
  ∃ k, ∀ i, w'.m_rndGen.foodSize i = w.m_rndGen.foodSize (i + k)

/-- The sum of the values of a list of food items. -/
def totalFoodValue (foods : List FoodItem) : ℚ := (foods.map (fun food => food.m_value)).sum

/-- The offset from the centre at which `Field::createDynamicFood` puts its next food item:
the next value of the unit distribution times `radius`, in the direction of the next
value of the angle distribution. -/
def FieldState.nextFoodOffset (lm : Libm) (w : FieldState) (radius : ℚ) : Vector2D :=
  (Vector2D.mk (lm.cos (w.m_rndGen.angleRad 0)) (lm.sin (w.m_rndGen.angleRad 0))).smul
    (radius * w.m_rndGen.simple0To1 0)

/-- The value of the next food item of `Field::createDynamicFood` when `remainingValue` is
left: the next value of the food-size distribution if `remainingValue` exceeds
`FOOD_SIZE_MEAN`, and `remainingValue` otherwise. -/
def FieldState.nextFoodValue (fcfg : FieldConfig) (w : FieldState) (remainingValue : ℚ) : ℚ :=
  if remainingValue > fcfg.FOOD_SIZE_MEAN then w.m_rndGen.foodSize 0 else remainingValue

/-- The field after one iteration of the loop of `Field::createDynamicFood` that was entered
with `remainingValue` and put its food item at the wrapped position `pos`. -/
def FieldState.afterDynamicFood (fcfg : FieldConfig) (w : FieldState) (remainingValue : ℚ)
    (pos : Vector2D) (hunter : Option BotId) : FieldState :=
  { w with
    m_rndGen :=
      (if remainingValue > fcfg.FOOD_SIZE_MEAN then w.m_rndGen.drawFoodSize
        else (remainingValue, w.m_rndGen)).2.drawSimple0To1.2.drawAngleRad.2
    calls := w.calls ++
      [Call.foodSpawned
        { pos := pos, m_value := w.nextFoodValue fcfg remainingValue, isStatic := false,
          hunter := hunter }]
    m_foodMap := w.m_foodMap.addElement
      { pos := pos, m_value := w.nextFoodValue fcfg remainingValue, isStatic := false,
        hunter := hunter } }

/-- The conditions under which the loops of `Field` terminate: the world has a positive size
and the values of the food-size distribution are at least `δ`. -/
def FieldState.Regular (w : FieldState) (δ : ℚ) : Prop :=
  0 < w.size.m_width ∧ 0 < w.size.m_height ∧ ∀ i, δ ≤ w.m_rndGen.foodSize i

/-- The field `w'` arises from `w` by steps of the kill resolution: the size of the world,
the boost flags and the callbacks are the same, and values of the generator are used up. -/
def Frame (w w' : FieldState) : Prop :=
  w'.size = w.size ∧ w'.boostedLastMove = w.boostedLastMove ∧
  w'.m_botKilledCallbacks = w.m_botKilledCallbacks ∧
  ∃ k, ∀ i, w'.m_rndGen.foodSize i = w.m_rndGen.foodSize (i + k)

/-- The calls that `Field::killBot` makes after the food is spawned: `botKilled` on the
tracker, then the registered callbacks. -/
def killCalls (callbacks : Nat) (victim killer : BotId) : List Call :=
  Call.botKilled killer victim ::
    (List.range callbacks).map (fun c => Call.botKilledCallback c victim killer)

/-- What the kill resolution decides on: the set of bots and the mass of every bot. -/
structure Standing where
  bots : List BotId
  mass : BotId → ℚ

/-- The standing of a field. -/
def FieldState.standing (w : FieldState) : Standing :=
  ⟨w.m_bots, fun b => (w.snakes b).m_mass⟩

/-- Whether the job removes its bot from the set of bots, given the masses `mass` at the
time the job is processed. -/
def Job.removes (fcfg : FieldConfig) (boosted : BotId → Bool) (job : Job) (mass : BotId → ℚ) :
    Bool :=
  match job.killer with
  | some killer => decide (mass killer > mass job.bot * FieldConfig.KILLER_MIN_MASS_RATIO fcfg)
  | none =>
    boosted job.bot &&
      decide (mass job.bot - fcfg.SNAKE_BOOST_LOSS_FACTOR * mass job.bot
        < fcfg.SNAKE_SELF_KILL_MASS_THESHOLD)

/-- The mass of the bot of the job after the job is processed. -/
def Job.massAfter (fcfg : FieldConfig) (boosted : BotId → Bool) (job : Job) (mass : BotId → ℚ) :
    ℚ :=
  match job.killer with
  | some _ => mass job.bot
  | none =>
    if boosted job.bot then mass job.bot - fcfg.SNAKE_BOOST_LOSS_FACTOR * mass job.bot
    else mass job.bot

/-- The effect of one job of the kill resolution on the standing. -/
def Standing.resolve (fcfg : FieldConfig) (boosted : BotId → Bool) (a : Standing) (job : Job) :
    Standing :=
  ⟨if job.removes fcfg boosted a.mass then a.bots.filter (fun b => b ≠ job.bot) else a.bots,
    Function.update a.mass job.bot (job.massAfter fcfg boosted a.mass)⟩

/-! ## Sample fields -/

/-- A sample configuration of the field: food-size mean `3.5`, killer mass ratio `1.5`, boost
loss `10 %`, self-kill threshold `1`, conversion factor `1`. -/
def sampleFieldConfig : FieldConfig :=
  { FOOD_SIZE_MEAN := 7 / 2
    KILLER_MIN_MASS_RATIO := 3 / 2
    SNAKE_BOOST_LOSS_FACTOR := 1 / 10
    SNAKE_SELF_KILL_MASS_THESHOLD := 1
    SNAKE_CONVERSION_FACTOR := 1 }

/-- A generator for which every food-size value is `size` and all other values are `0`. -/
def constantRndGen (size : ℚ) : RndGen :=
  { foodSize := fun _ => size
    positionX := fun _ => 0
    positionY := fun _ => 0
    angleRad := fun _ => 0
    simple0To1 := fun _ => 0 }

/-- A field of size `60 × 20` without food, with one callback and the bots `0`, `1`, ...
whose snakes are the sample snake with the masses and boost flags given. -/
def fieldOf (bots : List BotId) (mass : BotId → ℚ) (boosted : BotId → Bool) (size : ℚ) :
    FieldState :=
  { size := ⟨60, 20⟩
    m_bots := bots
    snakes := fun b => { sampleSnake with m_mass := mass b }
    boostedLastMove := boosted
    m_foodMap := ⟨[]⟩
    m_segmentInfoMap := ⟨[]⟩
    m_rndGen := constantRndGen size
    m_botKilledCallbacks := 1
    calls := [] }

/-- The field of the scenario "mass-gated kill rejected": bot `0` of mass `2.5`, bot `1` of
mass `2`, which boosted in its last move; every food-size value is `6`. -/
def sampleField : FieldState :=
  fieldOf [0, 1] (fun b => if b = 0 then 5 / 2 else 2) (fun b => decide (b = 1)) 6

/-- A field with a boosting bot `0` of mass `3.1` and a bot `1` of mass `2`. -/
def boostField : FieldState :=
  fieldOf [0, 1] (fun b => if b = 0 then 31 / 10 else 2) (fun b => decide (b = 0)) 6

/-- The job of bot `0`, without killer, and the job of bot `1`, with killer `0`. -/
def boostJobs : List Job := [⟨0, 1, none⟩, ⟨1, 1, some 0⟩]

/-- A field with bot `0` of mass `5`, bot `1` of mass `2` and a boosting bot `2` of mass `1`. -/
def trioField : FieldState :=
  fieldOf [0, 1, 2] (fun b => if b = 0 then 5 else if b = 1 then 2 else 1)
    (fun b => decide (b = 2)) 6

/-- The jobs of the bots `0` (no killer), `1` (killer `0`) and `2` (no killer, three steps). -/
def trioJobs : List Job := [⟨0, 1, none⟩, ⟨1, 1, some 0⟩, ⟨2, 3, none⟩]

/-- The sample snake with mass `10`. -/
def heavySnake : Snake := { sampleSnake with m_mass := 10 }

/-! ## Results of bounded loops -/

/-- The computation `F`, which takes a bound on the number of loop iterations, returns `r`:
with every sufficiently large bound the result is `some r`. -/
def Returns {α : Type} (F : Nat → Option α) (r : α) : Prop :=
  ∃ N, ∀ n, N ≤ n → F n = some r

theorem Returns.unique {α : Type} {F : Nat → Option α} {a b : α}
    (ha : Returns F a) (hb : Returns F b) : a = b := by
  obtain ⟨N, hN⟩ := ha
  obtain ⟨M, hM⟩ := hb
  have h1 := hN (max N M) (le_max_left _ _)
  have h2 := hM (max N M) (le_max_right _ _)
  rw [h1] at h2
  exact Option.some.inj h2

theorem Returns.pure {α : Type} (a : α) : Returns (fun _ => some a) a :=
  ⟨0, fun _ _ => rfl⟩

theorem Returns.bind {α β : Type} {F : Nat → Option α} {G : Nat → α → Option β} {a : α} {b : β}
    (hF : Returns F a) (hG : Returns (fun n => G n a) b) :
    Returns (fun n => (F n).bind (G n)) b := by
  obtain ⟨N, hN⟩ := hF
  obtain ⟨M, hM⟩ := hG
  refine ⟨max N M, fun n hn => ?_⟩
  show (F n).bind (G n) = some b
  rw [hN n (le_trans (le_max_left _ _) hn)]
  exact hM n (le_trans (le_max_right _ _) hn)

theorem Returns.map {α β : Type} {F : Nat → Option α} {a : α} (g : α → β)
    (hF : Returns F a) : Returns (fun n => (F n).map g) (g a) := by
  obtain ⟨N, hN⟩ := hF
  refine ⟨N, fun n hn => ?_⟩
  show (F n).map g = some (g a)
  rw [hN n hn]
  rfl

theorem whileLoop_of_not_cond {σ : Type} (cond : σ → Bool) (body : σ → Option σ) (fuel : Nat)
    (s : σ) (h : cond s = false) : whileLoop cond body fuel s = some s := by
  cases fuel <;> simp [whileLoop, h]

/-- Total correctness of `whileLoop`: under an invariant `I` that the body keeps while it
decreases the measure `μ`, the loop returns a state that satisfies `I` and falsifies the
condition; `μ s` iterations are enough. -/
theorem whileLoop_converges {σ : Type} (cond : σ → Bool) (body : σ → Option σ)
    (I : σ → Prop) (μ : σ → Nat)
    (hstep : ∀ s, I s → cond s = true → ∃ t, body s = some t ∧ I t ∧ μ t < μ s) :
    ∀ (k : Nat) (s : σ), I s → μ s ≤ k →
      ∃ r, I r ∧ cond r = false ∧ ∀ n, k ≤ n → whileLoop cond body n s = some r := by
  intro k
  induction k with
  | zero =>
    intro s hI hk
    by_cases hc : cond s = true
    · obtain ⟨t, _, _, ht⟩ := hstep s hI hc
      omega
    · have hc' : cond s = false := by simpa using hc
      exact ⟨s, hI, hc', fun n _ => whileLoop_of_not_cond cond body n s hc'⟩
  | succ k ih =>
    intro s hI hk
    by_cases hc : cond s = true
    · obtain ⟨t, hbody, hIt, ht⟩ := hstep s hI hc
      obtain ⟨r, hIr, hcr, hr⟩ := ih t hIt (by omega)
      refine ⟨r, hIr, hcr, fun n hn => ?_⟩
      obtain ⟨m, rfl⟩ : ∃ m, n = m + 1 := ⟨n - 1, by omega⟩
      simp only [whileLoop, hc, if_true, hbody, Option.some_bind]
      exact hr m (by omega)
    · have hc' : cond s = false := by simpa using hc
      exact ⟨s, hI, hc', fun n _ => whileLoop_of_not_cond cond body n s hc'⟩

theorem whileLoop_returns {σ : Type} (cond : σ → Bool) (body : σ → Option σ)
    (I : σ → Prop) (μ : σ → Nat)
    (hstep : ∀ s, I s → cond s = true → ∃ t, body s = some t ∧ I t ∧ μ t < μ s)
    (s : σ) (hI : I s) :
    ∃ r, Returns (fun n => whileLoop cond body n s) r ∧ I r ∧ cond r = false := by
  obtain ⟨r, hIr, hcr, hr⟩ := whileLoop_converges cond body I μ hstep (μ s) s hI le_rfl
  exact ⟨r, ⟨μ s, hr⟩, hIr, hcr⟩

/-- Total correctness of `forLoop` with a body that takes a bound of its own: an invariant
indexed by the loop counter. -/
theorem forLoop_returns {σ : Type} (body : Nat → Nat → σ → Option σ) (I : Nat → σ → Prop) :
    ∀ (count start : Nat) (s : σ),
      (∀ i t, start ≤ i → i < start + count → I i t →
        ∃ r, Returns (fun n => body n i t) r ∧ I (i + 1) r) →
      I start s →
      ∃ r, Returns (fun n => forLoop (body n) start count s) r ∧ I (start + count) r := by
  intro count
  induction count with
  | zero =>
    intro start s _ hI
    exact ⟨s, ⟨0, fun _ _ => rfl⟩, hI⟩
  | succ count ih =>
    intro start s hbody hI
    obtain ⟨t, ht, hIt⟩ := hbody start s le_rfl (by omega) hI
    obtain ⟨r, hr, hIr⟩ := ih (start + 1) t
      (fun i u h1 h2 hu => hbody i u (by omega) (by omega) hu) hIt
    refine ⟨r, ?_, ?_⟩
    · exact Returns.bind ht hr
    · have : start + (count + 1) = start + 1 + count := by omega
      rw [this]
      exact hIr

/-! ## The loops of `wrapCoords` and `unwrapCoords` in one coordinate -/

theorem ceil_toNat_decreases {q : ℚ} (hq : 0 < q) : ⌈q - 1⌉.toNat < ⌈q⌉.toNat := by
  have h1 : ⌈q - 1⌉ = ⌈q⌉ - 1 := Int.ceil_sub_one q
  have h2 : 0 < ⌈q⌉ := Int.ceil_pos.mpr hq
  omega

/-- The loop `while (x < c) x += W;` for `W > 0`: it returns the first of `x`, `x + W`,
`x + 2W`, ... that is not below `c`. -/
theorem addLoop_returns {cond : ℚ → Bool} {c W : ℚ} (hc : ∀ x, cond x = true ↔ x < c)
    (hW : 0 < W) (x : ℚ) :
    ∃ r, Returns (fun n => whileLoop cond (fun x => some (x + W)) n x) r ∧
      c ≤ r ∧ (∃ k : ℕ, r = x + k * W) ∧ (x < c → r < c + W) ∧ (c ≤ x → r = x) := by
  obtain ⟨r, hr, hI, hcr⟩ := whileLoop_returns cond (fun x => some (x + W))
    (fun s => (∃ k : ℕ, s = x + k * W) ∧ (x < c → s < c + W) ∧ (c ≤ x → s = x))
    (fun s => ⌈(c - s) / W⌉.toNat)
    (by
      intro s hs hcs
      have hsc : s < c := (hc s).mp hcs
      obtain ⟨⟨k, hk⟩, h2, h3⟩ := hs
      refine ⟨s + W, rfl, ⟨⟨k + 1, ?_⟩, ?_, ?_⟩, ?_⟩
      · rw [hk]; push_cast; ring
      · intro _; linarith
      · intro hx; have := h3 hx; linarith
      · have hq : 0 < (c - s) / W := div_pos (by linarith) hW
        have he : (c - (s + W)) / W = (c - s) / W - 1 := by
          field_simp
          ring
        show ⌈(c - (s + W)) / W⌉.toNat < ⌈(c - s) / W⌉.toNat
        rw [he]
        exact ceil_toNat_decreases hq)
    x ⟨⟨0, by simp⟩, fun h => by linarith, fun _ => rfl⟩
  refine ⟨r, hr, ?_, hI⟩
  by_contra hlt
  have : cond r = true := (hc r).mpr (not_le.mp hlt)
  rw [hcr] at this
  exact Bool.false_ne_true this

/-- The loop `while (x > c) x -= W;` for `W > 0`: it returns the first of `x`, `x - W`,
`x - 2W`, ... that is not above `c`. -/
theorem subLoop_returns {cond : ℚ → Bool} {c W : ℚ} (hc : ∀ x, cond x = true ↔ c < x)
    (hW : 0 < W) (x : ℚ) :
    ∃ r, Returns (fun n => whileLoop cond (fun x => some (x - W)) n x) r ∧
      r ≤ c ∧ (∃ k : ℕ, r = x - k * W) ∧ (c < x → c - W < r) ∧ (x ≤ c → r = x) := by
  obtain ⟨r, hr, hI, hcr⟩ := whileLoop_returns cond (fun x => some (x - W))
    (fun s => (∃ k : ℕ, s = x - k * W) ∧ (c < x → c - W < s) ∧ (x ≤ c → s = x))
    (fun s => ⌈(s - c) / W⌉.toNat)
    (by
      intro s hs hcs
      have hsc : c < s := (hc s).mp hcs
      obtain ⟨⟨k, hk⟩, h2, h3⟩ := hs
      refine ⟨s - W, rfl, ⟨⟨k + 1, ?_⟩, ?_, ?_⟩, ?_⟩
      · rw [hk]; push_cast; ring
      · intro _; linarith
      · intro hx; have := h3 hx; linarith
      · have hq : 0 < (s - c) / W := div_pos (by linarith) hW
        have he : (s - W - c) / W = (s - c) / W - 1 := by
          field_simp
          ring
        show ⌈(s - W - c) / W⌉.toNat < ⌈(s - c) / W⌉.toNat
        rw [he]
        exact ceil_toNat_decreases hq)
    x ⟨⟨0, by simp⟩, fun h => by linarith, fun _ => rfl⟩
  refine ⟨r, hr, ?_, hI⟩
  by_contra hlt
  have : cond r = true := (hc r).mpr (not_le.mp hlt)
  rw [hcr] at this
  exact Bool.false_ne_true this

/-- The two loops `while (x < c) x += W; while (x > c + W) x -= W;` that `wrapCoords` and
`unwrapCoords` run on each coordinate: `a` is the value after the first loop, `r` the value
after the second one. -/
theorem seamLoops_returns (cond1 cond2 : ℚ → Bool) (c W : ℚ)
    (hc1 : ∀ x, cond1 x = true ↔ x < c) (hc2 : ∀ x, cond2 x = true ↔ c + W < x)
    (hW : 0 < W) (x : ℚ) :
    ∃ a r, Returns (fun n => whileLoop cond1 (fun x => some (x + W)) n x) a ∧
      Returns (fun n => whileLoop cond2 (fun x => some (x - W)) n a) r ∧
      c ≤ r ∧ r ≤ c + W ∧ (∃ i : ℤ, r = x + i * W) ∧
      (x < c → r < c + W) ∧ (c + W < x → c < r) ∧ (c ≤ x → x ≤ c + W → r = x) := by
  obtain ⟨a, ha, ha1, ⟨k, hk⟩, ha2, ha3⟩ := addLoop_returns hc1 hW x
  obtain ⟨r, hr, hr1, ⟨l, hl⟩, hr2, hr3⟩ := subLoop_returns hc2 hW a
  refine ⟨a, r, ha, hr, ?_, hr1, ⟨(k : ℤ) - l, ?_⟩, ?_, ?_, ?_⟩
  · rcases le_or_lt a (c + W) with h | h
    · rw [hr3 h]; exact ha1
    · have := hr2 h; linarith
  · rw [hl, hk]; push_cast; ring
  · intro hx
    have h := ha2 hx
    rw [hr3 h.le]; exact h
  · intro hx
    have h : a = x := ha3 (by linarith)
    rw [h] at hr2
    have := hr2 hx
    linarith
  · intro h1 h2
    have h : a = x := ha3 h1
    rw [hr3 (by rw [h]; exact h2), h]

/-- Total correctness of `Field::wrapCoords` in a world of positive size: the result lies in
the closed rectangle `[0, W] × [0, H]` and differs from the argument by a multiple of the
world size; the value `W` (resp. `H`) is reached only from above, and a coordinate that
already lies in `[0, W]` (resp. `[0, H]`) is kept. -/
theorem wrapCoords_returns (f : Field) (hW : 0 < f.m_width) (hH : 0 < f.m_height)
    (v : Vector2D) :
    ∃ r, Returns (fun n => f.wrapCoords n v) r ∧
      (0 ≤ r.x ∧ r.x ≤ f.m_width ∧ (∃ i : ℤ, r.x = v.x + i * f.m_width) ∧
        (v.x < 0 → r.x < f.m_width) ∧ (f.m_width < v.x → 0 < r.x) ∧
        (0 ≤ v.x → v.x ≤ f.m_width → r.x = v.x)) ∧
      (0 ≤ r.y ∧ r.y ≤ f.m_height ∧ (∃ j : ℤ, r.y = v.y + j * f.m_height) ∧
        (v.y < 0 → r.y < f.m_height) ∧ (f.m_height < v.y → 0 < r.y) ∧
        (0 ≤ v.y → v.y ≤ f.m_height → r.y = v.y)) := by
  obtain ⟨a, x, ha, hx, px1, px2, px3, px4, px5, px6⟩ :=
    seamLoops_returns (fun x => decide (x < 0)) (fun x => decide (x > f.m_width))
      0 f.m_width (by simp) (by simp) hW v.x
  obtain ⟨b, y, hb, hy, py1, py2, py3, py4, py5, py6⟩ :=
    seamLoops_returns (fun y => decide (y < 0)) (fun y => decide (y > f.m_height))
      0 f.m_height (by simp) (by simp) hH v.y
  refine ⟨⟨x, y⟩, ?_, ⟨px1, by simpa using px2, px3, by simpa using px4, by simpa using px5,
    by simpa using px6⟩, ⟨py1, by simpa using py2, py3, by simpa using py4, by simpa using py5,
    by simpa using py6⟩⟩
  exact Returns.bind ha (Returns.bind hx (Returns.bind hb (Returns.bind hy (Returns.pure _))))

/-- Total correctness of `Field::unwrapCoords` in a world of positive size: the result
differs from `v` by a multiple of the world size and from `ref` by at most half the world
size in each coordinate. -/
theorem unwrapCoords_returns (f : Field) (hW : 0 < f.m_width) (hH : 0 < f.m_height)
    (v ref : Vector2D) :
    ∃ r, Returns (fun n => f.unwrapCoords n v ref) r ∧
      (-f.m_width / 2 ≤ r.x - ref.x ∧ r.x - ref.x ≤ f.m_width / 2 ∧
        (∃ i : ℤ, r.x = v.x + i * f.m_width) ∧
        (-f.m_width / 2 ≤ v.x - ref.x → v.x - ref.x ≤ f.m_width / 2 → r.x = v.x)) ∧
      (-f.m_height / 2 ≤ r.y - ref.y ∧ r.y - ref.y ≤ f.m_height / 2 ∧
        (∃ j : ℤ, r.y = v.y + j * f.m_height) ∧
        (-f.m_height / 2 ≤ v.y - ref.y → v.y - ref.y ≤ f.m_height / 2 → r.y = v.y)) := by
  obtain ⟨a, x, ha, hx, px1, px2, px3, -, -, px6⟩ :=
    seamLoops_returns (fun x => decide (x - ref.x < -f.m_width / 2))
      (fun x => decide (x - ref.x > f.m_width / 2))
      (ref.x - f.m_width / 2) f.m_width
      (by intro x; simp only [decide_eq_true_eq]; constructor <;> intro h <;> linarith)
      (by intro x; simp only [decide_eq_true_eq, gt_iff_lt]; constructor <;> intro h <;> linarith)
      hW v.x
  obtain ⟨b, y, hb, hy, py1, py2, py3, -, -, py6⟩ :=
    seamLoops_returns (fun y => decide (y - ref.y < -f.m_height / 2))
      (fun y => decide (y - ref.y > f.m_height / 2))
      (ref.y - f.m_height / 2) f.m_height
      (by intro x; simp only [decide_eq_true_eq]; constructor <;> intro h <;> linarith)
      (by intro x; simp only [decide_eq_true_eq, gt_iff_lt]; constructor <;> intro h <;> linarith)
      hH v.y
  refine ⟨⟨x, y⟩, ?_, ⟨by show _ ≤ x - ref.x; linarith, by show x - ref.x ≤ _; linarith, px3,
      fun h1 h2 => px6 (by linarith) (by linarith)⟩,
    ⟨by show _ ≤ y - ref.y; linarith, by show y - ref.y ≤ _; linarith, py3,
      fun h1 h2 => py6 (by linarith) (by linarith)⟩⟩
  exact Returns.bind ha (Returns.bind hx (Returns.bind hb (Returns.bind hy (Returns.pure _))))

/-! ## Claims on the toroidal utilities -/

/-- C1 (code evaluated at the failing input): in the world of `main.cpp`, of size `60 × 20`,
the position `(0, 0)` unwrapped relative to `(40, 0)` is `(60, 0)`, which `wrapCoords` keeps,
while `wrapCoords` keeps `(0, 0)` as well: `wrapCoords (unwrapCoords p ref)` and
`wrapCoords p` differ. -/
theorem wrapCoords_unwrapCoords_seam :
    Returns (fun n => Field.unwrapCoords ⟨60, 20⟩ n ⟨0, 0⟩ ⟨40, 0⟩) ⟨60, 0⟩ ∧
    Returns (fun n => Field.wrapCoords ⟨60, 20⟩ n ⟨60, 0⟩) ⟨60, 0⟩ ∧
    Returns (fun n => Field.wrapCoords ⟨60, 20⟩ n ⟨0, 0⟩) ⟨0, 0⟩ ∧
    (⟨60, 0⟩ : Vector2D) ≠ ⟨0, 0⟩ := by
  refine ⟨⟨1, fun n hn => ?_⟩, ⟨0, fun n _ => ?_⟩, ⟨0, fun n _ => ?_⟩, by decide⟩
  · obtain ⟨m, rfl⟩ : ∃ m, n = m + 1 := ⟨n - 1, by omega⟩
    norm_num [Field.unwrapCoords, whileLoop, whileLoop_of_not_cond]
  · norm_num [Field.wrapCoords, whileLoop_of_not_cond]
  · norm_num [Field.wrapCoords, whileLoop_of_not_cond]

/-- C2 (code evaluated at the failing input): in the world of size `60 × 20`, `wrapCoords`
returns `(60, 20)` for `(60, 20)`, whatever the bound on the loops: the result is not in
`[0, 60) × [0, 20)`. -/
theorem wrapCoords_keeps_far_edge (n : Nat) :
    Field.wrapCoords ⟨60, 20⟩ n ⟨60, 20⟩ = some ⟨60, 20⟩ := by
  norm_num [Field.wrapCoords, whileLoop_of_not_cond]

/-- C3: in a world of positive size, `unwrapCoords p ref` returns a representative of `p`
(each coordinate differs from that of `p` by an integer multiple of the world size) whose
distance from `ref` is at most half the world size in each coordinate. -/
theorem unwrapCoords_short_path (f : Field) (hW : 0 < f.m_width) (hH : 0 < f.m_height)
    (p ref : Vector2D) :
    ∃ r, Returns (fun n => f.unwrapCoords n p ref) r ∧
      (∃ i j : ℤ, r.x = p.x + i * f.m_width ∧ r.y = p.y + j * f.m_height) ∧
      |r.x - ref.x| ≤ f.m_width / 2 ∧ |r.y - ref.y| ≤ f.m_height / 2 := by
  obtain ⟨r, hr, ⟨hx1, hx2, ⟨i, hi⟩, -⟩, ⟨hy1, hy2, ⟨j, hj⟩, -⟩⟩ :=
    unwrapCoords_returns f hW hH p ref
  refine ⟨r, hr, ⟨i, j, hi, hj⟩, ?_, ?_⟩
  · rw [abs_le]; constructor <;> linarith
  · rw [abs_le]; constructor <;> linarith

theorem unwrapCoords_short_path_witness :
    (0 : ℚ) < (⟨60, 20⟩ : Field).m_width ∧ (0 : ℚ) < (⟨60, 20⟩ : Field).m_height ∧
    ∃ r, Returns (fun n => Field.unwrapCoords ⟨60, 20⟩ n ⟨1, 19⟩ ⟨59, 1⟩) r ∧
      (∃ i j : ℤ, r.x = (⟨1, 19⟩ : Vector2D).x + i * (⟨60, 20⟩ : Field).m_width ∧
        r.y = (⟨1, 19⟩ : Vector2D).y + j * (⟨60, 20⟩ : Field).m_height) ∧
      |r.x - (⟨59, 1⟩ : Vector2D).x| ≤ (⟨60, 20⟩ : Field).m_width / 2 ∧
      |r.y - (⟨59, 1⟩ : Vector2D).y| ≤ (⟨60, 20⟩ : Field).m_height / 2 :=
  ⟨by norm_num, by norm_num,
    unwrapCoords_short_path ⟨60, 20⟩ (by norm_num) (by norm_num) ⟨1, 19⟩ ⟨59, 1⟩⟩

theorem truncate_intCast (z : ℤ) : truncate (z : ℚ) = z := by
  unfold truncate
  split <;> simp

/-- The value `q - truncate q` that rounding toward zero discards has the sign of `q` and is
smaller than `1` in absolute value. -/
theorem truncate_bounds (q : ℚ) : -1 < q - truncate q ∧ q - truncate q < 1 := by
  unfold truncate
  split
  · have h1 := Int.floor_le q
    have h2 := Int.lt_floor_add_one q
    constructor <;> linarith
  · have h1 := Int.le_ceil q
    have h2 := Int.ceil_lt_add_one q
    constructor <;> linarith

theorem fmod_bounds (x : ℚ) {W : ℚ} (hW : 0 < W) : -W < fmod x W ∧ fmod x W < W := by
  have h := truncate_bounds (x / W)
  have e : fmod x W = (x / W - truncate (x / W)) * W := by
    unfold fmod
    field_simp
    ring
  rw [e]
  constructor <;> nlinarith [h.1, h.2]

/-- C4 (counterexample): in a world of size `10 × 10` the displacement `(-5, 0)` is returned
unchanged, and `-5` is not in `(-10/2, 10/2]`. -/
theorem unwrapRelativeCoords_lower_end :
    ∃ r, Field.unwrapRelativeCoords ⟨10, 10⟩ ⟨-5, 0⟩ = some r ∧
      ¬ (-(10 : ℚ) / 2 < r.x ∧ r.x ≤ 10 / 2) := by
  have h1 : truncate (-5 / 10 : ℚ) = 0 := by
    unfold truncate; rw [if_neg (by norm_num), Int.ceil_eq_iff]; norm_num
  have h2 : truncate (10 : ℚ) = 10 := truncate_intCast 10
  have h3 : truncate (0 / 10 : ℚ) = 0 := by simpa using truncate_intCast 0
  have h4 : Int.tdiv (-10) 2 = -5 := by decide
  have h5 : Int.tdiv 10 2 = 5 := by decide
  refine ⟨⟨-5, 0⟩, ?_, by norm_num⟩
  simp only [Field.unwrapRelativeCoords, fmod, toInt, h1, h2, h3]
  norm_num [h4, h5]

/-- One coordinate of `unwrapRelativeCoords` for an even size `W = 2a`: the value `x2` after
the two conditional corrections lies in `[-W/2, W/2]`. -/
theorem unwrapRelative_coordinate (x : ℚ) (a : ℤ) (ha : 0 < a) (W x0 x1 x2 : ℚ)
    (hWa : W = 2 * a) (h0 : x0 = fmod x W)
    (h1 : x1 = if x0 > W / 2 then x0 - W else x0)
    (h2 : x2 = if x1 < ((Int.tdiv (-(2 * a)) 2 : ℤ) : ℚ) then x1 + W else x1) :
    -W / 2 ≤ x2 ∧ x2 ≤ W / 2 := by
  have hW : 0 < W := by
    have : (0 : ℚ) < a := by exact_mod_cast ha
    linarith
  have hd : ((Int.tdiv (-(2 * a)) 2 : ℤ) : ℚ) = -W / 2 := by
    rw [Int.neg_tdiv, Int.mul_tdiv_cancel_left _ (by norm_num), hWa]
    push_cast
    ring
  obtain ⟨hf1, hf2⟩ := fmod_bounds x hW
  rw [← h0] at hf1 hf2
  have hx1 : -W < x1 ∧ x1 ≤ W / 2 := by
    rw [h1]
    split
    · constructor <;> linarith
    · constructor <;> linarith
  rw [h2, hd]
  split
  · constructor <;> linarith [hx1.1, hx1.2]
  · constructor <;> linarith [hx1.1, hx1.2]

theorem toInt_intCast (z : ℤ) (h1 : -2 ^ 31 ≤ z) (h2 : z < 2 ^ 31) : toInt (z : ℚ) = some z := by
  have h1' : (-2 ^ 31 - 1 : ℚ) < z := by
    have : ((-2 ^ 31 : ℤ) : ℚ) ≤ z := by exact_mod_cast h1
    push_cast at this
    linarith
  have h2' : (z : ℚ) < 2 ^ 31 := by exact_mod_cast h2
  rw [toInt, if_pos ⟨h1', h2'⟩, truncate_intCast]

/-- C4 (amended): when the width and the height of the world are positive even integers
that fit the type `int`, `unwrapRelativeCoords` returns a displacement whose components lie
in the closed intervals `[-W/2, W/2]` and `[-H/2, H/2]`. -/
theorem unwrapRelativeCoords_even_size (f : Field) (a b : ℤ) (ha : 0 < a) (hb : 0 < b)
    (ha2 : a < 2 ^ 30) (hb2 : b < 2 ^ 30) (hw : f.m_width = 2 * a) (hh : f.m_height = 2 * b)
    (d : Vector2D) :
    ∃ r, f.unwrapRelativeCoords d = some r ∧
      (-f.m_width / 2 ≤ r.x ∧ r.x ≤ f.m_width / 2) ∧
      (-f.m_height / 2 ≤ r.y ∧ r.y ≤ f.m_height / 2) := by
  have hiw : toInt f.m_width = some (2 * a) := by
    rw [hw]
    have := toInt_intCast (2 * a) (by omega) (by omega)
    push_cast at this
    exact this
  have hih : toInt f.m_height = some (2 * b) := by
    rw [hh]
    have := toInt_intCast (2 * b) (by omega) (by omega)
    push_cast at this
    exact this
  simp only [Field.unwrapRelativeCoords, hiw, hih, Option.bind_eq_bind, Option.some_bind,
    Option.some.injEq, exists_eq_left']
  exact ⟨unwrapRelative_coordinate d.x a ha f.m_width _ _ _ hw rfl rfl rfl,
    unwrapRelative_coordinate d.y b hb f.m_height _ _ _ hh rfl rfl rfl⟩

theorem unwrapRelativeCoords_even_size_witness :
    (0 : ℤ) < 30 ∧ (0 : ℤ) < 10 ∧ (30 : ℤ) < 2 ^ 30 ∧ (10 : ℤ) < 2 ^ 30 ∧
    (⟨60, 20⟩ : Field).m_width = 2 * (30 : ℤ) ∧ (⟨60, 20⟩ : Field).m_height = 2 * (10 : ℤ) ∧
    ∃ r, Field.unwrapRelativeCoords ⟨60, 20⟩ ⟨-31, 45⟩ = some r ∧
      (-(⟨60, 20⟩ : Field).m_width / 2 ≤ r.x ∧ r.x ≤ (⟨60, 20⟩ : Field).m_width / 2) ∧
      (-(⟨60, 20⟩ : Field).m_height / 2 ≤ r.y ∧ r.y ≤ (⟨60, 20⟩ : Field).m_height / 2) :=
  ⟨by norm_num, by norm_num, by norm_num, by norm_num, by norm_num, by norm_num,
    unwrapRelativeCoords_even_size ⟨60, 20⟩ 30 10 (by norm_num) (by norm_num) (by norm_num)
      (by norm_num) (by norm_num) (by norm_num) ⟨-31, 45⟩⟩

/-- The lower threshold of `unwrapRelativeCoords` for an odd size: in a world of size
`5 × 5` the threshold `-(int)m_width/2` is `-2`, and the displacement `(-23/10, 0)`, which
lies within `(-5/2, 5/2]`, is moved to `(27/10, 0)`. -/
theorem unwrapRelativeCoords_odd_size :
    Field.unwrapRelativeCoords ⟨5, 5⟩ ⟨-23 / 10, 0⟩ = some ⟨27 / 10, 0⟩ := by
  have h1 : truncate (-23 / 10 / 5 : ℚ) = 0 := by
    unfold truncate; rw [if_neg (by norm_num), Int.ceil_eq_iff]; norm_num
  have h2 : truncate (5 : ℚ) = 5 := truncate_intCast 5
  have h3 : truncate (0 / 5 : ℚ) = 0 := by simpa using truncate_intCast 0
  have h4 : Int.tdiv (-5) 2 = -2 := by decide
  have h5 : Int.tdiv 5 2 = 2 := by decide
  simp only [Field.unwrapRelativeCoords, fmod, toInt, h1, h2, h3]
  norm_num [h4, h5]

/-! ## Claims on `Snake::canConsume` -/

/-- Among the numbers `a + k W`, one with `|a| ≤ W / 2` has the least square. -/
theorem sq_le_sq_add_period {a W : ℚ} (hW : 0 < W) (h1 : -W / 2 ≤ a) (h2 : a ≤ W / 2) (k : ℤ) :
    a * a ≤ (a + k * W) * (a + k * W) := by
  rcases lt_trichotomy k 0 with hk | hk | hk
  · have hk' : (k : ℚ) ≤ -1 := by exact_mod_cast Int.le_sub_one_of_lt hk
    nlinarith [mul_nonneg (by linarith : (0 : ℚ) ≤ -1 - k) hW.le,
      mul_nonneg (by linarith : (0 : ℚ) ≤ -k) hW.le]
  · subst hk
    simp
  · have hk' : (1 : ℚ) ≤ k := by exact_mod_cast Int.add_one_le_of_lt hk
    nlinarith [mul_nonneg (by linarith : (0 : ℚ) ≤ k - 1) hW.le,
      mul_nonneg (by linarith : (0 : ℚ) ≤ k) hW.le]

/-- C5: in a world of positive size, for a snake with head segment `head`, `canConsume food`
returns a value `b`, the squared distances between the head and the copies of the food
shifted by multiples of the world size have a minimum `m` (the toroidal squared distance),
and `b` is true exactly when `m < (m_segmentRadius · SNAKE_CONSUME_RANGE)²`. -/
theorem canConsume_iff_toroidal_distance (cfg : Config) (f : Field) (s : Snake) (food : Food)
    (head : Segment) (rest : List Segment)
    (hW : 0 < f.m_width) (hH : 0 < f.m_height) (hs : s.m_segments = head :: rest) :
    ∃ b m, Returns (fun n => s.canConsume cfg f n food) b ∧
      IsLeast {d | ∃ i j : ℤ, d = shiftedSquaredDistance f head.pos food.pos i j} m ∧
      (b = true ↔ m < (s.m_segmentRadius * cfg.SNAKE_CONSUME_RANGE) ^ 2) := by
  obtain ⟨u, hu, ⟨hx1, hx2, ⟨i, hi⟩, -⟩, ⟨hy1, hy2, ⟨j, hj⟩, -⟩⟩ :=
    unwrapCoords_returns f hW hH food.pos head.pos
  refine ⟨decide ((head.pos.sub u).squaredNorm <
      s.getConsumeRadius cfg * s.getConsumeRadius cfg), (head.pos.sub u).squaredNorm, ?_, ⟨?_, ?_⟩, ?_⟩
  · have h0 : s.m_segments[0]? = some head := by rw [hs]; simp
    have := Returns.bind (G := fun _ unwrappedFoodPos =>
        some (decide ((head.pos.sub unwrappedFoodPos).squaredNorm <
          s.getConsumeRadius cfg * s.getConsumeRadius cfg))) hu (Returns.pure _)
    obtain ⟨N, hN⟩ := this
    refine ⟨N, fun n hn => ?_⟩
    have := hN n hn
    simp only [Snake.canConsume, h0, Option.bind_eq_bind, Option.some_bind]
    exact this
  · refine ⟨i, j, ?_⟩
    simp only [shiftedSquaredDistance, Vector2D.sub, Vector2D.add, Vector2D.squaredNorm, hi, hj]
  · rintro d ⟨k, l, rfl⟩
    simp only [shiftedSquaredDistance, Vector2D.sub, Vector2D.add, Vector2D.squaredNorm]
    have ex := sq_le_sq_add_period hW (a := head.pos.x - u.x) (by linarith) (by linarith) (i - k)
    have ey := sq_le_sq_add_period hH (a := head.pos.y - u.y) (by linarith) (by linarith) (j - l)
    have e1 : head.pos.x - u.x + ((i - k : ℤ) : ℚ) * f.m_width
        = head.pos.x - (food.pos.x + k * f.m_width) := by rw [hi]; push_cast; ring
    have e2 : head.pos.y - u.y + ((j - l : ℤ) : ℚ) * f.m_height
        = head.pos.y - (food.pos.y + l * f.m_height) := by rw [hj]; push_cast; ring
    rw [e1] at ex
    rw [e2] at ey
    linarith
  · simp only [decide_eq_true_eq, Snake.getConsumeRadius, pow_two]

theorem canConsume_iff_toroidal_distance_witness :
    (0 : ℚ) < (⟨10, 10⟩ : Field).m_width ∧ (0 : ℚ) < (⟨10, 10⟩ : Field).m_height ∧
    seamSnake.m_segments = ⟨⟨19 / 2, 5⟩⟩ :: [⟨⟨17 / 2, 5⟩⟩] ∧
    ∃ b m, Returns (fun n => seamSnake.canConsume sampleConfig ⟨10, 10⟩ n ⟨⟨1 / 2, 5⟩, 1⟩) b ∧
      IsLeast {d | ∃ i j : ℤ, d = shiftedSquaredDistance ⟨10, 10⟩
        (⟨⟨19 / 2, 5⟩⟩ : Segment).pos (⟨⟨1 / 2, 5⟩, 1⟩ : Food).pos i j} m ∧
      (b = true ↔ m < (seamSnake.m_segmentRadius * sampleConfig.SNAKE_CONSUME_RANGE) ^ 2) :=
  ⟨by norm_num, by norm_num, rfl,
    canConsume_iff_toroidal_distance sampleConfig ⟨10, 10⟩ seamSnake ⟨⟨1 / 2, 5⟩, 1⟩
      ⟨⟨19 / 2, 5⟩⟩ [⟨⟨17 / 2, 5⟩⟩] (by norm_num) (by norm_num) rfl⟩

/-- The seam scenario of the specification: in a world of size `10 × 10`, a head at
`(9.5, 5)` with consume radius `1.5` can consume the food at `(0.5, 5)`. -/
theorem canConsume_across_seam :
    Returns (fun n => seamSnake.canConsume sampleConfig ⟨10, 10⟩ n ⟨⟨1 / 2, 5⟩, 1⟩) true := by
  refine ⟨1, fun n hn => ?_⟩
  obtain ⟨m, rfl⟩ : ∃ m, n = m + 1 := ⟨n - 1, by omega⟩
  norm_num [Snake.canConsume, seamSnake, sampleSnake, sampleConfig, Snake.getConsumeRadius,
    Field.unwrapCoords, whileLoop, whileLoop_of_not_cond, Vector2D.sub, Vector2D.squaredNorm]

/-! ## The loops of `Snake::move` -/

theorem resize_length (segs : List Segment) (n : Nat) : (resize segs n).length = n := by
  simp only [resize, List.length_append, List.length_take, List.length_replicate]
  omega

theorem resize_of_le (segs : List Segment) (n : Nat) (h : n ≤ segs.length) :
    resize segs n = segs.take n := by
  simp [resize, Nat.sub_eq_zero_of_le h]

/-- One iteration of the loop "unwrap all coordinates": the length is kept, and so is the
head segment (it is unwrapped relative to itself). -/
theorem unwrapSegment_returns (f : Field) (hW : 0 < f.m_width) (hH : 0 < f.m_height)
    (i : Nat) (segs : List Segment) (hi : i < segs.length) :
    ∃ r, Returns (fun n => unwrapSegment f n i segs) r ∧ r.length = segs.length ∧
      r[0]? = segs[0]? := by
  have hcur : segs[i]? = some segs[i] := List.getElem?_eq_getElem hi
  obtain ⟨ref, href, hrefi⟩ : ∃ ref, (if i = 0 then segs[0]? else segs[i - 1]?) = some ref ∧
      (i = 0 → ref = segs[i]) := by
    by_cases h0 : i = 0
    · subst h0
      exact ⟨segs[0], by simp [hcur], fun _ => rfl⟩
    · have h1 : i - 1 < segs.length := by omega
      exact ⟨segs[i - 1], by simp [h0, List.getElem?_eq_getElem h1], fun h => absurd h h0⟩
  obtain ⟨u, ⟨N, hN⟩, ⟨-, -, -, hx⟩, ⟨-, -, -, hy⟩⟩ :=
    unwrapCoords_returns f hW hH segs[i].pos ref.pos
  refine ⟨segs.set i ⟨u⟩, ⟨N, fun n hn => ?_⟩, by simp, ?_⟩
  · simp only [unwrapSegment, href, hcur, hN n hn, Option.bind_eq_bind, Option.some_bind]
  · by_cases h0 : i = 0
    · have hr := hrefi h0
      have hu : u = segs[i].pos := by
        have ex := hx (by rw [hr]; linarith) (by rw [hr]; linarith)
        have ey := hy (by rw [hr]; linarith) (by rw [hr]; linarith)
        cases u
        cases hp : segs[i].pos
        simp only [hp] at ex ey
        simp only [Vector2D.mk.injEq]
        exact ⟨ex, ey⟩
      subst h0
      rw [hu, List.getElem?_set_self hi, hcur]
    · rw [List.getElem?_set_ne (by omega)]

/-- The loop "unwrap all coordinates" of `Snake::move` returns a list of the same length
with the same head segment. -/
theorem unwrapLoop_returns (f : Field) (hW : 0 < f.m_width) (hH : 0 < f.m_height)
    (segs : List Segment) :
    ∃ r, Returns (fun n => forLoop (unwrapSegment f n) 0 segs.length segs) r ∧
      r.length = segs.length ∧ r[0]? = segs[0]? := by
  obtain ⟨r, hr, hI⟩ := forLoop_returns (fun n => unwrapSegment f n)
    (fun _ t => t.length = segs.length ∧ t[0]? = segs[0]?) segs.length 0 segs
    (by
      intro i t _ hi ⟨ht1, ht2⟩
      obtain ⟨r, hr, h1, h2⟩ := unwrapSegment_returns f hW hH i t (by omega)
      exact ⟨r, hr, h1.trans ht1, h2.trans ht2⟩)
    ⟨rfl, rfl⟩
  exact ⟨r, hr, hI⟩

/-- The body of the inner loop of `Snake::move` succeeds when `m_segments[0]` exists. -/
theorem spawnSegment_eq (lm : Libm) (tsd : ℚ) (t : MoveState) (front : Segment)
    (h : t.m_segments[0]? = some front) :
    ∃ r, spawnSegment lm tsd t = some r ∧ r.m_heading = t.m_heading ∧
      r.headSegment = t.headSegment ∧ (∃ seg, r.m_segments = seg :: t.m_segments) ∧
      r.m_movedSinceLastSpawn = t.m_movedSinceLastSpawn - tsd := by
  simp only [spawnSegment, h, Option.bind_eq_bind, Option.some_bind, Option.some.injEq,
    exists_eq_left', true_and, and_true]
  exact ⟨_, rfl⟩

/-- The inner loop `while(m_movedSinceLastSpawn > m_targetSegmentDistance)` for a positive
target distance and a non-empty body: it terminates, puts new segments in front of the
body, one for each target distance taken off `m_movedSinceLastSpawn`, and leaves heading
and head alone. -/
theorem spawnLoop_returns (lm : Libm) (tsd : ℚ) (htsd : 0 < tsd) (st : MoveState)
    (hne : st.m_segments ≠ []) :
    ∃ r, Returns (fun n => whileLoop (fun st => decide (st.m_movedSinceLastSpawn > tsd))
        (spawnSegment lm tsd) n st) r ∧
      r.m_heading = st.m_heading ∧ r.headSegment = st.headSegment ∧
      (∃ pushed, r.m_segments = pushed ++ st.m_segments ∧
        r.m_movedSinceLastSpawn = st.m_movedSinceLastSpawn - pushed.length * tsd) ∧
      r.m_movedSinceLastSpawn ≤ tsd ∧ (st.m_movedSinceLastSpawn ≤ tsd → r = st) := by
  obtain ⟨r, hr, ⟨h1, h2, h3, h4⟩, hc⟩ := whileLoop_returns
    (fun st => decide (st.m_movedSinceLastSpawn > tsd)) (spawnSegment lm tsd)
    (fun t => t.m_heading = st.m_heading ∧ t.headSegment = st.headSegment ∧
      (∃ pushed, t.m_segments = pushed ++ st.m_segments ∧
        t.m_movedSinceLastSpawn = st.m_movedSinceLastSpawn - pushed.length * tsd) ∧
      (st.m_movedSinceLastSpawn ≤ tsd → t = st))
    (fun t => ⌈(t.m_movedSinceLastSpawn - tsd) / tsd⌉.toNat)
    (by
      intro t ⟨ht1, ht2, ⟨pushed, ht3, ht5⟩, ht4⟩ hcond
      have hgt : tsd < t.m_movedSinceLastSpawn := by simpa using hcond
      obtain ⟨front, tl, hft⟩ : ∃ front tl, t.m_segments = front :: tl := by
        cases hts : t.m_segments with
        | nil =>
          rw [hts] at ht3
          have := congrArg List.length ht3
          simp only [List.length_nil, List.length_append] at this
          have : st.m_segments.length = 0 := by omega
          exact absurd (List.length_eq_zero.mp this) hne
        | cons a l => exact ⟨a, l, rfl⟩
      have hf0 : t.m_segments[0]? = some front := by rw [hft]; simp
      obtain ⟨t', ht', e1, e2, ⟨seg, e3⟩, e4⟩ := spawnSegment_eq lm tsd t front hf0
      refine ⟨t', ht', ⟨e1.trans ht1, e2.trans ht2, ⟨seg :: pushed, by rw [e3, ht3]; rfl, ?_⟩,
        ?_⟩, ?_⟩
      · rw [e4, ht5]
        simp only [List.length_cons]
        push_cast
        ring
      · intro hle
        rw [ht4 hle] at hgt
        exact absurd hgt (not_lt.mpr hle)
      · have hq : 0 < (t.m_movedSinceLastSpawn - tsd) / tsd := div_pos (by linarith) htsd
        have he : (t'.m_movedSinceLastSpawn - tsd) / tsd
            = (t.m_movedSinceLastSpawn - tsd) / tsd - 1 := by
          rw [e4]
          field_simp
        show ⌈(t'.m_movedSinceLastSpawn - tsd) / tsd⌉.toNat
          < ⌈(t.m_movedSinceLastSpawn - tsd) / tsd⌉.toNat
        rw [he]
        exact ceil_toNat_decreases hq)
    st ⟨rfl, rfl, ⟨[], rfl, by simp⟩, fun _ => rfl⟩
  refine ⟨r, hr, h1, h2, h3, ?_, h4⟩
  simpa using hc

/-- One iteration of the loop "create new segments at head". -/
theorem moveStep_returns (cfg : Config) (lm : Libm) (tsd deltaAngle : ℚ) (htsd : 0 < tsd)
    (st : MoveState) (hne : st.m_segments ≠ []) :
    ∃ r, Returns (fun n => moveStep cfg lm n tsd deltaAngle st) r ∧
      r.m_heading = st.m_heading + deltaAngle ∧
      r.headSegment.pos
        = st.headSegment.pos.add (movementVector cfg lm (st.m_heading + deltaAngle)) ∧
      (∃ pushed, r.m_segments = pushed ++ st.m_segments ∧
        r.m_movedSinceLastSpawn
          = st.m_movedSinceLastSpawn + cfg.SNAKE_DISTANCE_PER_STEP - pushed.length * tsd) ∧
      r.m_movedSinceLastSpawn ≤ tsd ∧
      (st.m_movedSinceLastSpawn + cfg.SNAKE_DISTANCE_PER_STEP ≤ tsd →
        r.m_segments = st.m_segments) := by
  obtain ⟨r, hr, h1, h2, h3, h4, h5⟩ := spawnLoop_returns lm tsd htsd
    { st with
      m_heading := st.m_heading + deltaAngle
      headSegment := ⟨st.headSegment.pos.add (movementVector cfg lm (st.m_heading + deltaAngle))⟩
      m_movedSinceLastSpawn := st.m_movedSinceLastSpawn + cfg.SNAKE_DISTANCE_PER_STEP } hne
  refine ⟨r, hr, h1, by rw [h2], h3, h4, fun hle => ?_⟩
  rw [h5 hle]

/-- The loop "create new segments at head" of `Snake::move`, run for `steps` steps from a
state with a non-empty body: the heading has turned `steps` times by `deltaAngle`, the head
has followed `headPath`, and the new segments are in front of the old body, one for each
target distance taken off `m_movedSinceLastSpawn`. -/
theorem stepsLoop_returns (cfg : Config) (lm : Libm) (tsd deltaAngle : ℚ) (htsd : 0 < tsd)
    (steps : Nat) (st : MoveState) (hne : st.m_segments ≠ []) :
    ∃ r, Returns (fun n => forLoop (fun _ t => moveStep cfg lm n tsd deltaAngle t) 0 steps st) r ∧
      r.m_heading = st.m_heading + steps * deltaAngle ∧
      r.headSegment.pos = headPath cfg lm st.m_heading deltaAngle st.headSegment.pos steps ∧
      (∃ pushed, r.m_segments = pushed ++ st.m_segments ∧
        r.m_movedSinceLastSpawn
          = st.m_movedSinceLastSpawn + steps * cfg.SNAKE_DISTANCE_PER_STEP
            - pushed.length * tsd) ∧
      (st.m_movedSinceLastSpawn + steps * cfg.SNAKE_DISTANCE_PER_STEP ≤ tsd →
        0 ≤ cfg.SNAKE_DISTANCE_PER_STEP → r.m_segments = st.m_segments) := by
  obtain ⟨r, hr, hI⟩ := forLoop_returns (fun n _ t => moveStep cfg lm n tsd deltaAngle t)
    (fun i t => t.m_heading = st.m_heading + i * deltaAngle ∧
      t.headSegment.pos = headPath cfg lm st.m_heading deltaAngle st.headSegment.pos i ∧
      (∃ pushed, t.m_segments = pushed ++ st.m_segments ∧
        t.m_movedSinceLastSpawn
          = st.m_movedSinceLastSpawn + i * cfg.SNAKE_DISTANCE_PER_STEP - pushed.length * tsd) ∧
      (st.m_movedSinceLastSpawn + i * cfg.SNAKE_DISTANCE_PER_STEP ≤ tsd →
        0 ≤ cfg.SNAKE_DISTANCE_PER_STEP → t.m_segments = st.m_segments))
    steps 0 st
    (by
      intro i t _ _ ⟨ht1, ht2, ⟨pushed, ht3, ht4⟩, ht5⟩
      have htne : t.m_segments ≠ [] := by
        rw [ht3]
        simp [hne]
      obtain ⟨r, hr, h1, h2, ⟨more, h3, h4⟩, -, h6⟩ :=
        moveStep_returns cfg lm tsd deltaAngle htsd t htne
      refine ⟨r, hr, ?_, ?_, ⟨more ++ pushed, ?_, ?_⟩, ?_⟩
      · rw [h1, ht1]; push_cast; ring
      · rw [h2, ht2, ht1]
        simp only [headPath]
        congr 2
        push_cast
        ring
      · rw [h3, ht3, List.append_assoc]
      · rw [h4, ht4]
        simp only [List.length_append]
        push_cast
        ring
      · intro hle hD
        push_cast at hle
        have e1 : t.m_segments = st.m_segments := ht5 (by nlinarith) hD
        have e2 : pushed = [] := by
          have := congrArg List.length (e1.symm.trans ht3)
          simp only [List.length_append] at this
          exact List.length_eq_zero.mp (by omega)
        rw [e2] at ht4
        simp only [List.length_nil, Nat.cast_zero, zero_mul, sub_zero] at ht4
        rw [h6 (by rw [ht4]; linarith), e1])
    ⟨by simp, rfl, ⟨[], rfl, by simp⟩, fun _ _ => rfl⟩
  simp only [zero_add] at hI
  exact ⟨r, hr, hI⟩

/-- Total correctness of the first half of `Snake::move` for a snake with a head, a non-empty
body and a positive target distance, in a world of positive size. -/
theorem moveHead_returns (cfg : Config) (lm : Libm) (f : Field) (s : Snake) (targetAngle : ℚ)
    (boost : Bool) (hW : 0 < f.m_width) (hH : 0 < f.m_height)
    (htsd : 0 < s.m_targetSegmentDistance) (head : Segment) (rest : List Segment)
    (hs : s.m_segments = head :: rest) (hrest : rest ≠ []) :
    ∃ st, Returns (fun n => s.moveHead cfg lm f n targetAngle boost) st ∧
      st.m_heading
        = s.m_heading + (if boost then cfg.SNAKE_BOOST_STEPS else 1 : ℕ) * s.deltaAngle targetAngle ∧
      st.headSegment.pos = headPath cfg lm s.m_heading (s.deltaAngle targetAngle) head.pos
        (if boost then cfg.SNAKE_BOOST_STEPS else 1) ∧
      (∃ pushed body, st.m_segments = pushed ++ body ∧ body.length = rest.length ∧
        st.m_movedSinceLastSpawn
          = s.m_movedSinceLastSpawn
            + (if boost then cfg.SNAKE_BOOST_STEPS else 1 : ℕ) * cfg.SNAKE_DISTANCE_PER_STEP
            - pushed.length * s.m_targetSegmentDistance ∧
        (s.m_movedSinceLastSpawn
            + (if boost then cfg.SNAKE_BOOST_STEPS else 1 : ℕ) * cfg.SNAKE_DISTANCE_PER_STEP
            ≤ s.m_targetSegmentDistance →
          0 ≤ cfg.SNAKE_DISTANCE_PER_STEP → pushed = [])) := by
  obtain ⟨segs, hsegs, hlen, hhead⟩ := unwrapLoop_returns f hW hH s.m_segments
  obtain ⟨body, rfl⟩ : ∃ body, segs = head :: body := by
    rw [hs] at hhead
    cases segs with
    | nil => simp at hhead
    | cons a l =>
      simp only [List.getElem?_cons_zero, Option.some.injEq] at hhead
      exact ⟨l, by rw [hhead]⟩
  have hbl : body.length = rest.length := by
    rw [hs] at hlen
    simpa using hlen
  have hbne : body ≠ [] := by
    intro h
    rw [h] at hbl
    exact hrest (List.length_eq_zero.mp hbl.symm)
  obtain ⟨st, hst, h1, h2, ⟨pushed, h3, h4⟩, h5⟩ := stepsLoop_returns cfg lm
    s.m_targetSegmentDistance (s.deltaAngle targetAngle) htsd
    (if boost then cfg.SNAKE_BOOST_STEPS else 1)
    ⟨s.m_heading, head, s.m_movedSinceLastSpawn, body⟩ hbne
  refine ⟨st, ?_, h1, h2, pushed, body, h3, hbl, h4, fun hle hD => ?_⟩
  · exact Returns.bind hsegs hst
  · have := h5 hle hD
    rw [h3] at this
    have := congrArg List.length this
    simp only [List.length_append] at this
    exact List.length_eq_zero.mp (by omega)

/-- One iteration of the loop "pull-together effect": the length and the head are kept. -/
theorem pullSegment_returns (cfg : Config) (i : Nat) (segs : List Segment) (h1 : 1 ≤ i)
    (h2 : i + 1 < segs.length) :
    ∃ r, pullSegment cfg i segs = some r ∧ r.length = segs.length ∧ r[0]? = segs[0]? := by
  have e1 : segs[i]? = some segs[i] := List.getElem?_eq_getElem (by omega)
  have e2 : segs[i + 1]? = some segs[i + 1] := List.getElem?_eq_getElem h2
  obtain ⟨prev, e3⟩ : ∃ prev, segs[i - 1]? = some prev :=
    ⟨_, List.getElem?_eq_getElem (by omega)⟩
  simp only [pullSegment, e1, e2, e3, Option.bind_eq_bind, Option.some_bind, Option.some.injEq,
    exists_eq_left', List.length_set, true_and]
  rw [List.getElem?_set_ne (by omega)]

/-- The loop "pull-together effect" of `Snake::move` on a non-empty list returns a list of
the same length with the same head. -/
theorem pullLoop_returns (cfg : Config) (segs : List Segment) :
    ∃ r, Returns (fun _ => forLoop (pullSegment cfg) 1 (segs.length - 1 - 1) segs) r ∧
      r.length = segs.length ∧ r[0]? = segs[0]? := by
  obtain ⟨r, hr, hI⟩ := forLoop_returns (fun _ => pullSegment cfg)
    (fun _ t => t.length = segs.length ∧ t[0]? = segs[0]?) (segs.length - 1 - 1) 1 segs
    (by
      intro i t hi1 hi2 ⟨ht1, ht2⟩
      obtain ⟨r, hr, e1, e2⟩ := pullSegment_returns cfg i t hi1 (by omega)
      exact ⟨r, ⟨0, fun _ _ => hr⟩, e1.trans ht1, e2.trans ht2⟩)
    ⟨rfl, rfl⟩
  exact ⟨r, hr, hI⟩

/-- One iteration of the loop "wrap coordinates". -/
theorem wrapSegment_returns (f : Field) (hW : 0 < f.m_width) (hH : 0 < f.m_height)
    (i : Nat) (segs : List Segment) (hi : i < segs.length) :
    ∃ r p, Returns (fun n => wrapSegment f n i segs) r ∧
      Returns (fun n => f.wrapCoords n segs[i].pos) p ∧ r = segs.set i ⟨p⟩ := by
  have hcur : segs[i]? = some segs[i] := List.getElem?_eq_getElem hi
  obtain ⟨p, hp, -⟩ := wrapCoords_returns f hW hH segs[i].pos
  refine ⟨segs.set i ⟨p⟩, p, ?_, hp, rfl⟩
  obtain ⟨N, hN⟩ := hp
  refine ⟨N, fun n hn => ?_⟩
  simp only [wrapSegment, hcur, hN n hn, Option.bind_eq_bind, Option.some_bind]

/-- The loop "wrap coordinates" of `Snake::move` returns a list of the same length whose
head is the wrapped old head. -/
theorem wrapLoop_returns (f : Field) (hW : 0 < f.m_width) (hH : 0 < f.m_height)
    (head : Segment) (rest : List Segment) :
    ∃ r p, Returns (fun n => forLoop (wrapSegment f n) 0 (head :: rest).length (head :: rest)) r ∧
      Returns (fun n => f.wrapCoords n head.pos) p ∧
      r.length = (head :: rest).length ∧ r[0]? = some ⟨p⟩ := by
  obtain ⟨p, hp, -⟩ := wrapCoords_returns f hW hH head.pos
  obtain ⟨r, hr, hI⟩ := forLoop_returns (fun n => wrapSegment f n)
    (fun i t => t.length = (head :: rest).length ∧
      t[0]? = if i = 0 then some head else some ⟨p⟩) (head :: rest).length 0 (head :: rest)
    (by
      intro i t _ hi ⟨ht1, ht2⟩
      obtain ⟨r, q, hr, hq, e⟩ := wrapSegment_returns f hW hH i t (by omega)
      refine ⟨r, hr, by rw [e, List.length_set, ht1], ?_⟩
      rw [e]
      by_cases h0 : i = 0
      · subst h0
        have ht0 : t[0] = head := by
          have := List.getElem?_eq_getElem (l := t) (n := 0) (by omega)
          rw [ht2] at this
          simpa using this.symm
        rw [ht0] at hq
        rw [Returns.unique hq hp, List.getElem?_set_self (by omega)]
        simp
      · rw [List.getElem?_set_ne (by omega), ht2]
        simp [h0])
    ⟨rfl, by simp⟩
  exact ⟨r, p, hr, hp, hI.1, by simpa using hI.2⟩

/-- Total correctness of `Snake::move` for a snake with a head, a non-empty body and a
positive target distance, in a world of positive size: `st` is the state in which the loop
"create new segments at head" is left, `r` the snake after the call together with the
returned value, and `p` the wrapped position of the new head. -/
theorem move_returns (cfg : Config) (lm : Libm) (f : Field) (s : Snake) (targetAngle : ℚ)
    (boost : Bool) (hW : 0 < f.m_width) (hH : 0 < f.m_height)
    (htsd : 0 < s.m_targetSegmentDistance) (head : Segment) (rest : List Segment)
    (hs : s.m_segments = head :: rest) (hrest : rest ≠ []) :
    ∃ st r p, Returns (fun n => s.moveHead cfg lm f n targetAngle boost) st ∧
      Returns (fun n => s.move cfg lm f n targetAngle boost) r ∧
      Returns (fun n => f.wrapCoords n st.headSegment.pos) p ∧
      r.1.m_segments.length = s.m_segments.length ∧ r.2 = s.m_segments.length ∧
      r.1.m_segments[0]? = some ⟨p⟩ ∧
      r.1.m_mass = s.m_mass ∧ r.1.m_heading = normalizeAngle st.m_heading ∧
      r.1.m_targetSegmentDistance = s.m_targetSegmentDistance ∧
      r.1.m_segmentRadius = s.m_segmentRadius ∧
      r.1.m_movedSinceLastSpawn = st.m_movedSinceLastSpawn := by
  obtain ⟨st, hst, -, -, ⟨pushed, body, hseg, hbody, -, -⟩⟩ :=
    moveHead_returns cfg lm f s targetAngle boost hW hH htsd head rest hs hrest
  have hL : s.m_segments.length = rest.length + 1 := by rw [hs]; rfl
  obtain ⟨r1, hr1, hlen1, hhead1⟩ :=
    pullLoop_returns cfg (resize (st.headSegment :: st.m_segments) s.m_segments.length)
  have hres0 : (resize (st.headSegment :: st.m_segments) s.m_segments.length)[0]?
      = some st.headSegment := by
    have hle : rest.length ≤ st.m_segments.length := by
      rw [hseg, List.length_append]
      omega
    rw [resize_of_le _ _ (by rw [hL]; simpa using hle), hL, List.take_succ_cons]
    simp
  rw [resize_length] at hlen1
  rw [hres0] at hhead1
  obtain ⟨tl1, rfl⟩ : ∃ tl1, r1 = st.headSegment :: tl1 := by
    cases r1 with
    | nil => simp at hhead1
    | cons a l =>
      simp only [List.getElem?_cons_zero, Option.some.injEq] at hhead1
      exact ⟨l, by rw [hhead1]⟩
  obtain ⟨r2, p, hr2, hp, hlen2, hhead2⟩ := wrapLoop_returns f hW hH st.headSegment tl1
  refine ⟨st, ({ s with
      m_heading := normalizeAngle st.m_heading
      m_movedSinceLastSpawn := st.m_movedSinceLastSpawn
      m_segments := r2 }, r2.length), p, hst, ?_, hp, ?_, ?_, hhead2, rfl, rfl, rfl, rfl, rfl⟩
  · exact Returns.bind hst (Returns.bind hr1 (Returns.bind hr2 (Returns.pure _)))
  · show r2.length = s.m_segments.length
    rw [hlen2, hlen1]
  · show r2.length = s.m_segments.length
    rw [hlen2, hlen1]

theorem exists_head_of_two_le (segs : List Segment) (hlen : 2 ≤ segs.length) :
    ∃ head rest, segs = head :: rest ∧ rest ≠ [] := by
  cases segs with
  | nil => simp at hlen
  | cons a l =>
    refine ⟨a, l, rfl, ?_⟩
    intro hl
    rw [hl] at hlen
    simp at hlen

/-! ## Claims on `Snake::move` and `Snake::ensureSizeMatchesMass` -/

/-- C6: for a snake with at least two segments and a positive target distance, in a world of
positive size, `move` returns; the snake has as many segments after the call as before
(so at least two), and the same mass. -/
theorem move_keeps_length_and_mass (cfg : Config) (lm : Libm) (f : Field) (s : Snake)
    (targetAngle : ℚ) (boost : Bool) (hW : 0 < f.m_width) (hH : 0 < f.m_height)
    (htsd : 0 < s.m_targetSegmentDistance) (hlen : 2 ≤ s.m_segments.length) :
    ∃ r, Returns (fun n => s.move cfg lm f n targetAngle boost) r ∧
      r.1.m_segments.length = s.m_segments.length ∧ 2 ≤ r.1.m_segments.length ∧
      r.1.m_mass = s.m_mass := by
  obtain ⟨head, rest, hs, hrest⟩ := exists_head_of_two_le s.m_segments hlen
  obtain ⟨st, r, p, -, hr, -, h1, -, -, h2, -⟩ :=
    move_returns cfg lm f s targetAngle boost hW hH htsd head rest hs hrest
  exact ⟨r, hr, h1, by rw [h1]; exact hlen, h2⟩

theorem move_keeps_length_and_mass_witness :
    (0 : ℚ) < (⟨60, 20⟩ : Field).m_width ∧ (0 : ℚ) < (⟨60, 20⟩ : Field).m_height ∧
    0 < sampleSnake.m_targetSegmentDistance ∧ 2 ≤ sampleSnake.m_segments.length ∧
    ∃ r, Returns (fun n => sampleSnake.move sampleConfig sampleLibm ⟨60, 20⟩ n 90 true) r ∧
      r.1.m_segments.length = sampleSnake.m_segments.length ∧ 2 ≤ r.1.m_segments.length ∧
      r.1.m_mass = sampleSnake.m_mass :=
  ⟨by norm_num, by norm_num, by norm_num [sampleSnake], by simp [sampleSnake],
    move_keeps_length_and_mass sampleConfig sampleLibm ⟨60, 20⟩ sampleSnake 90 true
      (by norm_num) (by norm_num) (by norm_num [sampleSnake]) (by simp [sampleSnake])⟩

theorem toSizeT_of_nonneg {q : ℚ} (h0 : 0 ≤ q) (h1 : q < 2 ^ 64) : toSizeT q = some ⌊q⌋₊ := by
  rw [toSizeT, if_pos ⟨by linarith, h1⟩, truncate, if_pos h0, Int.floor_toNat]

/-- The sample snake is what `ensureSizeMatchesMass` makes of a snake of mass `1` with one
segment at `(10, 10)`, as in the constructor of `Snake`. -/
theorem sampleSnake_constructed :
    Snake.ensureSizeMatchesMass sampleConfig sampleLibm
      { sampleSnake with
        m_segments := [⟨⟨10, 10⟩⟩]
        m_targetSegmentDistance := 0
        m_segmentRadius := 0 } = some sampleSnake := by
  have hcast : toSizeT ((1 : ℚ) / 1 / 5) = some 0 := by
    rw [toSizeT_of_nonneg (by norm_num) (by norm_num), Nat.floor_eq_zero.mpr (by norm_num)]
  simp only [Snake.ensureSizeMatchesMass, sampleSnake, sampleConfig, sampleLibm, mul_one,
    sub_self, mul_zero, add_zero, one_ne_zero, if_false, hcast, Option.bind_eq_bind,
    Option.some_bind, List.length_singleton]
  norm_num

/-- C7: for a snake with at least one segment and positive mass, where the target distance
`tsd = pow(mass · SNAKE_SEGMENT_DISTANCE_FACTOR, SNAKE_SEGMENT_DISTANCE_EXPONENT)` is
positive and `mass / tsd / 5` fits `std::size_t`, `ensureSizeMatchesMass` returns a snake
with `n = max(2, ⌊mass / tsd / 5⌋)` segments: the old list truncated to `n` if it was not
shorter, the old list followed by copies of its last segment if it was not longer. -/
theorem ensureSizeMatchesMass_segments (cfg : Config) (lm : Libm) (s : Snake) (tsd : ℚ) (n : ℕ)
    (htsd : tsd = lm.pow (s.m_mass * cfg.SNAKE_SEGMENT_DISTANCE_FACTOR)
      cfg.SNAKE_SEGMENT_DISTANCE_EXPONENT)
    (hn : n = max 2 ⌊s.m_mass / tsd / 5⌋₊)
    (hmass : 0 < s.m_mass) (hne : s.m_segments ≠ []) (hpos : 0 < tsd)
    (hfit : s.m_mass / tsd / 5 < 2 ^ 64) :
    ∃ r, s.ensureSizeMatchesMass cfg lm = some r ∧
      r.m_targetSegmentDistance = tsd ∧
      r.m_segments.length = n ∧
      (n ≤ s.m_segments.length → r.m_segments = s.m_segments.take n) ∧
      (s.m_segments.length ≤ n → ∀ tail, s.m_segments.getLast? = some tail →
        r.m_segments = s.m_segments ++ List.replicate (n - s.m_segments.length) tail) := by
  have hq : 0 ≤ s.m_mass / tsd / 5 := by positivity
  have hcast := toSizeT_of_nonneg hq hfit
  have hn' : (if ⌊s.m_mass / tsd / 5⌋₊ < 2 then 2 else ⌊s.m_mass / tsd / 5⌋₊) = n := by
    rw [hn]
    split <;> omega
  obtain ⟨tail, htail⟩ : ∃ tail, s.m_segments[s.m_segments.length - 1]? = some tail := by
    have : s.m_segments.length ≠ 0 := fun h => hne (List.length_eq_zero.mp h)
    exact ⟨_, List.getElem?_eq_getElem (by omega)⟩
  have hlast : s.m_segments.getLast? = some tail := by
    rw [List.getLast?_eq_getElem?, htail]
  subst htsd
  by_cases h1 : s.m_segments.length < n
  · refine ⟨{ s with
        m_targetSegmentDistance := lm.pow (s.m_mass * cfg.SNAKE_SEGMENT_DISTANCE_FACTOR)
          cfg.SNAKE_SEGMENT_DISTANCE_EXPONENT
        m_segments := s.m_segments ++ List.replicate (n - s.m_segments.length) tail
        m_segmentRadius := lm.sqrt s.m_mass / 2 }, ?_, rfl, ?_, ?_, ?_⟩
    · simp only [Snake.ensureSizeMatchesMass, hpos.ne', if_false, hcast, hn', h1, if_true,
        htail, Option.bind_eq_bind, Option.some_bind, Option.map_some']
    · simp only [List.length_append, List.length_replicate]
      omega
    · intro h
      omega
    · intro _ tail' ht'
      rw [hlast] at ht'
      rw [Option.some.inj ht']
  · by_cases h2 : s.m_segments.length > n
    · refine ⟨{ s with
          m_targetSegmentDistance := lm.pow (s.m_mass * cfg.SNAKE_SEGMENT_DISTANCE_FACTOR)
            cfg.SNAKE_SEGMENT_DISTANCE_EXPONENT
          m_segments := resize s.m_segments n
          m_segmentRadius := lm.sqrt s.m_mass / 2 }, ?_, rfl, ?_, ?_, ?_⟩
      · simp only [Snake.ensureSizeMatchesMass, hpos.ne', if_false, hcast, hn', h1, h2, if_true,
          Option.bind_eq_bind, Option.some_bind]
      · exact resize_length _ _
      · intro h
        exact resize_of_le _ _ h
      · intro h
        omega
    · have heq : s.m_segments.length = n := by omega
      refine ⟨{ s with
          m_targetSegmentDistance := lm.pow (s.m_mass * cfg.SNAKE_SEGMENT_DISTANCE_FACTOR)
            cfg.SNAKE_SEGMENT_DISTANCE_EXPONENT
          m_segments := s.m_segments
          m_segmentRadius := lm.sqrt s.m_mass / 2 }, ?_, rfl, ?_, ?_, ?_⟩
      · simp only [Snake.ensureSizeMatchesMass, hpos.ne', if_false, hcast, hn', h1, h2,
          Option.bind_eq_bind, Option.some_bind]
      · exact heq
      · intro _
        show s.m_segments = s.m_segments.take n
        rw [← heq, List.take_length]
      · intro _ tail' _
        show s.m_segments = s.m_segments ++ List.replicate (n - s.m_segments.length) tail'
        rw [heq, Nat.sub_self]
        simp

theorem ensureSizeMatchesMass_segments_witness :
    (1 : ℚ) = sampleLibm.pow (freshSnake.m_mass * unitDistanceConfig.SNAKE_SEGMENT_DISTANCE_FACTOR)
      unitDistanceConfig.SNAKE_SEGMENT_DISTANCE_EXPONENT ∧
    4 = max 2 ⌊freshSnake.m_mass / (1 : ℚ) / 5⌋₊ ∧
    0 < freshSnake.m_mass ∧ freshSnake.m_segments ≠ [] ∧ (0 : ℚ) < 1 ∧
    freshSnake.m_mass / (1 : ℚ) / 5 < 2 ^ 64 ∧
    ∃ r, freshSnake.ensureSizeMatchesMass unitDistanceConfig sampleLibm = some r ∧
      r.m_targetSegmentDistance = 1 ∧
      r.m_segments.length = 4 ∧
      (4 ≤ freshSnake.m_segments.length → r.m_segments = freshSnake.m_segments.take 4) ∧
      (freshSnake.m_segments.length ≤ 4 → ∀ tail, freshSnake.m_segments.getLast? = some tail →
        r.m_segments
          = freshSnake.m_segments ++ List.replicate (4 - freshSnake.m_segments.length) tail) :=
  have h1 : (1 : ℚ) = sampleLibm.pow
      (freshSnake.m_mass * unitDistanceConfig.SNAKE_SEGMENT_DISTANCE_FACTOR)
      unitDistanceConfig.SNAKE_SEGMENT_DISTANCE_EXPONENT := by
    norm_num [sampleLibm, unitDistanceConfig, sampleConfig, freshSnake]
  have h2 : 4 = max 2 ⌊freshSnake.m_mass / (1 : ℚ) / 5⌋₊ := by
    have : freshSnake.m_mass / (1 : ℚ) / 5 = ((4 : ℕ) : ℚ) := by norm_num [freshSnake]
    rw [this, Nat.floor_natCast]
    rfl
  have h3 : 0 < freshSnake.m_mass := by norm_num [freshSnake]
  have h4 : freshSnake.m_segments ≠ [] := by simp [freshSnake]
  have h5 : freshSnake.m_mass / (1 : ℚ) / 5 < 2 ^ 64 := by norm_num [freshSnake]
  ⟨h1, h2, h3, h4, by norm_num, h5,
    ensureSizeMatchesMass_segments unitDistanceConfig sampleLibm freshSnake 1 4 h1 h2 h3 h4
      (by norm_num) h5⟩

/-! ### Heading -/

theorem normalizeAngle_eq (a : ℚ) :
    normalizeAngle a = a ∨ normalizeAngle a = a - 360 ∨ normalizeAngle a = a + 360 := by
  unfold normalizeAngle
  split
  · exact Or.inr (Or.inl rfl)
  · split
    · exact Or.inr (Or.inr rfl)
    · exact Or.inl rfl

/-- One normalisation brings an angle of `[-540, 540]` into `[-180, 180]`. -/
theorem normalizeAngle_range (a : ℚ) (h1 : -540 ≤ a) (h2 : a ≤ 540) :
    -180 ≤ normalizeAngle a ∧ normalizeAngle a ≤ 180 := by
  unfold normalizeAngle
  split
  · constructor <;> linarith
  · split
    · constructor <;> linarith
    · constructor <;> linarith

theorem maxRotationPerStep_nonneg (s : Snake) (hr : 0 ≤ s.m_segmentRadius) :
    0 ≤ s.maxRotationPerStep := by
  unfold Snake.maxRotationPerStep
  positivity

theorem maxRotationPerStep_le (s : Snake) (hr : 0 ≤ s.m_segmentRadius) :
    s.maxRotationPerStep ≤ 10 := by
  unfold Snake.maxRotationPerStep
  rw [div_le_iff₀ (by positivity)]
  nlinarith

/-- The delta angle of `Snake::move` is limited to the rotation rate. -/
theorem deltaAngle_abs_le (s : Snake) (targetAngle : ℚ) (hr : 0 ≤ s.m_segmentRadius) :
    |s.deltaAngle targetAngle| ≤ s.maxRotationPerStep := by
  have h := maxRotationPerStep_nonneg s hr
  unfold Snake.deltaAngle
  simp only
  split
  · rw [abs_of_nonneg h]
  · split
    · rw [abs_neg, abs_of_nonneg h]
    · rw [abs_le]
      constructor <;> linarith

/-- Among the angles `t + 360 j`, one in `[-180, 180]` has the least absolute value. -/
theorem abs_le_abs_of_congruent {d t : ℚ} (j : ℤ) (hd : d = t + 360 * j) (h1 : -180 ≤ d)
    (h2 : d ≤ 180) : |d| ≤ |t| := by
  rcases lt_trichotomy j 0 with hj | hj | hj
  · have hj' : (j : ℚ) ≤ -1 := by exact_mod_cast Int.le_sub_one_of_lt hj
    have ht : 180 ≤ t := by linarith
    rw [abs_of_nonneg (by linarith : (0 : ℚ) ≤ t), abs_le]
    constructor <;> linarith
  · subst hj
    simp only [Int.cast_zero, mul_zero, add_zero] at hd
    rw [hd]
  · have hj' : (1 : ℚ) ≤ j := by exact_mod_cast Int.add_one_le_of_lt hj
    have ht : t ≤ -180 := by linarith
    rw [abs_of_nonpos (by linarith : t ≤ 0), abs_le]
    constructor <;> linarith

/-- The heading after `Snake::move`: the old heading, turned `steps` times by the delta
angle, and normalised once. -/
theorem move_heading (cfg : Config) (lm : Libm) (f : Field) (s : Snake)
    (targetAngle : ℚ) (boost : Bool) (hW : 0 < f.m_width) (hH : 0 < f.m_height)
    (htsd : 0 < s.m_targetSegmentDistance) (hlen : 2 ≤ s.m_segments.length) :
    ∃ r, Returns (fun n => s.move cfg lm f n targetAngle boost) r ∧
      r.1.m_heading = normalizeAngle (s.m_heading
        + (if boost then cfg.SNAKE_BOOST_STEPS else 1 : ℕ) * s.deltaAngle targetAngle) := by
  obtain ⟨head, rest, hs, hrest⟩ := exists_head_of_two_le s.m_segments hlen
  obtain ⟨st, r, p, hst, hr, -, -, -, -, -, h1, -⟩ :=
    move_returns cfg lm f s targetAngle boost hW hH htsd head rest hs hrest
  obtain ⟨st', hst', h2, -⟩ :=
    moveHead_returns cfg lm f s targetAngle boost hW hH htsd head rest hs hrest
  rw [Returns.unique hst hst'] at h1
  exact ⟨r, hr, by rw [h1, h2]⟩

/-- C8: for a snake with at least two segments, a positive target distance and a
non-negative segment radius, in a world of positive size, `move` returns, and the difference
between the new and the old heading, normalised into `(-180, 180]` (the number `d` of that
interval that differs from it by a multiple of `360`), is at most
`maxRotationPerStep() · steps` in absolute value, where `steps` is `SNAKE_BOOST_STEPS` when
boosting and `1` otherwise. -/
theorem move_rotation_bound (cfg : Config) (lm : Libm) (f : Field) (s : Snake)
    (targetAngle : ℚ) (boost : Bool) (hW : 0 < f.m_width) (hH : 0 < f.m_height)
    (htsd : 0 < s.m_targetSegmentDistance) (hlen : 2 ≤ s.m_segments.length)
    (hrad : 0 ≤ s.m_segmentRadius) :
    ∃ r, Returns (fun n => s.move cfg lm f n targetAngle boost) r ∧
      ∀ d : ℚ, (∃ k : ℤ, d = r.1.m_heading - s.m_heading + 360 * k) → -180 < d → d ≤ 180 →
        |d| ≤ s.maxRotationPerStep * (if boost then cfg.SNAKE_BOOST_STEPS else 1 : ℕ) := by
  obtain ⟨r, hr, hh⟩ := move_heading cfg lm f s targetAngle boost hW hH htsd hlen
  refine ⟨r, hr, ?_⟩
  rintro d ⟨k, hk⟩ hd1 hd2
  have hδ := deltaAngle_abs_le s targetAngle hrad
  have hturn : |((if boost then cfg.SNAKE_BOOST_STEPS else 1 : ℕ) : ℚ) * s.deltaAngle targetAngle|
      ≤ s.maxRotationPerStep * (if boost then cfg.SNAKE_BOOST_STEPS else 1 : ℕ) := by
    rw [abs_mul, Nat.abs_cast, mul_comm]
    exact mul_le_mul_of_nonneg_right hδ (Nat.cast_nonneg _)
  refine le_trans ?_ hturn
  obtain ⟨j, hj⟩ : ∃ j : ℤ, d = ((if boost then cfg.SNAKE_BOOST_STEPS else 1 : ℕ) : ℚ)
      * s.deltaAngle targetAngle + 360 * j := by
    rcases normalizeAngle_eq (s.m_heading
        + (if boost then cfg.SNAKE_BOOST_STEPS else 1 : ℕ) * s.deltaAngle targetAngle)
      with h | h | h
    · exact ⟨k, by rw [hk, hh, h]; ring⟩
    · exact ⟨k - 1, by rw [hk, hh, h]; push_cast; ring⟩
    · exact ⟨k + 1, by rw [hk, hh, h]; push_cast; ring⟩
  exact abs_le_abs_of_congruent j hj hd1.le hd2

theorem move_rotation_bound_witness :
    (0 : ℚ) < (⟨60, 20⟩ : Field).m_width ∧ (0 : ℚ) < (⟨60, 20⟩ : Field).m_height ∧
    0 < sampleSnake.m_targetSegmentDistance ∧ 2 ≤ sampleSnake.m_segments.length ∧
    0 ≤ sampleSnake.m_segmentRadius ∧
    ∃ r, Returns (fun n => sampleSnake.move sampleConfig sampleLibm ⟨60, 20⟩ n 90 true) r ∧
      ∀ d : ℚ, (∃ k : ℤ, d = r.1.m_heading - sampleSnake.m_heading + 360 * k) →
        -180 < d → d ≤ 180 →
        |d| ≤ sampleSnake.maxRotationPerStep
          * (if true then sampleConfig.SNAKE_BOOST_STEPS else 1 : ℕ) :=
  ⟨by norm_num, by norm_num, by norm_num [sampleSnake], by simp [sampleSnake],
    by norm_num [sampleSnake],
    move_rotation_bound sampleConfig sampleLibm ⟨60, 20⟩ sampleSnake 90 true
      (by norm_num) (by norm_num) (by norm_num [sampleSnake]) (by simp [sampleSnake])
      (by norm_num [sampleSnake])⟩

/-- C9 (counterexample): the sample snake with heading `-175`, which lies in `(-180, 180]`,
asked to turn to `-180` without boost, ends with heading `-180`, which does not. -/
theorem move_heading_reaches_minus_180 :
    (-180 < sampleSnakeWest.m_heading ∧ sampleSnakeWest.m_heading ≤ 180) ∧
    ∃ r, Returns (fun n => sampleSnakeWest.move sampleConfig sampleLibm ⟨60, 20⟩ n (-180) false) r ∧
      r.1.m_heading = -180 ∧ ¬ (-180 < r.1.m_heading ∧ r.1.m_heading ≤ 180) := by
  refine ⟨by norm_num [sampleSnakeWest, sampleSnake], ?_⟩
  obtain ⟨r, hr, hh⟩ := move_heading sampleConfig sampleLibm ⟨60, 20⟩ sampleSnakeWest (-180) false
    (by norm_num) (by norm_num) (by norm_num [sampleSnakeWest, sampleSnake])
    (by simp [sampleSnakeWest, sampleSnake])
  have h : r.1.m_heading = -180 := by
    rw [hh]
    norm_num [sampleSnakeWest, sampleSnake, Snake.deltaAngle, normalizeAngle,
      Snake.maxRotationPerStep]
  exact ⟨r, hr, h, by rw [h]; norm_num⟩

/-- C9 (amended): for a snake with at least two segments, a positive target distance and a
non-negative segment radius, in a world of positive size, whose heading lies in the closed
interval `[-180, 180]`, and with `steps · maxRotationPerStep() ≤ 360`, the heading after
`move` lies in `[-180, 180]`. -/
theorem move_heading_range (cfg : Config) (lm : Libm) (f : Field) (s : Snake)
    (targetAngle : ℚ) (boost : Bool) (hW : 0 < f.m_width) (hH : 0 < f.m_height)
    (htsd : 0 < s.m_targetSegmentDistance) (hlen : 2 ≤ s.m_segments.length)
    (hrad : 0 ≤ s.m_segmentRadius) (hh1 : -180 ≤ s.m_heading) (hh2 : s.m_heading ≤ 180)
    (hsteps : ((if boost then cfg.SNAKE_BOOST_STEPS else 1 : ℕ) : ℚ) * s.maxRotationPerStep
      ≤ 360) :
    ∃ r, Returns (fun n => s.move cfg lm f n targetAngle boost) r ∧
      -180 ≤ r.1.m_heading ∧ r.1.m_heading ≤ 180 := by
  obtain ⟨r, hr, hh⟩ := move_heading cfg lm f s targetAngle boost hW hH htsd hlen
  have hδ := deltaAngle_abs_le s targetAngle hrad
  have hturn : |((if boost then cfg.SNAKE_BOOST_STEPS else 1 : ℕ) : ℚ) * s.deltaAngle targetAngle|
      ≤ 360 := by
    rw [abs_mul, Nat.abs_cast]
    exact le_trans (mul_le_mul_of_nonneg_left hδ (Nat.cast_nonneg _)) hsteps
  rw [abs_le] at hturn
  refine ⟨r, hr, ?_⟩
  rw [hh]
  exact normalizeAngle_range _ (by linarith [hturn.1]) (by linarith [hturn.2])

theorem move_heading_range_witness :
    (0 : ℚ) < (⟨60, 20⟩ : Field).m_width ∧ (0 : ℚ) < (⟨60, 20⟩ : Field).m_height ∧
    0 < sampleSnakeWest.m_targetSegmentDistance ∧ 2 ≤ sampleSnakeWest.m_segments.length ∧
    0 ≤ sampleSnakeWest.m_segmentRadius ∧ -180 ≤ sampleSnakeWest.m_heading ∧
    sampleSnakeWest.m_heading ≤ 180 ∧
    ((if true then sampleConfig.SNAKE_BOOST_STEPS else 1 : ℕ) : ℚ)
      * sampleSnakeWest.maxRotationPerStep ≤ 360 ∧
    ∃ r, Returns (fun n => sampleSnakeWest.move sampleConfig sampleLibm ⟨60, 20⟩ n 170 true) r ∧
      -180 ≤ r.1.m_heading ∧ r.1.m_heading ≤ 180 :=
  have h1 : 0 < sampleSnakeWest.m_targetSegmentDistance := by
    norm_num [sampleSnakeWest, sampleSnake]
  have h2 : 2 ≤ sampleSnakeWest.m_segments.length := by simp [sampleSnakeWest, sampleSnake]
  have h3 : 0 ≤ sampleSnakeWest.m_segmentRadius := by norm_num [sampleSnakeWest, sampleSnake]
  have h4 : -180 ≤ sampleSnakeWest.m_heading := by norm_num [sampleSnakeWest, sampleSnake]
  have h5 : sampleSnakeWest.m_heading ≤ 180 := by norm_num [sampleSnakeWest, sampleSnake]
  have h6 : ((if true then sampleConfig.SNAKE_BOOST_STEPS else 1 : ℕ) : ℚ)
      * sampleSnakeWest.maxRotationPerStep ≤ 360 := by
    norm_num [sampleSnakeWest, sampleSnake, sampleConfig, Snake.maxRotationPerStep]
  ⟨by norm_num, by norm_num, h1, h2, h3, h4, h5, h6,
    move_heading_range sampleConfig sampleLibm ⟨60, 20⟩ sampleSnakeWest 170 true
      (by norm_num) (by norm_num) h1 h2 h3 h4 h5 h6⟩

/-- C10 (code evaluated at the failing input): the sample snake, which has two segments,
moves straight on without boost. The loop "create new segments at head" is left with a body
of one segment, as it was entered (no new segment was put in front), and `move` returns `2`,
the number of segments of the snake. -/
theorem move_returns_segment_count :
    ∃ st r, Returns (fun n => sampleSnake.moveHead sampleConfig sampleLibm ⟨60, 20⟩ n 0 false) st ∧
      Returns (fun n => sampleSnake.move sampleConfig sampleLibm ⟨60, 20⟩ n 0 false) r ∧
      st.m_segments.length = (sampleSnake.m_segments.drop 1).length ∧ r.2 = 2 := by
  obtain ⟨st, r, p, hst, hr, -, -, h2, -⟩ :=
    move_returns sampleConfig sampleLibm ⟨60, 20⟩ sampleSnake 0 false (by norm_num) (by norm_num)
      (by norm_num [sampleSnake]) ⟨⟨10, 10⟩⟩ [⟨⟨10, 10⟩⟩] rfl (by simp)
  obtain ⟨st', hst', -, -, pushed, body, h3, h4, -, h5⟩ :=
    moveHead_returns sampleConfig sampleLibm ⟨60, 20⟩ sampleSnake 0 false (by norm_num)
      (by norm_num) (by norm_num [sampleSnake]) ⟨⟨10, 10⟩⟩ [⟨⟨10, 10⟩⟩] rfl (by simp)
  have hp : pushed = [] :=
    h5 (by norm_num [sampleSnake, sampleConfig]) (by norm_num [sampleConfig])
  refine ⟨st, r, hst, hr, ?_, h2⟩
  rw [Returns.unique hst hst', h3, hp]
  simpa [sampleSnake] using h4

/-! ## Claims on the delta angle and on repeated application -/

/-- C17 (counterexample): for the sample snake, whose heading `0` lies in `(-180, 180]`, and
the target angle `-180`, the delta angle before clamping is `-180`, which is not in
`(-180, 180]`; and for the target angle `720` it is `360`, more than half a turn. -/
theorem deltaAngle_before_clamping_outside :
    (-180 < sampleSnake.m_heading ∧ sampleSnake.m_heading ≤ 180) ∧
    normalizeAngle (-180 - sampleSnake.m_heading) = -180 ∧
    ¬ (-180 < normalizeAngle (-180 - sampleSnake.m_heading) ∧
      normalizeAngle (-180 - sampleSnake.m_heading) ≤ 180) ∧
    normalizeAngle (720 - sampleSnake.m_heading) = 360 ∧
    ¬ (-180 < normalizeAngle (720 - sampleSnake.m_heading) ∧
      normalizeAngle (720 - sampleSnake.m_heading) ≤ 180) := by
  have h : normalizeAngle (-180 - sampleSnake.m_heading) = -180 := by
    norm_num [normalizeAngle, sampleSnake]
  have h' : normalizeAngle (720 - sampleSnake.m_heading) = 360 := by
    norm_num [normalizeAngle, sampleSnake]
  refine ⟨by norm_num [sampleSnake], h, ?_, h', ?_⟩
  · rw [h]
    norm_num
  · rw [h']
    norm_num

/-- The delta angle of `Snake::move` is the normalised difference of target and heading,
limited to `[-maxRotationPerStep(), maxRotationPerStep()]`. -/
theorem deltaAngle_eq_clamp (s : Snake) (targetAngle : ℚ) :
    s.deltaAngle targetAngle
      = if normalizeAngle (targetAngle - s.m_heading) > s.maxRotationPerStep then
          s.maxRotationPerStep
        else if normalizeAngle (targetAngle - s.m_heading) < -s.maxRotationPerStep then
          -s.maxRotationPerStep
        else normalizeAngle (targetAngle - s.m_heading) := rfl

/-- C17 (amended): for a heading and a target angle with `-540 ≤ target - heading ≤ 540`, the
delta angle that `move` computes before clamping, `normalizeAngle (target - heading)`, lies
in the closed interval `[-180, 180]` and differs from `target - heading` by a multiple of
`360`. -/
theorem deltaAngle_before_clamping_range (s : Snake) (targetAngle : ℚ)
    (h1 : -540 ≤ targetAngle - s.m_heading) (h2 : targetAngle - s.m_heading ≤ 540) :
    (-180 ≤ normalizeAngle (targetAngle - s.m_heading) ∧
      normalizeAngle (targetAngle - s.m_heading) ≤ 180) ∧
    ∃ k : ℤ, normalizeAngle (targetAngle - s.m_heading) = targetAngle - s.m_heading + 360 * k := by
  refine ⟨normalizeAngle_range _ h1 h2, ?_⟩
  rcases normalizeAngle_eq (targetAngle - s.m_heading) with h | h | h
  · exact ⟨0, by rw [h]; simp⟩
  · exact ⟨-1, by rw [h]; push_cast; ring⟩
  · exact ⟨1, by rw [h]; push_cast; ring⟩

theorem deltaAngle_before_clamping_range_witness :
    -540 ≤ 350 - sampleSnakeWest.m_heading ∧ 350 - sampleSnakeWest.m_heading ≤ 540 ∧
    (-180 ≤ normalizeAngle (350 - sampleSnakeWest.m_heading) ∧
      normalizeAngle (350 - sampleSnakeWest.m_heading) ≤ 180) ∧
    ∃ k : ℤ, normalizeAngle (350 - sampleSnakeWest.m_heading)
      = 350 - sampleSnakeWest.m_heading + 360 * k :=
  have h1 : -540 ≤ 350 - sampleSnakeWest.m_heading := by norm_num [sampleSnakeWest, sampleSnake]
  have h2 : 350 - sampleSnakeWest.m_heading ≤ 540 := by norm_num [sampleSnakeWest, sampleSnake]
  ⟨h1, h2, deltaAngle_before_clamping_range sampleSnakeWest 350 h1 h2⟩

theorem truncate_eq_zero {q : ℚ} (h1 : -1 < q) (h2 : q < 1) : truncate q = 0 := by
  unfold truncate
  split
  · rename_i h0
    exact Int.floor_eq_zero_iff.mpr ⟨h0, h2⟩
  · rename_i h0
    exact Int.ceil_eq_zero_iff.mpr ⟨h1, (not_le.mp h0).le⟩

theorem fmod_eq_self {x W : ℚ} (hW : 0 < W) (h1 : -W < x) (h2 : x < W) : fmod x W = x := by
  have h : truncate (x / W) = 0 :=
    truncate_eq_zero (by rw [lt_div_iff₀ hW]; linarith) (by rw [div_lt_iff₀ hW]; linarith)
  simp [fmod, h]

/-- The function `unwrapRelativeCoords` applies `relativeCoordinate` to each coordinate. -/
theorem unwrapRelativeCoords_eq (f : Field) (d : Vector2D) (n m : ℤ)
    (hn : toInt f.m_width = some n) (hm : toInt f.m_height = some m) :
    f.unwrapRelativeCoords d
      = some ⟨relativeCoordinate f.m_width ((Int.tdiv (-n) 2 : ℤ) : ℚ) d.x,
          relativeCoordinate f.m_height ((Int.tdiv (-m) 2 : ℤ) : ℚ) d.y⟩ := by
  simp only [Field.unwrapRelativeCoords, hn, hm, Option.bind_eq_bind, Option.some_bind]
  rfl

/-- The lower threshold `-(int)W/2` lies in `[-W/2, 0]`. -/
theorem threshold_bounds {W : ℚ} (hW : 0 < W) (n : ℤ) (hn : toInt W = some n) :
    -W / 2 ≤ ((Int.tdiv (-n) 2 : ℤ) : ℚ) ∧ ((Int.tdiv (-n) 2 : ℤ) : ℚ) ≤ 0 := by
  have hn' : n = ⌊W⌋ := by
    unfold toInt at hn
    split at hn
    · simp only [Option.some.injEq, truncate, if_pos hW.le] at hn
      exact hn.symm
    · simp at hn
  have h0 : 0 ≤ n := by rw [hn']; exact Int.floor_nonneg.mpr hW.le
  have hle : (n : ℚ) ≤ W := by rw [hn']; exact Int.floor_le W
  have e : Int.tdiv (-n) 2 = -(n / 2) := by
    rw [Int.neg_tdiv, Int.tdiv_eq_ediv h0 (by norm_num)]
  have hb : -n ≤ 2 * Int.tdiv (-n) 2 ∧ Int.tdiv (-n) 2 ≤ 0 := by
    rw [e]
    omega
  have hb1 : (-(n : ℚ)) ≤ 2 * ((Int.tdiv (-n) 2 : ℤ) : ℚ) := by exact_mod_cast hb.1
  have hb2 : ((Int.tdiv (-n) 2 : ℤ) : ℚ) ≤ 0 := by exact_mod_cast hb.2
  constructor <;> linarith

/-- One coordinate of `unwrapRelativeCoords` is idempotent when the lower threshold is not
positive. -/
theorem relativeCoordinate_idem {W t : ℚ} (hW : 0 < W) (ht2 : t ≤ 0) (x : ℚ) :
    relativeCoordinate W t (relativeCoordinate W t x) = relativeCoordinate W t x := by
  obtain ⟨hf1, hf2⟩ := fmod_bounds x hW
  have key : ∀ y : ℚ, -W < y → y < W → t ≤ y → (y ≤ W / 2 ∨ y < t + W) →
      relativeCoordinate W t y = y := by
    intro y h1 h2 h3 h4
    simp only [relativeCoordinate, fmod_eq_self hW h1 h2]
    by_cases hy : y > W / 2
    · have h5 : y < t + W := by
        rcases h4 with h | h
        · linarith
        · exact h
      rw [if_pos hy, if_pos (by linarith)]
      ring
    · rw [if_neg hy, if_neg (by linarith)]
  have hout : -W < relativeCoordinate W t x ∧ relativeCoordinate W t x < W ∧
      t ≤ relativeCoordinate W t x ∧
      (relativeCoordinate W t x ≤ W / 2 ∨ relativeCoordinate W t x < t + W) := by
    simp only [relativeCoordinate]
    by_cases hx : fmod x W > W / 2
    · simp only [if_pos hx]
      by_cases hx2 : fmod x W - W < t
      · simp only [if_pos hx2]
        refine ⟨by linarith, by linarith, by linarith, Or.inr (by linarith)⟩
      · simp only [if_neg hx2]
        refine ⟨by linarith, by linarith, by linarith, Or.inl (by linarith)⟩
    · simp only [if_neg hx]
      by_cases hx2 : fmod x W < t
      · simp only [if_pos hx2]
        refine ⟨by linarith, by linarith, by linarith, Or.inr (by linarith)⟩
      · simp only [if_neg hx2]
        refine ⟨by linarith, by linarith, by linarith, Or.inl (by linarith)⟩
  exact key _ hout.1 hout.2.1 hout.2.2.1 hout.2.2.2

theorem toInt_defined {W : ℚ} (hW : 0 < W) (hfit : W < 2 ^ 31) : ∃ n, toInt W = some n := by
  refine ⟨truncate W, ?_⟩
  rw [toInt, if_pos ⟨by linarith, hfit⟩]

/-- In exact arithmetic, where no sum or difference is rounded, the three toroidal utilities
are idempotent in a world of positive size that fits the type `int`: `wrapCoords` returns its
result `a` unchanged, `unwrapCoords` (with the same `ref`) returns its result `b` unchanged,
and `unwrapRelativeCoords` returns its result `c` unchanged. For `unwrapRelativeCoords` this
rests on `x + W - W = x`, which floating-point arithmetic does not give. -/
theorem toroidal_utilities_idempotent_exact (f : Field) (hW : 0 < f.m_width)
    (hH : 0 < f.m_height) (hWfit : f.m_width < 2 ^ 31) (hHfit : f.m_height < 2 ^ 31)
    (v ref d : Vector2D) :
    (∃ a, Returns (fun n => f.wrapCoords n v) a ∧ Returns (fun n => f.wrapCoords n a) a) ∧
    (∃ b, Returns (fun n => f.unwrapCoords n v ref) b ∧
      Returns (fun n => f.unwrapCoords n b ref) b) ∧
    (∃ c, f.unwrapRelativeCoords d = some c ∧ f.unwrapRelativeCoords c = some c) := by
  refine ⟨?_, ?_, ?_⟩
  · obtain ⟨a, ha, ⟨hx1, hx2, -⟩, ⟨hy1, hy2, -⟩⟩ := wrapCoords_returns f hW hH v
    obtain ⟨a', ha', ⟨-, -, -, -, -, hx⟩, ⟨-, -, -, -, -, hy⟩⟩ := wrapCoords_returns f hW hH a
    have e : a' = a := by
      cases a
      cases a'
      simp only [Vector2D.mk.injEq]
      exact ⟨hx hx1 hx2, hy hy1 hy2⟩
    rw [e] at ha'
    exact ⟨a, ha, ha'⟩
  · obtain ⟨b, hb, ⟨hx1, hx2, -⟩, ⟨hy1, hy2, -⟩⟩ := unwrapCoords_returns f hW hH v ref
    obtain ⟨b', hb', ⟨-, -, -, hx⟩, ⟨-, -, -, hy⟩⟩ := unwrapCoords_returns f hW hH b ref
    have e : b' = b := by
      cases b
      cases b'
      simp only [Vector2D.mk.injEq]
      exact ⟨hx hx1 hx2, hy hy1 hy2⟩
    rw [e] at hb'
    exact ⟨b, hb, hb'⟩
  · obtain ⟨n, hn⟩ := toInt_defined hW hWfit
    obtain ⟨m, hm⟩ := toInt_defined hH hHfit
    obtain ⟨tx1, tx2⟩ := threshold_bounds hW n hn
    obtain ⟨ty1, ty2⟩ := threshold_bounds hH m hm
    refine ⟨_, unwrapRelativeCoords_eq f d n m hn hm, ?_⟩
    rw [unwrapRelativeCoords_eq f _ n m hn hm]
    simp only [relativeCoordinate_idem hW tx2, relativeCoordinate_idem hH ty2]

/-! ## Repeated application in floating-point arithmetic -/

theorem roundHalfEven_intCast (n : ℤ) : roundHalfEven (n : ℚ) = n := by
  simp [roundHalfEven]

theorem roundHalfEven_half_odd (n : ℤ) (hodd : n % 2 = 1) :
    roundHalfEven ((n : ℚ) + 1 / 2) = n + 1 := by
  have hfloor : ⌊(n : ℚ) + 1 / 2⌋ = n := by
    rw [Int.floor_eq_iff]
    constructor <;> norm_num
  unfold roundHalfEven
  rw [hfloor]
  have e : (n : ℚ) + 1 / 2 - n = 1 / 2 := by ring
  rw [e]
  simp [hodd]

/-- The rounding of `q` with `2 ^ e ≤ |q| < 2 ^ (e + 1)` is to the multiples of
`2 ^ (e - (precision - 1))`. -/
theorem roundReal_eq (precision : Nat) (q : ℚ) (e : ℤ) (h1 : 2 ^ e ≤ |q|)
    (h2 : |q| < 2 ^ (e + 1)) :
    roundReal precision q
      = roundHalfEven (q / 2 ^ (e - ((precision : ℤ) - 1))) * 2 ^ (e - ((precision : ℤ) - 1)) := by
  have hpos : 0 < |q| := lt_of_lt_of_le (by positivity) h1
  have hq : q ≠ 0 := abs_pos.mp hpos
  have hlog : Int.log 2 |q| = e := by
    apply le_antisymm
    · have := (Int.lt_zpow_iff_log_lt (b := 2) (by norm_num) hpos).mp h2
      omega
    · exact (Int.zpow_le_iff_le_log (b := 2) (by norm_num) hpos).mp h1
  simp only [roundReal, hq, if_false, hlog]

/-- A multiple of the unit in the last place is not changed by rounding. -/
theorem roundReal_exact (precision : Nat) (q : ℚ) (e n : ℤ) (h1 : 2 ^ e ≤ |q|)
    (h2 : |q| < 2 ^ (e + 1)) (hq : q = n * 2 ^ (e - ((precision : ℤ) - 1))) :
    roundReal precision q = q := by
  rw [roundReal_eq precision q e h1 h2]
  have hne : (2 : ℚ) ^ (e - ((precision : ℤ) - 1)) ≠ 0 := by positivity
  have : q / 2 ^ (e - ((precision : ℤ) - 1)) = n := by
    rw [hq, mul_div_assoc, div_self hne, mul_one]
  rw [this, roundHalfEven_intCast, ← hq]

/-- A number half way between two floating-point numbers is rounded to the one with the even
significand. -/
theorem roundReal_tie (precision : Nat) (q : ℚ) (e n : ℤ) (h1 : 2 ^ e ≤ |q|)
    (h2 : |q| < 2 ^ (e + 1)) (hodd : n % 2 = 1)
    (hq : q = (n + 1 / 2) * 2 ^ (e - ((precision : ℤ) - 1))) :
    roundReal precision q = (n + 1) * 2 ^ (e - ((precision : ℤ) - 1)) := by
  rw [roundReal_eq precision q e h1 h2]
  have hne : (2 : ℚ) ^ (e - ((precision : ℤ) - 1)) ≠ 0 := by positivity
  have : q / 2 ^ (e - ((precision : ℤ) - 1)) = (n : ℚ) + 1 / 2 := by
    rw [hq, mul_div_assoc, div_self hne, mul_one]
  rw [this, roundHalfEven_half_odd n hodd]
  push_cast
  ring

/-- The function `unwrapRelativeCoordsRounded` in terms of the two coordinates. -/
theorem unwrapRelativeCoordsRounded_eq (precision : Nat) (f : Field) (d : Vector2D) (n m : ℤ)
    (hn : toInt f.m_width = some n) (hm : toInt f.m_height = some m) (x1 y1 x2 y2 : ℚ)
    (hx1 : (if fmod d.x f.m_width > f.m_width / 2 then
        roundReal precision (fmod d.x f.m_width - f.m_width) else fmod d.x f.m_width) = x1)
    (hx2 : (if x1 < roundReal precision ((Int.tdiv (-n) 2 : ℤ) : ℚ) then
        roundReal precision (x1 + f.m_width) else x1) = x2)
    (hy1 : (if fmod d.y f.m_height > f.m_height / 2 then
        roundReal precision (fmod d.y f.m_height - f.m_height) else fmod d.y f.m_height) = y1)
    (hy2 : (if y1 < roundReal precision ((Int.tdiv (-m) 2 : ℤ) : ℚ) then
        roundReal precision (y1 + f.m_height) else y1) = y2) :
    f.unwrapRelativeCoordsRounded precision d = some ⟨x2, y2⟩ := by
  simp only [Field.unwrapRelativeCoordsRounded, hn, hm, Option.bind_eq_bind, Option.some_bind,
    hx1, hx2, hy1, hy2]

theorem toInt_of_floor {q : ℚ} (n : ℤ) (h0 : 0 ≤ n) (h1 : (n : ℚ) ≤ q) (h2 : q < n + 1)
    (hfit : q < 2 ^ 31) : toInt q = some n := by
  have hq : 0 ≤ q := le_trans (by exact_mod_cast h0) h1
  have ht : truncate q = n := by
    unfold truncate
    rw [if_pos hq, Int.floor_eq_iff]
    exact ⟨h1, h2⟩
  rw [toInt, if_pos ⟨by linarith, hfit⟩, ht]

/-- The two evaluations for one precision: `ux` and `uy` are the units in the last place of
`3` and of `1`. -/
theorem unwrapRelativeCoordsRounded_twice (precision : Nat) (ux uy : ℚ)
    (hux : 0 < ux) (hux1 : ux < 1 / 2) (huy : 0 < uy) (huy1 : uy < 1 / 2)
    (hrx : roundReal precision (-(3 + ux) + 15 / 2) = 9 / 2)
    (hry : roundReal precision (-(1 + uy) + 7 / 2) = 5 / 2)
    (hr3 : roundReal precision (-3) = -3) (hr1 : roundReal precision (-1) = -1) :
    Field.unwrapRelativeCoordsRounded precision ⟨15 / 2, 7 / 2⟩ ⟨-(3 + ux), -(1 + uy)⟩
        = some ⟨9 / 2, 5 / 2⟩ ∧
      Field.unwrapRelativeCoordsRounded precision ⟨15 / 2, 7 / 2⟩ ⟨9 / 2, 5 / 2⟩
        = some ⟨-3, -1⟩ := by
  have hn : toInt (15 / 2 : ℚ) = some 7 := toInt_of_floor 7 (by norm_num) (by norm_num)
    (by norm_num) (by norm_num)
  have hm : toInt (7 / 2 : ℚ) = some 3 := toInt_of_floor 3 (by norm_num) (by norm_num)
    (by norm_num) (by norm_num)
  have t7 : Int.tdiv (-7) 2 = -3 := by decide
  have t3 : Int.tdiv (-3) 2 = -1 := by decide
  have fx : fmod (-(3 + ux)) (15 / 2) = -(3 + ux) :=
    fmod_eq_self (by norm_num) (by linarith) (by linarith)
  have fy : fmod (-(1 + uy)) (7 / 2) = -(1 + uy) :=
    fmod_eq_self (by norm_num) (by linarith) (by linarith)
  have gx : fmod (9 / 2) (15 / 2) = 9 / 2 :=
    fmod_eq_self (by norm_num) (by norm_num) (by norm_num)
  have gy : fmod (5 / 2) (7 / 2) = 5 / 2 :=
    fmod_eq_self (by norm_num) (by norm_num) (by norm_num)
  constructor
  · refine unwrapRelativeCoordsRounded_eq precision _ _ 7 3 hn hm (-(3 + ux)) (-(1 + uy)) _ _
      ?_ ?_ ?_ ?_
    · show (if fmod (-(3 + ux)) (15 / 2) > (15 / 2 : ℚ) / 2 then _ else _) = _
      rw [fx, if_neg (by linarith)]
    · show (if -(3 + ux) < roundReal precision ((Int.tdiv (-7) 2 : ℤ) : ℚ) then
        roundReal precision (-(3 + ux) + 15 / 2) else _) = _
      rw [t7]
      push_cast
      rw [hr3, if_pos (by linarith), hrx]
    · show (if fmod (-(1 + uy)) (7 / 2) > (7 / 2 : ℚ) / 2 then _ else _) = _
      rw [fy, if_neg (by linarith)]
    · show (if -(1 + uy) < roundReal precision ((Int.tdiv (-3) 2 : ℤ) : ℚ) then
        roundReal precision (-(1 + uy) + 7 / 2) else _) = _
      rw [t3]
      push_cast
      rw [hr1, if_pos (by linarith), hry]
  · refine unwrapRelativeCoordsRounded_eq precision _ _ 7 3 hn hm (-3) (-1) _ _ ?_ ?_ ?_ ?_
    · show (if fmod (9 / 2) (15 / 2) > (15 / 2 : ℚ) / 2 then
        roundReal precision (fmod (9 / 2) (15 / 2) - 15 / 2) else _) = _
      rw [gx, if_pos (by norm_num)]
      norm_num [hr3]
    · show (if (-3 : ℚ) < roundReal precision ((Int.tdiv (-7) 2 : ℤ) : ℚ) then _ else _) = _
      rw [t7]
      push_cast
      rw [hr3, if_neg (by norm_num)]
    · show (if fmod (5 / 2) (7 / 2) > (7 / 2 : ℚ) / 2 then
        roundReal precision (fmod (5 / 2) (7 / 2) - 7 / 2) else _) = _
      rw [gy, if_pos (by norm_num)]
      norm_num [hr1]
    · show (if (-1 : ℚ) < roundReal precision ((Int.tdiv (-3) 2 : ℤ) : ℚ) then _ else _) = _
      rw [t3]
      push_cast
      rw [hr1, if_neg (by norm_num)]

/-- C18 (code evaluated at the failing input): in a world of size `7.5 × 3.5`, in `double`
arithmetic (`53` significant bits), the displacement `d = (-3.0000000000000004,
-1.0000000000000002)`, whose coordinates are the floating-point numbers next below `-3` and
`-1`, lies below the thresholds `-(int)7.5/2 = -3` and `-(int)3.5/2 = -1`, so the sizes are
added: the exact sums are half way between two floating-point numbers and are rounded to
`(4.5, 2.5)`. For this result the function returns `(-3, -1)`: `4.5 > 3.75` and `2.5 > 1.75`,
the sizes are subtracted, and `-3 < -3`, `-1 < -1` are false. So
`unwrapRelativeCoords(unwrapRelativeCoords(d))` is not `unwrapRelativeCoords(d)`. The same
happens in `float` arithmetic (`24` significant bits) for the floating-point numbers next
below `-3` and `-1` there. -/
theorem unwrapRelativeCoords_rounded_not_idempotent :
    (roundReal 53 (-(3 + 2 ^ (-51 : ℤ))) = -(3 + 2 ^ (-51 : ℤ)) ∧
      roundReal 53 (-(1 + 2 ^ (-52 : ℤ))) = -(1 + 2 ^ (-52 : ℤ)) ∧
      Field.unwrapRelativeCoordsRounded 53 ⟨15 / 2, 7 / 2⟩
          ⟨-(3 + 2 ^ (-51 : ℤ)), -(1 + 2 ^ (-52 : ℤ))⟩ = some ⟨9 / 2, 5 / 2⟩ ∧
      Field.unwrapRelativeCoordsRounded 53 ⟨15 / 2, 7 / 2⟩ ⟨9 / 2, 5 / 2⟩ = some ⟨-3, -1⟩) ∧
    (roundReal 24 (-(3 + 2 ^ (-22 : ℤ))) = -(3 + 2 ^ (-22 : ℤ)) ∧
      roundReal 24 (-(1 + 2 ^ (-23 : ℤ))) = -(1 + 2 ^ (-23 : ℤ)) ∧
      Field.unwrapRelativeCoordsRounded 24 ⟨15 / 2, 7 / 2⟩
          ⟨-(3 + 2 ^ (-22 : ℤ)), -(1 + 2 ^ (-23 : ℤ))⟩ = some ⟨9 / 2, 5 / 2⟩ ∧
      Field.unwrapRelativeCoordsRounded 24 ⟨15 / 2, 7 / 2⟩ ⟨9 / 2, 5 / 2⟩ = some ⟨-3, -1⟩) := by
  refine ⟨⟨?_, ?_, ?_⟩, ?_, ?_, ?_⟩
  · exact roundReal_exact 53 _ 1 (-(3 * 2 ^ 51 + 1)) (by norm_num [abs_of_pos])
      (by norm_num [abs_of_pos]) (by norm_num)
  · exact roundReal_exact 53 _ 0 (-(2 ^ 52 + 1)) (by norm_num [abs_of_pos])
      (by norm_num [abs_of_pos]) (by norm_num)
  · exact unwrapRelativeCoordsRounded_twice 53 _ _ (by norm_num) (by norm_num) (by norm_num)
      (by norm_num)
      (by
        rw [roundReal_tie 53 _ 2 (9 * 2 ^ 49 - 1) (by norm_num [abs_of_pos])
          (by norm_num [abs_of_pos]) (by norm_num) (by norm_num)]
        norm_num)
      (by
        rw [roundReal_tie 53 _ 1 (5 * 2 ^ 50 - 1) (by norm_num [abs_of_pos])
          (by norm_num [abs_of_pos]) (by norm_num) (by norm_num)]
        norm_num)
      (roundReal_exact 53 _ 1 (-(3 * 2 ^ 51)) (by norm_num) (by norm_num) (by norm_num))
      (roundReal_exact 53 _ 0 (-(2 ^ 52)) (by norm_num) (by norm_num) (by norm_num))
  · exact roundReal_exact 24 _ 1 (-(3 * 2 ^ 22 + 1)) (by norm_num [abs_of_pos])
      (by norm_num [abs_of_pos]) (by norm_num)
  · exact roundReal_exact 24 _ 0 (-(2 ^ 23 + 1)) (by norm_num [abs_of_pos])
      (by norm_num [abs_of_pos]) (by norm_num)
  · exact unwrapRelativeCoordsRounded_twice 24 _ _ (by norm_num) (by norm_num) (by norm_num)
      (by norm_num)
      (by
        rw [roundReal_tie 24 _ 2 (9 * 2 ^ 20 - 1) (by norm_num [abs_of_pos])
          (by norm_num [abs_of_pos]) (by norm_num) (by norm_num)]
        norm_num)
      (by
        rw [roundReal_tie 24 _ 1 (5 * 2 ^ 21 - 1) (by norm_num [abs_of_pos])
          (by norm_num [abs_of_pos]) (by norm_num) (by norm_num)]
        norm_num)
      (roundReal_exact 24 _ 1 (-(3 * 2 ^ 22)) (by norm_num) (by norm_num) (by norm_num))
      (roundReal_exact 24 _ 0 (-(2 ^ 23)) (by norm_num) (by norm_num) (by norm_num))

/-! ## Straight-line motion -/

/-- With heading `0` and target angle `0` the delta angle of `Snake::move` is `0`. -/
theorem deltaAngle_zero (s : Snake) (hrad : 0 ≤ s.m_segmentRadius) (hh : s.m_heading = 0) :
    s.deltaAngle 0 = 0 := by
  have h := maxRotationPerStep_nonneg s hrad
  have hn : normalizeAngle (0 - s.m_heading) = 0 := by
    rw [hh]
    norm_num [normalizeAngle]
  rw [deltaAngle_eq_clamp, hn, if_neg (by linarith), if_neg (by linarith)]

/-- One call `move(0, false)` of a snake with heading `0`: mass, segment count, heading,
target distance and radius are kept, and the new head `p` is congruent to the old head moved
by `SNAKE_DISTANCE_PER_STEP` along the x axis. -/
theorem move_straight (cfg : Config) (lm : Libm) (f : Field) (s : Snake)
    (hW : 0 < f.m_width) (hH : 0 < f.m_height) (htsd : 0 < s.m_targetSegmentDistance)
    (hlen : 2 ≤ s.m_segments.length) (hrad : 0 ≤ s.m_segmentRadius) (hh : s.m_heading = 0)
    (hcos : lm.cos 0 = 1) (hsin : lm.sin 0 = 0) (head : Segment)
    (hhead : s.m_segments[0]? = some head) :
    ∃ r p, Returns (fun n => s.move cfg lm f n 0 false) r ∧
      r.1.m_mass = s.m_mass ∧ r.1.m_segments.length = s.m_segments.length ∧
      r.1.m_heading = 0 ∧ r.1.m_targetSegmentDistance = s.m_targetSegmentDistance ∧
      r.1.m_segmentRadius = s.m_segmentRadius ∧ r.1.m_segments[0]? = some ⟨p⟩ ∧
      (∃ i j : ℤ, p.x = head.pos.x + cfg.SNAKE_DISTANCE_PER_STEP + i * f.m_width ∧
        p.y = head.pos.y + j * f.m_height) := by
  obtain ⟨head', rest, hs, hrest⟩ := exists_head_of_two_le s.m_segments hlen
  have e : head' = head := by
    rw [hs] at hhead
    simpa using hhead
  subst e
  obtain ⟨st, r, p, hst, hr, hp, h1, -, h3, h4, h5, h6, h7, -⟩ :=
    move_returns cfg lm f s 0 false hW hH htsd head' rest hs hrest
  obtain ⟨st', hst', g1, g2, -⟩ :=
    moveHead_returns cfg lm f s 0 false hW hH htsd head' rest hs hrest
  have est := Returns.unique hst hst'
  subst est
  have hδ := deltaAngle_zero s hrad hh
  have hheading : st.m_heading = 0 := by
    rw [g1, hδ, hh]
    simp
  have hpos : st.headSegment.pos
      = ⟨head'.pos.x + cfg.SNAKE_DISTANCE_PER_STEP, head'.pos.y⟩ := by
    rw [g2, hδ, hh]
    simp [headPath, movementVector, Vector2D.add, Vector2D.smul, hcos, hsin]
  obtain ⟨p', hp', ⟨-, -, ⟨i, hi⟩, -⟩, ⟨-, -, ⟨j, hj⟩, -⟩⟩ :=
    wrapCoords_returns f hW hH st.headSegment.pos
  have ep := Returns.unique hp hp'
  subst ep
  rw [hpos] at hi hj
  refine ⟨r, p, hr, h4, h1, ?_, h6, h7, h3, i, j, hi, hj⟩
  rw [h5, hheading]
  norm_num [normalizeAngle]

/-- C15: for a snake with heading `0`, at least two segments, a positive target distance and
a non-negative segment radius, in a world of positive size and with `cos 0 = 1`,
`sin 0 = 0`: `n` successive calls `move(0, false)` return a snake with the same mass and
segment count whose head `p` is congruent to `(x0 + n · SNAKE_DISTANCE_PER_STEP, y0)` modulo
the world size, where `(x0, y0)` is the position of the head at the start. -/
theorem moveTimes_straight_line (cfg : Config) (lm : Libm) (f : Field)
    (hW : 0 < f.m_width) (hH : 0 < f.m_height) (hcos : lm.cos 0 = 1) (hsin : lm.sin 0 = 0)
    (n : ℕ) (s : Snake) (head : Segment) (htsd : 0 < s.m_targetSegmentDistance)
    (hlen : 2 ≤ s.m_segments.length) (hrad : 0 ≤ s.m_segmentRadius) (hh : s.m_heading = 0)
    (hhead : s.m_segments[0]? = some head) :
    ∃ r p, Returns (fun fuel => Snake.moveTimes cfg lm f fuel 0 false n s) r ∧
      r.m_mass = s.m_mass ∧ r.m_segments.length = s.m_segments.length ∧
      r.m_segments[0]? = some ⟨p⟩ ∧
      ∃ i j : ℤ, p.x = head.pos.x + n * cfg.SNAKE_DISTANCE_PER_STEP + i * f.m_width ∧
        p.y = head.pos.y + j * f.m_height := by
  induction n generalizing s head with
  | zero =>
    refine ⟨s, head.pos, ⟨0, fun _ _ => rfl⟩, rfl, rfl, hhead, 0, 0, ?_, ?_⟩ <;> simp
  | succ n ih =>
    obtain ⟨r, p, hr, h1, h2, h3, h4, h5, h6, i, j, hi, hj⟩ :=
      move_straight cfg lm f s hW hH htsd hlen hrad hh hcos hsin head hhead
    obtain ⟨r', p', hr', g1, g2, g3, i', j', hi', hj'⟩ :=
      ih r.1 ⟨p⟩ (by rw [h4]; exact htsd) (by rw [h2]; exact hlen) (by rw [h5]; exact hrad)
        h3 h6
    refine ⟨r', p', Returns.bind hr hr', g1.trans h1, g2.trans h2, g3, i + i', j + j', ?_, ?_⟩
    · rw [hi', hi]
      push_cast
      ring
    · rw [hj', hj]
      push_cast
      ring

theorem moveTimes_straight_line_witness :
    (0 : ℚ) < (⟨60, 60⟩ : Field).m_width ∧ (0 : ℚ) < (⟨60, 60⟩ : Field).m_height ∧
    sampleLibm.cos 0 = 1 ∧ sampleLibm.sin 0 = 0 ∧
    0 < sampleSnake.m_targetSegmentDistance ∧ 2 ≤ sampleSnake.m_segments.length ∧
    0 ≤ sampleSnake.m_segmentRadius ∧ sampleSnake.m_heading = 0 ∧
    sampleSnake.m_segments[0]? = some ⟨⟨10, 10⟩⟩ ∧
    ∃ r p, Returns (fun fuel =>
        Snake.moveTimes sampleConfig sampleLibm ⟨60, 60⟩ fuel 0 false 100 sampleSnake) r ∧
      r.m_mass = sampleSnake.m_mass ∧ r.m_segments.length = sampleSnake.m_segments.length ∧
      r.m_segments[0]? = some ⟨p⟩ ∧
      ∃ i j : ℤ, p.x = (⟨⟨10, 10⟩⟩ : Segment).pos.x
            + (100 : ℕ) * sampleConfig.SNAKE_DISTANCE_PER_STEP
            + i * (⟨60, 60⟩ : Field).m_width ∧
        p.y = (⟨⟨10, 10⟩⟩ : Segment).pos.y + j * (⟨60, 60⟩ : Field).m_height :=
  have h1 : sampleLibm.cos 0 = 1 := by norm_num [sampleLibm]
  have h2 : sampleLibm.sin 0 = 0 := by norm_num [sampleLibm]
  have h3 : 0 < sampleSnake.m_targetSegmentDistance := by norm_num [sampleSnake]
  have h4 : 2 ≤ sampleSnake.m_segments.length := by simp [sampleSnake]
  have h5 : 0 ≤ sampleSnake.m_segmentRadius := by norm_num [sampleSnake]
  have h6 : sampleSnake.m_heading = 0 := rfl
  have h7 : sampleSnake.m_segments[0]? = some ⟨⟨10, 10⟩⟩ := rfl
  ⟨by norm_num, by norm_num, h1, h2, h3, h4, h5, h6, h7,
    moveTimes_straight_line sampleConfig sampleLibm ⟨60, 60⟩ (by norm_num) (by norm_num) h1 h2
      100 sampleSnake ⟨⟨10, 10⟩⟩ h3 h4 h5 h6 h7⟩

/-! ## More on loops -/

/-- Invariant rule for `whileLoop`: what the body keeps holds when the loop is left. -/
theorem whileLoop_invariant {σ : Type} (cond : σ → Bool) (body : σ → Option σ) (I : σ → Prop)
    (hstep : ∀ s t, I s → cond s = true → body s = some t → I t) :
    ∀ (n : Nat) (s r : σ), I s → whileLoop cond body n s = some r → I r ∧ cond r = false := by
  intro n
  induction n with
  | zero =>
    intro s r hI h
    by_cases hc : cond s = true
    · simp [whileLoop, hc] at h
    · have hc' : cond s = false := by simpa using hc
      simp only [whileLoop, hc', Bool.false_eq_true, if_false, Option.some.injEq] at h
      subst h
      exact ⟨hI, hc'⟩
  | succ n ih =>
    intro s r hI h
    by_cases hc : cond s = true
    · simp only [whileLoop, hc, if_true] at h
      cases hb : body s with
      | none => simp [hb] at h
      | some t =>
        rw [hb, Option.some_bind] at h
        exact ih t r (hstep s t hI hc hb) h
    · have hc' : cond s = false := by simpa using hc
      simp only [whileLoop, hc', Bool.false_eq_true, if_false, Option.some.injEq] at h
      subst h
      exact ⟨hI, hc'⟩

/-- Total correctness of `whileLoop` with a body that takes a bound of its own. -/
theorem whileLoop_converges_fueled {σ : Type} (cond : σ → Bool) (body : Nat → σ → Option σ)
    (I : σ → Prop) (μ : σ → Nat)
    (hstep : ∀ s, I s → cond s = true →
      ∃ t, Returns (fun n => body n s) t ∧ I t ∧ μ t < μ s) :
    ∀ (k : Nat) (s : σ), I s → μ s ≤ k →
      ∃ r N, I r ∧ cond r = false ∧
        ∀ n m, N ≤ n → N ≤ m → whileLoop cond (body n) m s = some r := by
  intro k
  induction k with
  | zero =>
    intro s hI hk
    by_cases hc : cond s = true
    · obtain ⟨t, _, _, ht⟩ := hstep s hI hc
      omega
    · have hc' : cond s = false := by simpa using hc
      exact ⟨s, 0, hI, hc', fun n m _ _ => whileLoop_of_not_cond cond (body n) m s hc'⟩
  | succ k ih =>
    intro s hI hk
    by_cases hc : cond s = true
    · obtain ⟨t, ⟨N1, hN1⟩, hIt, ht⟩ := hstep s hI hc
      obtain ⟨r, N2, hIr, hcr, hr⟩ := ih t hIt (by omega)
      refine ⟨r, max N1 N2 + 1, hIr, hcr, fun n m hn hm => ?_⟩
      obtain ⟨m', rfl⟩ : ∃ m', m = m' + 1 := ⟨m - 1, by omega⟩
      have hb : body n s = some t := hN1 n (by omega)
      simp only [whileLoop, hc, if_true, hb, Option.some_bind]
      exact hr n m' (by omega) (by omega)
    · have hc' : cond s = false := by simpa using hc
      exact ⟨s, 0, hI, hc', fun n m _ _ => whileLoop_of_not_cond cond (body n) m s hc'⟩

theorem whileLoop_returns_fueled {σ : Type} (cond : σ → Bool) (body : Nat → σ → Option σ)
    (I : σ → Prop) (μ : σ → Nat)
    (hstep : ∀ s, I s → cond s = true →
      ∃ t, Returns (fun n => body n s) t ∧ I t ∧ μ t < μ s)
    (s : σ) (hI : I s) :
    ∃ r, Returns (fun n => whileLoop cond (body n) n s) r ∧ I r ∧ cond r = false := by
  obtain ⟨r, N, hIr, hcr, hr⟩ :=
    whileLoop_converges_fueled cond body I μ hstep (μ s) s hI le_rfl
  exact ⟨r, ⟨N, fun n hn => hr n n hn hn⟩, hIr, hcr⟩

/-- Invariant rule for `forEach`. -/
theorem forEach_invariant {α σ : Type} (body : α → σ → Option σ) (I : σ → Prop) :
    ∀ (as : List α) (s r : σ), (∀ a ∈ as, ∀ s t, I s → body a s = some t → I t) →
      I s → forEach body as s = some r → I r := by
  intro as
  induction as with
  | nil =>
    intro s r _ hI h
    simp only [forEach, Option.some.injEq] at h
    subst h
    exact hI
  | cons a as ih =>
    intro s r hbody hI h
    simp only [forEach] at h
    cases hb : body a s with
    | none => simp [hb] at h
    | some t =>
      rw [hb, Option.some_bind] at h
      exact ih t r (fun b hb' => hbody b (List.mem_cons_of_mem _ hb'))
        (hbody a (List.mem_cons_self _ _) s t hI hb) h

/-- Total correctness of `forEach` with a body that takes a bound on its loops. -/
theorem forEach_returns {α σ : Type} (body : Nat → α → σ → Option σ) (I : σ → Prop) :
    ∀ (as : List α) (s : σ),
      (∀ a ∈ as, ∀ s, I s → ∃ t, Returns (fun n => body n a s) t ∧ I t) → I s →
      ∃ r, Returns (fun n => forEach (body n) as s) r ∧ I r := by
  intro as
  induction as with
  | nil =>
    intro s _ hI
    exact ⟨s, ⟨0, fun _ _ => rfl⟩, hI⟩
  | cons a as ih =>
    intro s hbody hI
    obtain ⟨t, ht, hIt⟩ := hbody a (List.mem_cons_self _ _) s hI
    obtain ⟨r, hr, hIr⟩ := ih t (fun b hb => hbody b (List.mem_cons_of_mem _ hb)) hIt
    exact ⟨r, Returns.bind ht hr, hIr⟩

/-! ## Food -/

theorem FoodSpawned.refl (w : FieldState) : FoodSpawned w w [] :=
  ⟨rfl, rfl, rfl, rfl, rfl, rfl, by simp, by simp, 0, fun _ => rfl⟩

theorem FoodSpawned.trans {w1 w2 w3 : FieldState} {new1 new2 : List FoodItem}
    (h1 : FoodSpawned w1 w2 new1) (h2 : FoodSpawned w2 w3 new2) :
    FoodSpawned w1 w3 (new1 ++ new2) := by
  obtain ⟨a1, a2, a3, a4, a5, a6, a7, a8, k1, a9⟩ := h1
  obtain ⟨b1, b2, b3, b4, b5, b6, b7, b8, k2, b9⟩ := h2
  refine ⟨b1.trans a1, b2.trans a2, b3.trans a3, b4.trans a4, b5.trans a5, b6.trans a6, ?_, ?_,
    k2 + k1, fun i => ?_⟩
  · rw [b7, a7, List.append_assoc]
  · rw [b8, a8, List.map_append, List.append_assoc]
  · rw [b9, a9, Nat.add_assoc]

/-- One iteration of the loop of `createDynamicFood` returns exactly when `wrapCoords`
returns a position `pos` for the food item; the field is then `afterDynamicFood`. -/
theorem createOneDynamicFood_eq (fcfg : FieldConfig) (lm : Libm) (n : Nat) (center : Vector2D)
    (radius : ℚ) (hunter : Option BotId) (rem : ℚ) (w : FieldState) :
    FieldState.createOneDynamicFood fcfg lm n center radius hunter (rem, w)
      = (w.size.wrapCoords n (center.add (w.nextFoodOffset lm radius))).map
          (fun pos =>
            (rem - w.nextFoodValue fcfg rem, w.afterDynamicFood fcfg rem pos hunter)) := by
  by_cases hm : rem > fcfg.FOOD_SIZE_MEAN
  · simp only [FieldState.createOneDynamicFood, FieldState.nextFoodOffset,
      FieldState.nextFoodValue, FieldState.afterDynamicFood, hm, if_true, RndGen.drawFoodSize,
      RndGen.drawSimple0To1, RndGen.drawAngleRad]
  · simp only [FieldState.createOneDynamicFood, FieldState.nextFoodOffset,
      FieldState.nextFoodValue, FieldState.afterDynamicFood, hm, if_false,
      RndGen.drawSimple0To1, RndGen.drawAngleRad]

/-- The field `afterDynamicFood` arises by spawning one dynamic food item of the given
hunter and value; no food-size value is used up when the remaining value does not exceed
`FOOD_SIZE_MEAN`. -/
theorem afterDynamicFood_spawned (fcfg : FieldConfig) (w : FieldState) (rem : ℚ)
    (pos : Vector2D) (hunter : Option BotId) :
    FoodSpawned w (w.afterDynamicFood fcfg rem pos hunter)
        [{ pos := pos, m_value := w.nextFoodValue fcfg rem, isStatic := false,
           hunter := hunter }] ∧
      (rem ≤ fcfg.FOOD_SIZE_MEAN →
        (w.afterDynamicFood fcfg rem pos hunter).m_rndGen.foodSize = w.m_rndGen.foodSize) := by
  by_cases hm : rem > fcfg.FOOD_SIZE_MEAN
  · refine ⟨⟨rfl, rfl, rfl, rfl, rfl, rfl, rfl, rfl, 1, fun i => ?_⟩, fun hle => ?_⟩
    · simp [FieldState.afterDynamicFood, hm, RndGen.drawFoodSize, RndGen.drawSimple0To1,
        RndGen.drawAngleRad]
    · exact absurd hm (not_lt.mpr hle)
  · refine ⟨⟨rfl, rfl, rfl, rfl, rfl, rfl, rfl, rfl, 0, fun i => ?_⟩, fun _ => ?_⟩
    · simp [FieldState.afterDynamicFood, hm, RndGen.drawSimple0To1, RndGen.drawAngleRad]
    · simp [FieldState.afterDynamicFood, hm, RndGen.drawSimple0To1, RndGen.drawAngleRad]

theorem totalFoodValue_append (a b : List FoodItem) :
    totalFoodValue (a ++ b) = totalFoodValue a + totalFoodValue b := by
  simp [totalFoodValue]

/-- What `Field::createDynamicFood` does, when it returns: it spawns dynamic food items of
the given hunter whose values add up to at least `totalValue`; the items have positive
values if the values of the food-size distribution are positive. -/
theorem createDynamicFood_spec (fcfg : FieldConfig) (lm : Libm) (n : Nat) (w w' : FieldState)
    (totalValue : ℚ) (center : Vector2D) (radius : ℚ) (hunter : Option BotId)
    (h : w.createDynamicFood fcfg lm n totalValue center radius hunter = some w') :
    ∃ new, FoodSpawned w w' new ∧ totalValue ≤ totalFoodValue new ∧
      (∀ food ∈ new, food.isStatic = false ∧ food.hunter = hunter) ∧
      ((∀ i, 0 < w.m_rndGen.foodSize i) → ∀ food ∈ new, 0 < food.m_value) := by
  simp only [FieldState.createDynamicFood, Option.map_eq_some'] at h
  obtain ⟨⟨rem, w''⟩, hloop, rfl⟩ := h
  have key := whileLoop_invariant (fun st : ℚ × FieldState => decide (st.1 > 0))
    (FieldState.createOneDynamicFood fcfg lm n center radius hunter)
    (fun st => ∃ new, FoodSpawned w st.2 new ∧ st.1 = totalValue - totalFoodValue new ∧
      (∀ food ∈ new, food.isStatic = false ∧ food.hunter = hunter) ∧
      ((∀ i, 0 < w.m_rndGen.foodSize i) → ∀ food ∈ new, 0 < food.m_value))
    (by
      rintro ⟨r, u⟩ t ⟨new, g1, g2, g3, g4⟩ hcond hbody
      have hr : 0 < r := by simpa using hcond
      rw [createOneDynamicFood_eq, Option.map_eq_some'] at hbody
      obtain ⟨pos, -, rfl⟩ := hbody
      obtain ⟨f1, -⟩ := afterDynamicFood_spawned fcfg u r pos hunter
      refine ⟨new ++ [_], g1.trans f1, ?_, ?_, ?_⟩
      · simp only at g2
        simp only [totalFoodValue_append, g2]
        simp only [totalFoodValue, List.map_cons, List.map_nil, List.sum_cons, List.sum_nil,
          add_zero]
        ring
      · intro x hx
        rcases List.mem_append.mp hx with hx | hx
        · exact g3 x hx
        · rw [List.mem_singleton.mp hx]
          exact ⟨rfl, rfl⟩
      · intro hpos x hx
        rcases List.mem_append.mp hx with hx | hx
        · exact g4 hpos x hx
        · rw [List.mem_singleton.mp hx]
          show 0 < u.nextFoodValue fcfg r
          unfold FieldState.nextFoodValue
          split
          · obtain ⟨-, -, -, -, -, -, -, -, k, hk⟩ := g1
            rw [hk]
            exact hpos _
          · exact hr)
    n (totalValue, w) (rem, w'') ⟨[], FoodSpawned.refl w, by simp [totalFoodValue], by simp,
      by simp⟩ hloop
  obtain ⟨⟨new, h1, h2, h3, h4⟩, hc⟩ := key
  refine ⟨new, h1, ?_, h3, h4⟩
  have hle : rem ≤ 0 := by simpa using hc
  simp only at h2
  linarith

/-- With `totalValue ≤ 0` the loop of `createDynamicFood` does not run. -/
theorem createDynamicFood_of_nonpos (fcfg : FieldConfig) (lm : Libm) (n : Nat) (w : FieldState)
    (totalValue : ℚ) (center : Vector2D) (radius : ℚ) (hunter : Option BotId)
    (h : totalValue ≤ 0) :
    w.createDynamicFood fcfg lm n totalValue center radius hunter = some w := by
  simp only [FieldState.createDynamicFood]
  rw [whileLoop_of_not_cond _ _ _ _ (by simpa using h)]
  rfl

/-- The loop of `createDynamicFood` runs once when the value of the first food item is not
below `totalValue`: that is the case for `0 < totalValue ≤ FOOD_SIZE_MEAN`, where the value
is `totalValue`, and when `totalValue` exceeds `FOOD_SIZE_MEAN` and the next food-size value
is not below it. The field is then `afterDynamicFood`, with the wrapped position `p`. -/
theorem createDynamicFood_single (fcfg : FieldConfig) (lm : Libm) (w : FieldState)
    (totalValue : ℚ) (center : Vector2D) (radius : ℚ) (hunter : Option BotId)
    (hW : 0 < w.size.m_width) (hH : 0 < w.size.m_height) (h0 : 0 < totalValue)
    (hv : totalValue ≤ w.nextFoodValue fcfg totalValue) :
    ∃ p, Returns (fun n => w.size.wrapCoords n (center.add (w.nextFoodOffset lm radius))) p ∧
      Returns (fun n => w.createDynamicFood fcfg lm n totalValue center radius hunter)
        (w.afterDynamicFood fcfg totalValue p hunter) := by
  obtain ⟨p, hp, -⟩ := wrapCoords_returns w.size hW hH (center.add (w.nextFoodOffset lm radius))
  refine ⟨p, hp, ?_⟩
  obtain ⟨N, hN⟩ := hp
  refine ⟨N + 1, fun n hn => ?_⟩
  obtain ⟨m, rfl⟩ : ∃ m, n = m + 1 := ⟨n - 1, by omega⟩
  have hw : w.size.wrapCoords (m + 1) (center.add (w.nextFoodOffset lm radius)) = some p :=
    hN (m + 1) (by omega)
  have hb := createOneDynamicFood_eq fcfg lm (m + 1) center radius hunter totalValue w
  rw [hw] at hb
  show w.createDynamicFood fcfg lm (m + 1) totalValue center radius hunter = _
  simp only [FieldState.createDynamicFood, whileLoop, h0, gt_iff_lt, decide_True, if_true, hb,
    Option.map_some', Option.some_bind]
  rw [whileLoop_of_not_cond _ _ _ _ (by simpa using hv)]
  rfl

theorem FoodSpawned.regular {w w' : FieldState} {new : List FoodItem} {δ : ℚ}
    (h : FoodSpawned w w' new) (hw : w.Regular δ) : w'.Regular δ := by
  obtain ⟨a1, -, -, -, -, -, -, -, k, a9⟩ := h
  obtain ⟨h1, h2, h3⟩ := hw
  refine ⟨by rw [a1]; exact h1, by rw [a1]; exact h2, fun i => ?_⟩
  rw [a9]
  exact h3 _

/-- Total correctness of `Field::createDynamicFood`: in a world of positive size and with
food-size values that are at least `δ > 0` the loop terminates. -/
theorem createDynamicFood_returns (fcfg : FieldConfig) (lm : Libm) (w : FieldState)
    (totalValue : ℚ) (center : Vector2D) (radius : ℚ) (hunter : Option BotId) (δ : ℚ)
    (hδ : 0 < δ) (hw : w.Regular δ) :
    ∃ w' new, Returns (fun n => w.createDynamicFood fcfg lm n totalValue center radius hunter) w' ∧
      FoodSpawned w w' new ∧ totalValue ≤ totalFoodValue new ∧
      (∀ food ∈ new, food.isStatic = false ∧ food.hunter = hunter ∧ 0 < food.m_value) := by
  obtain ⟨r, hr, -, -⟩ := whileLoop_returns_fueled
    (fun st : ℚ × FieldState => decide (st.1 > 0))
    (fun n => FieldState.createOneDynamicFood fcfg lm n center radius hunter)
    (fun st => st.2.Regular δ) (fun st => ⌈st.1 / δ⌉.toNat)
    (by
      rintro ⟨rem, u⟩ hu hcond
      have hrem : 0 < rem := by simpa using hcond
      obtain ⟨p, ⟨N, hN⟩, -⟩ := wrapCoords_returns u.size hu.1 hu.2.1
        (center.add (u.nextFoodOffset lm radius))
      obtain ⟨f1, -⟩ := afterDynamicFood_spawned fcfg u rem p hunter
      refine ⟨(rem - u.nextFoodValue fcfg rem, u.afterDynamicFood fcfg rem p hunter),
        ⟨N, fun n hn => ?_⟩, f1.regular hu, ?_⟩
      · have hp : u.size.wrapCoords n (center.add (u.nextFoodOffset lm radius)) = some p :=
          hN n hn
        show FieldState.createOneDynamicFood fcfg lm n center radius hunter (rem, u) = _
        rw [createOneDynamicFood_eq, hp]
        rfl
      · show ⌈(rem - u.nextFoodValue fcfg rem) / δ⌉.toNat < ⌈rem / δ⌉.toNat
        have hq : 0 < rem / δ := div_pos hrem hδ
        have hdec := ceil_toNat_decreases hq
        by_cases hm : rem > fcfg.FOOD_SIZE_MEAN
        · have hv : δ ≤ u.nextFoodValue fcfg rem := by
            simp only [FieldState.nextFoodValue, hm, if_true]
            exact hu.2.2 0
          have hle : (rem - u.nextFoodValue fcfg rem) / δ ≤ rem / δ - 1 := by
            rw [div_le_iff₀ hδ, sub_mul, div_mul_cancel₀ _ hδ.ne']
            linarith
          exact lt_of_le_of_lt (Int.toNat_le_toNat (Int.ceil_le_ceil hle)) hdec
        · have hv : u.nextFoodValue fcfg rem = rem := by
            simp only [FieldState.nextFoodValue, hm, if_false]
          rw [hv, sub_self, zero_div, Int.ceil_zero]
          have h2 : 0 < ⌈rem / δ⌉ := Int.ceil_pos.mpr hq
          simp only [Int.toNat_zero]
          omega)
    (totalValue, w) hw
  have hr' := Returns.map Prod.snd hr
  obtain ⟨N, hN⟩ := hr'
  obtain ⟨new, g1, g2, g3, g4⟩ :=
    createDynamicFood_spec fcfg lm N w r.2 totalValue center radius hunter (hN N le_rfl)
  refine ⟨r.2, new, ⟨N, hN⟩, g1, g2, fun food hf => ?_⟩
  exact ⟨(g3 food hf).1, (g3 food hf).2,
    g4 (fun i => lt_of_lt_of_le hδ (hw.2.2 i)) food hf⟩

/-! ## Kill resolution -/

theorem Frame.same (w : FieldState) : Frame w w := ⟨rfl, rfl, rfl, 0, fun _ => rfl⟩

theorem Frame.comp {w1 w2 w3 : FieldState} (h1 : Frame w1 w2) (h2 : Frame w2 w3) :
    Frame w1 w3 := by
  obtain ⟨a1, a2, a3, k1, a4⟩ := h1
  obtain ⟨b1, b2, b3, k2, b4⟩ := h2
  refine ⟨b1.trans a1, b2.trans a2, b3.trans a3, k2 + k1, fun i => ?_⟩
  rw [b4, a4, Nat.add_assoc]

theorem FoodSpawned.frame {w w' : FieldState} {new : List FoodItem} (h : FoodSpawned w w' new) :
    Frame w w' := by
  obtain ⟨a1, -, -, a4, -, a6, -, -, k, a9⟩ := h
  exact ⟨a1, a4, a6, k, a9⟩

theorem Frame.regularAfter {w w' : FieldState} {δ : ℚ} (h : Frame w w') (hw : w.Regular δ) :
    w'.Regular δ := by
  obtain ⟨a1, -, -, k, a9⟩ := h
  obtain ⟨h1, h2, h3⟩ := hw
  refine ⟨by rw [a1]; exact h1, by rw [a1]; exact h2, fun i => ?_⟩
  rw [a9]
  exact h3 _

/-- What `Snake::convertToFood` does, when it returns: it spawns dynamic food of the given
hunter. -/
theorem convertToFood_spec (fcfg : FieldConfig) (lm : Libm) (n : Nat) (s : Snake)
    (w w' : FieldState) (hunter : Option BotId)
    (h : s.convertToFood fcfg lm n w hunter = some w') :
    ∃ new, FoodSpawned w w' new ∧
      ∀ food ∈ new, food.isStatic = false ∧ food.hunter = hunter := by
  refine forEach_invariant _
    (fun u => ∃ new, FoodSpawned w u new ∧
      ∀ food ∈ new, food.isStatic = false ∧ food.hunter = hunter)
    s.m_segments w w' ?_ ⟨[], FoodSpawned.refl w, by simp⟩ h
  rintro seg - u t ⟨new, g1, g2⟩ hbody
  obtain ⟨more, f1, -, f3, -⟩ := createDynamicFood_spec fcfg lm n u t _ _ _ _ hbody
  refine ⟨new ++ more, g1.trans f1, fun food hf => ?_⟩
  rcases List.mem_append.mp hf with hf | hf
  · exact g2 food hf
  · exact f3 food hf

/-- Total correctness of `Snake::convertToFood`. -/
theorem convertToFood_returns (fcfg : FieldConfig) (lm : Libm) (s : Snake) (w : FieldState)
    (hunter : Option BotId) (δ : ℚ) (hδ : 0 < δ) (hw : w.Regular δ) :
    ∃ w', Returns (fun n => s.convertToFood fcfg lm n w hunter) w' := by
  obtain ⟨r, hr, -⟩ := forEach_returns
    (fun n (seg : Segment) (u : FieldState) => u.createDynamicFood fcfg lm n
      (s.m_mass / s.m_segments.length * fcfg.SNAKE_CONVERSION_FACTOR) seg.pos s.m_segmentRadius
      hunter)
    (fun u => u.Regular δ) s.m_segments w
    (by
      intro seg _ u hu
      obtain ⟨t, new, ht, f1, -⟩ := createDynamicFood_returns fcfg lm u
        (s.m_mass / s.m_segments.length * fcfg.SNAKE_CONVERSION_FACTOR) seg.pos
        s.m_segmentRadius hunter δ hδ hu
      exact ⟨t, ht, f1.regular hu⟩)
    hw
  exact ⟨r, hr⟩

/-- What `Field::killBot` does, when it returns: the victim is taken out of the set of bots,
no snake changes, and the calls made are `foodSpawned` for the food `new`, `botKilled`, and
the callbacks. -/
theorem killBot_spec (fcfg : FieldConfig) (lm : Libm) (n : Nat) (w w' : FieldState)
    (victim killer : BotId) (h : w.killBot fcfg lm n victim killer = some w') :
    Frame w w' ∧ w'.m_bots = w.m_bots.filter (fun b => b ≠ victim) ∧ w'.snakes = w.snakes ∧
      ∃ new : List FoodItem, w'.calls = w.calls ++ new.map Call.foodSpawned
        ++ killCalls w.m_botKilledCallbacks victim killer := by
  simp only [FieldState.killBot, Option.bind_eq_bind, Option.bind_eq_some] at h
  obtain ⟨u, hu, hw'⟩ := h
  obtain ⟨new, f, -⟩ := convertToFood_spec fcfg lm n _ w u _ hu
  have hf := f.frame
  obtain ⟨a1, a2, a3, a4, a5, a6, a7, a8, k, a9⟩ := f
  simp only [Option.some.injEq] at hw'
  subst hw'
  refine ⟨⟨a1, a4, a6, k, a9⟩, ?_, a3, new, ?_⟩
  · simp only [a2]
  · simp only [a8, a6, killCalls, List.append_assoc, List.singleton_append]

/-- Total correctness of `Field::killBot`. -/
theorem killBot_returns (fcfg : FieldConfig) (lm : Libm) (w : FieldState)
    (victim killer : BotId) (δ : ℚ) (hδ : 0 < δ) (hw : w.Regular δ) :
    ∃ w', Returns (fun n => w.killBot fcfg lm n victim killer) w' := by
  obtain ⟨u, hu⟩ := convertToFood_returns fcfg lm (w.snakes victim) w (some killer) δ hδ hw
  exact ⟨_, Returns.bind hu (Returns.pure _)⟩

/-- What `dropFood` does, when it returns: the value is taken off the mass of the bot, and
food is spawned. -/
theorem dropFood_spec (fcfg : FieldConfig) (lm : Libm) (n : Nat) (w w' : FieldState)
    (bot : BotId) (value : ℚ) (h : w.dropFood fcfg lm n bot value = some w') :
    Frame w w' ∧ w'.m_bots = w.m_bots ∧
      w'.snakes = Function.update w.snakes bot
        { w.snakes bot with m_mass := (w.snakes bot).m_mass - value } ∧
      ∃ new : List FoodItem, w'.calls = w.calls ++ new.map Call.foodSpawned := by
  simp only [FieldState.dropFood, Option.bind_eq_bind, Option.bind_eq_some] at h
  obtain ⟨u, hu, hw'⟩ := h
  obtain ⟨new, f, -⟩ := createDynamicFood_spec fcfg lm n w u _ _ _ _ hu
  obtain ⟨a1, a2, a3, a4, a5, a6, a7, a8, k, a9⟩ := f
  simp only [Option.some.injEq] at hw'
  subst hw'
  exact ⟨⟨a1, a4, a6, k, a9⟩, a2, by simp only [a3], new, a8⟩

/-- Total correctness of `dropFood`. -/
theorem dropFood_returns (fcfg : FieldConfig) (lm : Libm) (w : FieldState) (bot : BotId)
    (value : ℚ) (δ : ℚ) (hδ : 0 < δ) (hw : w.Regular δ) :
    ∃ w', Returns (fun n => w.dropFood fcfg lm n bot value) w' := by
  obtain ⟨u, new, hu, -⟩ := createDynamicFood_returns fcfg lm w value
    ((((w.snakes bot).m_segments.getLast?).map (fun seg => seg.pos)).getD ⟨0, 0⟩)
    (w.snakes bot).m_segmentRadius (some bot) δ hδ hw
  exact ⟨_, Returns.bind hu (Returns.pure _)⟩

/-- What the boost loss does, when the lines return: the loss is taken off the mass, and the
bot is taken out of the set of bots if its mass is below the threshold now. -/
theorem applyBoostLoss_spec (fcfg : FieldConfig) (lm : Libm) (n : Nat) (victim : BotId)
    (w w' : FieldState) (h : w.applyBoostLoss fcfg lm n victim = some w') :
    Frame w w' ∧
      w'.snakes = Function.update w.snakes victim
        { w.snakes victim with
          m_mass := (w.snakes victim).m_mass
            - fcfg.SNAKE_BOOST_LOSS_FACTOR * (w.snakes victim).m_mass } ∧
      w'.m_bots = (if (w.snakes victim).m_mass
            - fcfg.SNAKE_BOOST_LOSS_FACTOR * (w.snakes victim).m_mass
            < fcfg.SNAKE_SELF_KILL_MASS_THESHOLD
          then w.m_bots.filter (fun b => b ≠ victim) else w.m_bots) ∧
      ∃ extra, w'.calls = w.calls ++ extra := by
  simp only [FieldState.applyBoostLoss, Option.bind_eq_bind, Option.bind_eq_some] at h
  obtain ⟨u, hu, hw'⟩ := h
  obtain ⟨f1, f2, f3, new, f4⟩ := dropFood_spec fcfg lm n w u victim _ hu
  have hm : (u.snakes victim).m_mass = (w.snakes victim).m_mass
      - fcfg.SNAKE_BOOST_LOSS_FACTOR * (w.snakes victim).m_mass := by
    rw [f3, Function.update_same]
  rw [hm] at hw'
  by_cases hc : (w.snakes victim).m_mass
      - fcfg.SNAKE_BOOST_LOSS_FACTOR * (w.snakes victim).m_mass
      < fcfg.SNAKE_SELF_KILL_MASS_THESHOLD
  · rw [if_pos hc] at hw'
    obtain ⟨g1, g2, g3, more, g4⟩ := killBot_spec fcfg lm n u w' victim victim hw'
    refine ⟨f1.comp g1, by rw [g3, f3], by rw [if_pos hc, g2, f2], ?_⟩
    exact ⟨_, by rw [g4, f4, List.append_assoc, List.append_assoc]⟩
  · rw [if_neg hc, Option.some.injEq] at hw'
    subst hw'
    exact ⟨f1, f3, by rw [if_neg hc, f2], _, f4⟩

/-- Total correctness of the boost loss. -/
theorem applyBoostLoss_returns (fcfg : FieldConfig) (lm : Libm) (victim : BotId)
    (w : FieldState) (δ : ℚ) (hδ : 0 < δ) (hw : w.Regular δ) :
    ∃ w', Returns (fun n => w.applyBoostLoss fcfg lm n victim) w' := by
  obtain ⟨u, ⟨N, hN⟩⟩ := dropFood_returns fcfg lm w victim
    (fcfg.SNAKE_BOOST_LOSS_FACTOR * (w.snakes victim).m_mass) δ hδ hw
  obtain ⟨f1, -⟩ := dropFood_spec fcfg lm N w u victim _ (hN N le_rfl)
  by_cases hc : (u.snakes victim).m_mass < fcfg.SNAKE_SELF_KILL_MASS_THESHOLD
  · obtain ⟨w', ⟨M, hM⟩⟩ := killBot_returns fcfg lm u victim victim δ hδ (f1.regularAfter hw)
    refine ⟨w', max N M, fun n hn => ?_⟩
    have e1 : w.dropFood fcfg lm n victim
        (fcfg.SNAKE_BOOST_LOSS_FACTOR * (w.snakes victim).m_mass) = some u :=
      hN n (le_trans (le_max_left _ _) hn)
    have e2 : u.killBot fcfg lm n victim victim = some w' :=
      hM n (le_trans (le_max_right _ _) hn)
    simp only [FieldState.applyBoostLoss, e1, Option.bind_eq_bind, Option.some_bind, hc,
      if_true, e2]
  · refine ⟨u, N, fun n hn => ?_⟩
    have e1 : w.dropFood fcfg lm n victim
        (fcfg.SNAKE_BOOST_LOSS_FACTOR * (w.snakes victim).m_mass) = some u := hN n hn
    simp only [FieldState.applyBoostLoss, e1, Option.bind_eq_bind, Option.some_bind, hc,
      if_false]

/-- The function `ensureSizeMatchesMass` leaves the mass alone. -/
theorem ensureSizeMatchesMass_mass (cfg : Config) (lm : Libm) (s s' : Snake)
    (h : s.ensureSizeMatchesMass cfg lm = some s') : s'.m_mass = s.m_mass := by
  by_cases h0 : lm.pow (s.m_mass * cfg.SNAKE_SEGMENT_DISTANCE_FACTOR)
      cfg.SNAKE_SEGMENT_DISTANCE_EXPONENT = 0
  · simp [Snake.ensureSizeMatchesMass, h0] at h
  · simp only [Snake.ensureSizeMatchesMass, h0, if_false, Option.bind_eq_bind,
      Option.bind_eq_some] at h
    obtain ⟨y, -, h⟩ := h
    generalize (if y < 2 then 2 else y) = T at h
    by_cases h1 : s.m_segments.length < T
    · simp only [h1, if_true, Option.bind_eq_some, Option.map_eq_some', Option.some.injEq] at h
      obtain ⟨_, _, h⟩ := h
      subst h
      rfl
    · by_cases h2 : s.m_segments.length > T
      · simp only [h1, h2, if_true, if_false, Option.some_bind, Option.some.injEq] at h
        subst h
        rfl
      · simp only [h1, h2, if_false, Option.some_bind, Option.some.injEq] at h
        subst h
        rfl

/-- What one job of the kill resolution does, when it returns: the standing changes by
`Standing.resolve`, and only the snake of the job's bot can change. -/
theorem resolveJob_spec (cfg : Config) (fcfg : FieldConfig) (lm : Libm) (n : Nat) (job : Job)
    (w w' : FieldState) (h : w.resolveJob cfg fcfg lm n job = some w') :
    Frame w w' ∧ w'.standing = w.standing.resolve fcfg w.boostedLastMove job ∧
      ∀ b, b ≠ job.bot → w'.snakes b = w.snakes b := by
  cases hk : job.killer with
  | some killer =>
    simp only [FieldState.resolveJob, hk] at h
    by_cases hc : (w.snakes killer).m_mass
        > (w.snakes job.bot).m_mass * FieldConfig.KILLER_MIN_MASS_RATIO fcfg
    · rw [if_pos hc] at h
      obtain ⟨g1, g2, g3, -⟩ := killBot_spec fcfg lm n w w' job.bot killer h
      refine ⟨g1, ?_, fun b _ => by rw [g3]⟩
      simp only [FieldState.standing, Standing.resolve, Job.removes, Job.massAfter, hk, hc,
        decide_True, if_true, g2, g3, Function.update_eq_self]
    · rw [if_neg hc, Option.some.injEq] at h
      subst h
      refine ⟨Frame.same w, ?_, fun b _ => rfl⟩
      simp only [FieldState.standing, Standing.resolve, Job.removes, Job.massAfter, hk, hc,
        decide_False, Bool.false_eq_true, if_false, Function.update_eq_self]
  | none =>
    simp only [FieldState.resolveJob, hk, Option.bind_eq_some, Option.map_eq_some'] at h
    obtain ⟨u, hu, s', hs', rfl⟩ := h
    have hmass := ensureSizeMatchesMass_mass cfg lm _ s' hs'
    by_cases hb : w.boostedLastMove job.bot = true
    · simp only [hb, if_true] at hu
      obtain ⟨f1, f2, f3, -⟩ := applyBoostLoss_spec fcfg lm n job.bot _ u hu
      refine ⟨f1, ?_, fun b hne => ?_⟩
      · simp only [FieldState.standing, Standing.resolve, Job.removes, Job.massAfter, hk, hb,
          Bool.true_and, if_true, f3, Standing.mk.injEq, decide_eq_true_eq, true_and]
        funext b
        by_cases hbb : b = job.bot
        · subst hbb
          simp only [Function.update_same, hmass, f2]
        · simp only [Function.update_noteq hbb, f2]
      · simp only [Function.update_noteq hne, f2]
    · have hb' : w.boostedLastMove job.bot = false := by simpa using hb
      simp only [hb', Bool.false_eq_true, if_false, Option.some.injEq] at hu
      subst hu
      refine ⟨Frame.same w, ?_, fun b hne => ?_⟩
      · simp only [FieldState.standing, Standing.resolve, Job.removes, Job.massAfter, hk, hb',
          Bool.false_and, Bool.false_eq_true, if_false, Standing.mk.injEq, true_and]
        funext b
        by_cases hbb : b = job.bot
        · subst hbb
          simp only [Function.update_same, hmass]
        · simp only [Function.update_noteq hbb]
      · simp only [Function.update_noteq hne]

/-- Total correctness of one job of the kill resolution: for a job without killer, the call
`ensureSizeMatchesMass` on the bot's snake with its mass after the job must be defined. -/
theorem resolveJob_returns (cfg : Config) (fcfg : FieldConfig) (lm : Libm) (job : Job)
    (w : FieldState) (δ : ℚ) (hδ : 0 < δ) (hw : w.Regular δ)
    (hens : job.killer = none → ∃ s',
      Snake.ensureSizeMatchesMass cfg lm
        { w.snakes job.bot with
          m_mass := job.massAfter fcfg w.boostedLastMove w.standing.mass } = some s') :
    ∃ w', Returns (fun n => w.resolveJob cfg fcfg lm n job) w' := by
  cases hk : job.killer with
  | some killer =>
    by_cases hc : (w.snakes killer).m_mass
        > (w.snakes job.bot).m_mass * FieldConfig.KILLER_MIN_MASS_RATIO fcfg
    · obtain ⟨w', N, hN⟩ := killBot_returns fcfg lm w job.bot killer δ hδ hw
      refine ⟨w', N, fun n hn => ?_⟩
      have e : w.killBot fcfg lm n job.bot killer = some w' := hN n hn
      simp only [FieldState.resolveJob, hk, hc, if_true, e]
    · refine ⟨w, 0, fun n _ => ?_⟩
      simp only [FieldState.resolveJob, hk, hc, if_false]
  | none =>
    obtain ⟨s', hs'⟩ := hens hk
    by_cases hb : w.boostedLastMove job.bot = true
    · have hw1 : FieldState.Regular
          { w with calls := w.calls ++ [Call.botMoved job.bot job.steps] } δ := hw
      obtain ⟨u, N, hN⟩ := applyBoostLoss_returns fcfg lm job.bot _ δ hδ hw1
      obtain ⟨-, f2, -⟩ := applyBoostLoss_spec fcfg lm N job.bot _ u (hN N le_rfl)
      have hsn : u.snakes job.bot = { w.snakes job.bot with
          m_mass := job.massAfter fcfg w.boostedLastMove w.standing.mass } := by
        rw [f2, Function.update_same]
        simp only [Job.massAfter, hk, hb, if_true, FieldState.standing]
      refine ⟨{ u with snakes := Function.update u.snakes job.bot s' }, N, fun n hn => ?_⟩
      have e := hN n hn
      simp only at e
      simp only [FieldState.resolveJob, hk, hb, if_true, e, Option.some_bind, hsn, hs',
        Option.map_some']
    · have hb' : w.boostedLastMove job.bot = false := by simpa using hb
      have hsn : w.snakes job.bot = { w.snakes job.bot with
          m_mass := job.massAfter fcfg w.boostedLastMove w.standing.mass } := by
        simp only [Job.massAfter, hk, hb', Bool.false_eq_true, if_false, FieldState.standing]
      rw [← hsn] at hs'
      refine ⟨{ w with
          calls := w.calls ++ [Call.botMoved job.bot job.steps]
          snakes := Function.update w.snakes job.bot s' }, 0, fun n _ => ?_⟩
      simp only [FieldState.resolveJob, hk, hb', Bool.false_eq_true, if_false, Option.some_bind,
        hs', Option.map_some']

/-- What the loop "collision check for all bots" does, when it returns: the standing is the
one that `Standing.resolve` gives job after job. -/
theorem resolveJobs_spec (cfg : Config) (fcfg : FieldConfig) (lm : Libm) (n : Nat) :
    ∀ (jobs : List Job) (w w' : FieldState),
      forEach (FieldState.resolveJob cfg fcfg lm n) jobs w = some w' →
      Frame w w' ∧
        w'.standing = jobs.foldl (Standing.resolve fcfg w.boostedLastMove) w.standing := by
  intro jobs
  induction jobs with
  | nil =>
    intro w w' h
    simp only [forEach, Option.some.injEq] at h
    subst h
    exact ⟨Frame.same w, rfl⟩
  | cons job jobs ih =>
    intro w w' h
    simp only [forEach, Option.bind_eq_some] at h
    obtain ⟨u, hu, h⟩ := h
    obtain ⟨f1, f2, -⟩ := resolveJob_spec cfg fcfg lm n job w u hu
    obtain ⟨g1, g2⟩ := ih u w' h
    refine ⟨f1.comp g1, ?_⟩
    rw [g2, f2, f1.2.1, List.foldl_cons]

theorem Job.massAfter_congr (fcfg : FieldConfig) (boosted : BotId → Bool) (job : Job)
    (mass1 mass2 : BotId → ℚ) (h : mass1 job.bot = mass2 job.bot) :
    job.massAfter fcfg boosted mass1 = job.massAfter fcfg boosted mass2 := by
  simp only [Job.massAfter, h]

/-- Total correctness of the loop "collision check for all bots" for jobs of different bots:
for every job without killer, the call `ensureSizeMatchesMass` on the bot's snake with its
mass after the job must be defined. -/
theorem resolveJobs_returns (cfg : Config) (fcfg : FieldConfig) (lm : Libm) (δ : ℚ)
    (hδ : 0 < δ) :
    ∀ (jobs : List Job) (w : FieldState), w.Regular δ → (jobs.map Job.bot).Nodup →
      (∀ job ∈ jobs, job.killer = none → ∃ s',
        Snake.ensureSizeMatchesMass cfg lm
          { w.snakes job.bot with
            m_mass := job.massAfter fcfg w.boostedLastMove w.standing.mass } = some s') →
      ∃ w', Returns (fun n => forEach (FieldState.resolveJob cfg fcfg lm n) jobs w) w' := by
  intro jobs
  induction jobs with
  | nil =>
    intro w _ _ _
    exact ⟨w, 0, fun _ _ => rfl⟩
  | cons job jobs ih =>
    intro w hw hnd hens
    obtain ⟨u, ⟨N, hN⟩⟩ := resolveJob_returns cfg fcfg lm job w δ hδ hw
      (hens job (List.mem_cons_self _ _))
    obtain ⟨f1, -, f3⟩ := resolveJob_spec cfg fcfg lm N job w u (hN N le_rfl)
    rw [List.map_cons, List.nodup_cons] at hnd
    obtain ⟨w', hw'⟩ := ih u (f1.regularAfter hw) hnd.2 (by
      intro j hj hk
      have hne : j.bot ≠ job.bot := by
        intro e
        exact hnd.1 (e ▸ List.mem_map_of_mem Job.bot hj)
      obtain ⟨s', hs'⟩ := hens j (List.mem_cons_of_mem _ hj) hk
      refine ⟨s', ?_⟩
      rw [f3 j.bot hne, f1.2.1,
        Job.massAfter_congr fcfg w.boostedLastMove j u.standing.mass w.standing.mass
          (by simp only [FieldState.standing, f3 j.bot hne])]
      exact hs')
    exact ⟨w', Returns.bind ⟨N, hN⟩ hw'⟩

/-! ### The order of the jobs -/

/-- A job takes the same decision after another bot got the mass that its own job gives it,
unless that bot is the recorded killer and loses mass by boosting. -/
theorem Job.removes_update (fcfg : FieldConfig) (boosted : BotId → Bool) (job other : Job)
    (mass : BotId → ℚ) (hne : other.bot ≠ job.bot)
    (hk : job.killer = some other.bot → other.killer = none → boosted other.bot = false) :
    job.removes fcfg boosted
        (Function.update mass other.bot (other.massAfter fcfg boosted mass))
      = job.removes fcfg boosted mass := by
  have hv : Function.update mass other.bot (other.massAfter fcfg boosted mass) job.bot
      = mass job.bot := Function.update_noteq (Ne.symm hne) _ _
  cases hjk : job.killer with
  | none => simp only [Job.removes, hjk, hv]
  | some k =>
    have hkill : Function.update mass other.bot (other.massAfter fcfg boosted mass) k
        = mass k := by
      by_cases hko : k = other.bot
      · rw [hko, Function.update_same]
        cases hok : other.killer with
        | none =>
          have hb : boosted other.bot = false := hk (by rw [hjk, hko]) hok
          simp only [Job.massAfter, hok, hb, Bool.false_eq_true, if_false]
        | some _ => simp only [Job.massAfter, hok]
      · exact Function.update_noteq hko _ _
    simp only [Job.removes, hjk, hv, hkill]

theorem Job.massAfter_update (fcfg : FieldConfig) (boosted : BotId → Bool) (job other : Job)
    (mass : BotId → ℚ) (m : ℚ) (hne : other.bot ≠ job.bot) :
    job.massAfter fcfg boosted (Function.update mass other.bot m)
      = job.massAfter fcfg boosted mass :=
  Job.massAfter_congr fcfg boosted job _ _ (Function.update_noteq (Ne.symm hne) _ _)

/-- Two jobs of different bots can be processed in either order, unless the bot of one is the
recorded killer of the other and loses mass by boosting: the standing is the same. -/
theorem Standing.resolve_comm (fcfg : FieldConfig) (boosted : BotId → Bool) (a : Standing)
    (j1 j2 : Job) (hne : j1.bot ≠ j2.bot)
    (h1 : j1.killer = some j2.bot → j2.killer = none → boosted j2.bot = false)
    (h2 : j2.killer = some j1.bot → j1.killer = none → boosted j1.bot = false) :
    (a.resolve fcfg boosted j1).resolve fcfg boosted j2
      = (a.resolve fcfg boosted j2).resolve fcfg boosted j1 := by
  simp only [Standing.resolve, Standing.mk.injEq]
  rw [Job.removes_update fcfg boosted j2 j1 a.mass hne h2,
    Job.removes_update fcfg boosted j1 j2 a.mass (Ne.symm hne) h1,
    Job.massAfter_update fcfg boosted j2 j1 a.mass _ hne,
    Job.massAfter_update fcfg boosted j1 j2 a.mass _ (Ne.symm hne)]
  refine ⟨?_, Function.update_comm hne _ _ _⟩
  cases j1.removes fcfg boosted a.mass <;> cases j2.removes fcfg boosted a.mass
  · simp
  · simp
  · simp
  · simp only [if_true]
    exact List.filter_comm _ _ _

/-- The standing after a list of jobs of different bots, in which no recorded killer loses
mass by boosting, does not depend on the order of the jobs. -/
theorem Standing.resolve_perm (fcfg : FieldConfig) (boosted : BotId → Bool) (a : Standing)
    (jobs1 jobs2 : List Job) (hperm : jobs1.Perm jobs2) (hnodup : (jobs1.map Job.bot).Nodup)
    (hk : ∀ job ∈ jobs1, ∀ other ∈ jobs1, job.killer = some other.bot →
      other.killer = none → boosted other.bot = false) :
    jobs1.foldl (Standing.resolve fcfg boosted) a
      = jobs2.foldl (Standing.resolve fcfg boosted) a := by
  refine List.Perm.foldl_eq' hperm ?_ a
  intro x hx y hy z
  rcases eq_or_ne x y with hxy | hxy
  · rw [hxy]
  · have hne : x.bot ≠ y.bot := fun e => hxy (List.inj_on_of_nodup_map hnodup hx hy e)
    exact Standing.resolve_comm fcfg boosted z x y hne (hk x hx y hy) (hk y hy x hx)

/-! ## Claims on food -/

theorem fieldOf_regular (bots : List BotId) (mass : BotId → ℚ) (boosted : BotId → Bool) :
    (fieldOf bots mass boosted 6).Regular 6 :=
  ⟨by norm_num [fieldOf], by norm_num [fieldOf], fun _ => le_refl _⟩

/-- C11 (code evaluated at the failing input): a snake of mass `10` with two segments is
converted to food with `SNAKE_CONVERSION_FACTOR = 1` and `FOOD_SIZE_MEAN = 3.5` while the
food-size distribution returns `6`. For each segment `5 > 3.5` is left, one item of value `6`
is spawned and the loop ends: the two items have the total value `12`, not `10`. -/
theorem convertToFood_overshoots :
    ∃ w' new, Returns (fun n =>
        heavySnake.convertToFood sampleFieldConfig sampleLibm n sampleField (some 0)) w' ∧
      FoodSpawned sampleField w' new ∧ new.length = 2 ∧ totalFoodValue new = 12 ∧
      heavySnake.m_mass * sampleFieldConfig.SNAKE_CONVERSION_FACTOR = 10 := by
  have hreg : sampleField.Regular 6 := fieldOf_regular _ _ _
  have hper : heavySnake.m_mass / (heavySnake.m_segments.length : ℚ)
      * sampleFieldConfig.SNAKE_CONVERSION_FACTOR = 5 := by
    norm_num [heavySnake, sampleSnake, sampleFieldConfig]
  obtain ⟨p1, -, h1⟩ := createDynamicFood_single sampleFieldConfig sampleLibm sampleField 5
    ⟨10, 10⟩ heavySnake.m_segmentRadius (some 0) hreg.1 hreg.2.1 (by norm_num)
    (by norm_num [FieldState.nextFoodValue, sampleFieldConfig, sampleField, fieldOf,
      constantRndGen])
  obtain ⟨f1, -⟩ := afterDynamicFood_spawned sampleFieldConfig sampleField 5 p1 (some 0)
  have hreg1 := f1.regular hreg
  have hsize1 : (sampleField.afterDynamicFood sampleFieldConfig 5 p1 (some 0)).m_rndGen.foodSize
      0 = 6 := by
    obtain ⟨-, -, -, -, -, -, -, -, k, hk⟩ := f1
    rw [hk]
    rfl
  obtain ⟨p2, -, h2⟩ := createDynamicFood_single sampleFieldConfig sampleLibm
    (sampleField.afterDynamicFood sampleFieldConfig 5 p1 (some 0)) 5
    ⟨10, 10⟩ heavySnake.m_segmentRadius (some 0) hreg1.1 hreg1.2.1 (by norm_num)
    (by
      simp only [FieldState.nextFoodValue, hsize1]
      norm_num [sampleFieldConfig])
  obtain ⟨f2, -⟩ := afterDynamicFood_spawned sampleFieldConfig
    (sampleField.afterDynamicFood sampleFieldConfig 5 p1 (some 0)) 5 p2 (some 0)
  refine ⟨_, _, ?_, f1.trans f2, rfl, ?_, by norm_num [heavySnake, sampleSnake,
    sampleFieldConfig]⟩
  · have hb : Returns (fun n =>
        (sampleField.createDynamicFood sampleFieldConfig sampleLibm n 5 ⟨10, 10⟩
          heavySnake.m_segmentRadius (some 0)).bind
          (fun w1 => (w1.createDynamicFood sampleFieldConfig sampleLibm n 5 ⟨10, 10⟩
            heavySnake.m_segmentRadius (some 0)).bind some))
        ((sampleField.afterDynamicFood sampleFieldConfig 5 p1 (some 0)).afterDynamicFood
          sampleFieldConfig 5 p2 (some 0)) :=
      Returns.bind h1 (Returns.bind h2 (Returns.pure _))
    obtain ⟨N, hN⟩ := hb
    refine ⟨N, fun n hn => ?_⟩
    have e := hN n hn
    simp only [Snake.convertToFood, hper]
    exact e
  · simp only [totalFoodValue, List.singleton_append, List.map_cons, List.map_nil,
      List.sum_cons, List.sum_nil, FieldState.nextFoodValue, hsize1]
    norm_num [sampleFieldConfig, sampleField, fieldOf, constantRndGen]

/-- One iteration of the loop of `createStaticFood` spawns one static food item whose value
is the next value of the food-size distribution. -/
theorem createOneStaticFood_spawned (w : FieldState) :
    ∃ food, FoodSpawned w w.createOneStaticFood [food] ∧
      food.m_value = w.m_rndGen.foodSize 0 ∧ food.isStatic = true := by
  refine ⟨_, ⟨rfl, rfl, rfl, rfl, rfl, rfl, rfl, rfl, 1, fun i => ?_⟩, rfl, rfl⟩
  simp [FieldState.createOneStaticFood, RndGen.drawFoodSize, RndGen.drawPositionX,
    RndGen.drawPositionY]

/-- The function `createStaticFood` spawns `count` static food items; their values are
positive if the values of the food-size distribution are. -/
theorem createStaticFood_spawned (count : Nat) :
    ∀ w : FieldState, ∃ new, FoodSpawned w (w.createStaticFood count) new ∧
      new.length = count ∧ (∀ food ∈ new, food.isStatic = true) ∧
      ((∀ i, 0 < w.m_rndGen.foodSize i) → ∀ food ∈ new, 0 < food.m_value) := by
  induction count with
  | zero =>
    intro w
    exact ⟨[], FoodSpawned.refl w, rfl, by simp, by simp⟩
  | succ count ih =>
    intro w
    obtain ⟨food, f1, f2, f3⟩ := createOneStaticFood_spawned w
    obtain ⟨new, g1, g2, g3, g4⟩ := ih w.createOneStaticFood
    refine ⟨[food] ++ new, ?_, by simp [g2, Nat.add_comm], ?_, ?_⟩
    · have e : w.createStaticFood (count + 1)
          = (w.createOneStaticFood).createStaticFood count := by
        simp only [FieldState.createStaticFood, Function.iterate_succ_apply]
      rw [e]
      exact f1.trans g1
    · intro x hx
      rcases List.mem_append.mp hx with hx | hx
      · rw [List.mem_singleton.mp hx]
        exact f3
      · exact g3 x hx
    · intro hpos x hx
      rcases List.mem_append.mp hx with hx | hx
      · rw [List.mem_singleton.mp hx, f2]
        exact hpos 0
      · refine g4 (fun i => ?_) x hx
        obtain ⟨-, -, -, -, -, -, -, -, k, hk⟩ := f1
        rw [hk]
        exact hpos _

/-- C16 (counterexample): when the food-size distribution returns `-1`,
`createStaticFood(1)` puts a food item of value `-1` into the empty food map. -/
theorem createStaticFood_negative_value :
    ∃ food ∈ ((fieldOf [] (fun _ => 1) (fun _ => false) (-1)).createStaticFood 1).m_foodMap.elements,
      food.m_value = -1 ∧ ¬ 0 < food.m_value := by
  refine ⟨{ pos := ⟨0, 0⟩, m_value := -1, isStatic := true, hunter := none }, ?_, rfl,
    by norm_num⟩
  simp [FieldState.createStaticFood, FieldState.createOneStaticFood, fieldOf, constantRndGen,
    RndGen.drawFoodSize, RndGen.drawPositionX, RndGen.drawPositionY, SpatialMap.addElement]

/-- C16 (amended): when all values of the food-size distribution are strictly positive, every
food item that `createStaticFood` creates, and every food item that a call of
`createDynamicFood` has created when it returns, has a value strictly greater than `0`. -/
theorem created_food_positive (w : FieldState) (hpos : ∀ i, 0 < w.m_rndGen.foodSize i) :
    (∀ count, ∃ new, (w.createStaticFood count).m_foodMap.elements
        = w.m_foodMap.elements ++ new ∧ new.length = count ∧ ∀ food ∈ new, 0 < food.m_value) ∧
    (∀ fcfg lm n totalValue center radius hunter w',
      w.createDynamicFood fcfg lm n totalValue center radius hunter = some w' →
      ∃ new, w'.m_foodMap.elements = w.m_foodMap.elements ++ new ∧
        ∀ food ∈ new, 0 < food.m_value) := by
  constructor
  · intro count
    obtain ⟨new, f1, f2, -, f4⟩ := createStaticFood_spawned count w
    exact ⟨new, f1.2.2.2.2.2.2.1, f2, f4 hpos⟩
  · intro fcfg lm n totalValue center radius hunter w' h
    obtain ⟨new, f1, -, -, f4⟩ := createDynamicFood_spec fcfg lm n w w' _ _ _ _ h
    exact ⟨new, f1.2.2.2.2.2.2.1, f4 hpos⟩

theorem created_food_positive_witness :
    (∀ i, 0 < sampleField.m_rndGen.foodSize i) ∧
    (∀ count, ∃ new, (sampleField.createStaticFood count).m_foodMap.elements
        = sampleField.m_foodMap.elements ++ new ∧ new.length = count ∧
        ∀ food ∈ new, 0 < food.m_value) ∧
    (∀ fcfg lm n totalValue center radius hunter w',
      sampleField.createDynamicFood fcfg lm n totalValue center radius hunter = some w' →
      ∃ new, w'.m_foodMap.elements = sampleField.m_foodMap.elements ++ new ∧
        ∀ food ∈ new, 0 < food.m_value) :=
  have h : ∀ i, 0 < sampleField.m_rndGen.foodSize i := fun _ => by
    norm_num [sampleField, fieldOf, constantRndGen]
  ⟨h, created_food_positive sampleField h⟩

/-- C20: a call of `createDynamicFood` with `totalValue ≤ 0` returns the field unchanged. With
`0 < totalValue ≤ FOOD_SIZE_MEAN`, in a world of positive size, it returns after one
iteration: the one new food item has the value `totalValue`, the given hunter and the
position `p = wrapCoords(center + offset)`, and no value of the food-size distribution is
used. When the unit value drawn is in `[0, 1]` and `cos² + sin² = 1` at the angle drawn, the
offset satisfies `|offset|² ≤ radius²`. -/
theorem createDynamicFood_small_value (fcfg : FieldConfig) (lm : Libm) (w : FieldState)
    (totalValue : ℚ) (center : Vector2D) (radius : ℚ) (hunter : Option BotId)
    (hW : 0 < w.size.m_width) (hH : 0 < w.size.m_height)
    (hu0 : 0 ≤ w.m_rndGen.simple0To1 0) (hu1 : w.m_rndGen.simple0To1 0 ≤ 1)
    (htrig : lm.cos (w.m_rndGen.angleRad 0) ^ 2 + lm.sin (w.m_rndGen.angleRad 0) ^ 2 = 1) :
    (totalValue ≤ 0 →
      ∀ n, w.createDynamicFood fcfg lm n totalValue center radius hunter = some w) ∧
    (0 < totalValue → totalValue ≤ fcfg.FOOD_SIZE_MEAN →
      ∃ w' p, Returns (fun n =>
          w.createDynamicFood fcfg lm n totalValue center radius hunter) w' ∧
        Returns (fun n => w.size.wrapCoords n (center.add (w.nextFoodOffset lm radius))) p ∧
        FoodSpawned w w'
          [{ pos := p, m_value := totalValue, isStatic := false, hunter := hunter }] ∧
        w'.m_rndGen.foodSize = w.m_rndGen.foodSize ∧
        (w.nextFoodOffset lm radius).squaredNorm ≤ radius ^ 2) := by
  refine ⟨fun h n => createDynamicFood_of_nonpos fcfg lm n w totalValue center radius hunter h,
    fun h0 hle => ?_⟩
  have hv : w.nextFoodValue fcfg totalValue = totalValue := by
    simp only [FieldState.nextFoodValue, not_lt.mpr hle, if_false]
  obtain ⟨p, hp, hr⟩ := createDynamicFood_single fcfg lm w totalValue center radius hunter hW hH
    h0 (by rw [hv])
  obtain ⟨f1, f2⟩ := afterDynamicFood_spawned fcfg w totalValue p hunter
  rw [hv] at f1
  refine ⟨_, p, hr, hp, f1, f2 hle, ?_⟩
  have e : (w.nextFoodOffset lm radius).squaredNorm
      = (lm.cos (w.m_rndGen.angleRad 0) ^ 2 + lm.sin (w.m_rndGen.angleRad 0) ^ 2)
        * (radius * w.m_rndGen.simple0To1 0) ^ 2 := by
    simp only [FieldState.nextFoodOffset, Vector2D.smul, Vector2D.squaredNorm]
    ring
  rw [e, htrig, one_mul, mul_pow]
  have hsq : w.m_rndGen.simple0To1 0 ^ 2 ≤ 1 := by nlinarith
  nlinarith [sq_nonneg radius]

theorem createDynamicFood_small_value_witness :
    0 < sampleField.size.m_width ∧ 0 < sampleField.size.m_height ∧
    0 ≤ sampleField.m_rndGen.simple0To1 0 ∧ sampleField.m_rndGen.simple0To1 0 ≤ 1 ∧
    sampleLibm.cos (sampleField.m_rndGen.angleRad 0) ^ 2
      + sampleLibm.sin (sampleField.m_rndGen.angleRad 0) ^ 2 = 1 ∧
    ((2 : ℚ) ≤ 0 →
      ∀ n, sampleField.createDynamicFood sampleFieldConfig sampleLibm n 2 ⟨59, 19⟩ 3 (some 1)
        = some sampleField) ∧
    ((0 : ℚ) < 2 → (2 : ℚ) ≤ sampleFieldConfig.FOOD_SIZE_MEAN →
      ∃ w' p, Returns (fun n =>
          sampleField.createDynamicFood sampleFieldConfig sampleLibm n 2 ⟨59, 19⟩ 3 (some 1)) w' ∧
        Returns (fun n => sampleField.size.wrapCoords n
          ((⟨59, 19⟩ : Vector2D).add (sampleField.nextFoodOffset sampleLibm 3))) p ∧
        FoodSpawned sampleField w'
          [{ pos := p, m_value := 2, isStatic := false, hunter := some 1 }] ∧
        w'.m_rndGen.foodSize = sampleField.m_rndGen.foodSize ∧
        (sampleField.nextFoodOffset sampleLibm 3).squaredNorm ≤ (3 : ℚ) ^ 2) :=
  have h1 : 0 < sampleField.size.m_width := by norm_num [sampleField, fieldOf]
  have h2 : 0 < sampleField.size.m_height := by norm_num [sampleField, fieldOf]
  have h3 : 0 ≤ sampleField.m_rndGen.simple0To1 0 := by
    norm_num [sampleField, fieldOf, constantRndGen]
  have h4 : sampleField.m_rndGen.simple0To1 0 ≤ 1 := by
    norm_num [sampleField, fieldOf, constantRndGen]
  have h5 : sampleLibm.cos (sampleField.m_rndGen.angleRad 0) ^ 2
      + sampleLibm.sin (sampleField.m_rndGen.angleRad 0) ^ 2 = 1 := by
    norm_num [sampleField, fieldOf, constantRndGen, sampleLibm]
  ⟨h1, h2, h3, h4, h5,
    createDynamicFood_small_value sampleFieldConfig sampleLibm sampleField 2 ⟨59, 19⟩ 3 (some 1)
      h1 h2 h3 h4 h5⟩

/-! ## Claims on the kill resolution -/

/-- The function `ensureSizeMatchesMass` is defined for a snake with a segment when the target
distance is not `0` and the target length fits `std::size_t`. -/
theorem ensureSizeMatchesMass_defined (cfg : Config) (lm : Libm) (s : Snake)
    (hne : s.m_segments ≠ [])
    (hpos : lm.pow (s.m_mass * cfg.SNAKE_SEGMENT_DISTANCE_FACTOR)
      cfg.SNAKE_SEGMENT_DISTANCE_EXPONENT ≠ 0)
    (hfit : -1 < s.m_mass / lm.pow (s.m_mass * cfg.SNAKE_SEGMENT_DISTANCE_FACTOR)
        cfg.SNAKE_SEGMENT_DISTANCE_EXPONENT / 5 ∧
      s.m_mass / lm.pow (s.m_mass * cfg.SNAKE_SEGMENT_DISTANCE_FACTOR)
        cfg.SNAKE_SEGMENT_DISTANCE_EXPONENT / 5 < 2 ^ 64) :
    ∃ r, s.ensureSizeMatchesMass cfg lm = some r := by
  have hlen : 0 < s.m_segments.length := List.length_pos.mpr hne
  obtain ⟨seg, hseg⟩ : ∃ seg, s.m_segments[s.m_segments.length - 1]? = some seg :=
    ⟨_, List.getElem?_eq_getElem (by omega)⟩
  simp only [Snake.ensureSizeMatchesMass, hpos, if_false, toSizeT, hfit, and_self, if_true,
    Option.bind_eq_bind, Option.some_bind]
  generalize (if (truncate (s.m_mass / lm.pow (s.m_mass * cfg.SNAKE_SEGMENT_DISTANCE_FACTOR)
    cfg.SNAKE_SEGMENT_DISTANCE_EXPONENT / 5)).toNat < 2 then 2
    else (truncate (s.m_mass / lm.pow (s.m_mass * cfg.SNAKE_SEGMENT_DISTANCE_FACTOR)
      cfg.SNAKE_SEGMENT_DISTANCE_EXPONENT / 5)).toNat) = T
  by_cases h1 : s.m_segments.length < T
  · simp only [h1, if_true, hseg, Option.map_some', Option.some_bind]
    exact ⟨_, rfl⟩
  · by_cases h2 : s.m_segments.length > T
    · simp only [h1, h2, if_true, if_false, Option.some_bind]
      exact ⟨_, rfl⟩
    · simp only [h1, h2, if_false, Option.some_bind]
      exact ⟨_, rfl⟩

/-- C12: a job with a recorded killer, in a world of positive size whose food-size values are
at least `δ > 0`, is resolved: the victim (a member of the bot set) is removed from the bot
set if and only if `killer.mass > victim.mass · KILLER_MIN_MASS_RATIO`, and `botKilled(killer,
victim)` is emitted if and only if this holds; when it does not hold the field is unchanged;
and the mass of the killer is the same before and after. -/
theorem resolveJob_mass_gated_kill (cfg : Config) (fcfg : FieldConfig) (lm : Libm)
    (w : FieldState) (job : Job) (killer : BotId) (δ : ℚ) (hδ : 0 < δ) (hw : w.Regular δ)
    (hk : job.killer = some killer) (hv : job.bot ∈ w.m_bots) :
    ∃ w' emitted, Returns (fun n => w.resolveJob cfg fcfg lm n job) w' ∧
      w'.calls = w.calls ++ emitted ∧
      (job.bot ∉ w'.m_bots ↔ (w.snakes killer).m_mass
        > (w.snakes job.bot).m_mass * FieldConfig.KILLER_MIN_MASS_RATIO fcfg) ∧
      (Call.botKilled killer job.bot ∈ emitted ↔ (w.snakes killer).m_mass
        > (w.snakes job.bot).m_mass * FieldConfig.KILLER_MIN_MASS_RATIO fcfg) ∧
      ((w.snakes killer).m_mass
          > (w.snakes job.bot).m_mass * FieldConfig.KILLER_MIN_MASS_RATIO fcfg →
        w'.m_bots = w.m_bots.filter (fun b => b ≠ job.bot)) ∧
      (¬ (w.snakes killer).m_mass
          > (w.snakes job.bot).m_mass * FieldConfig.KILLER_MIN_MASS_RATIO fcfg → w' = w) ∧
      (w'.snakes killer).m_mass = (w.snakes killer).m_mass := by
  by_cases hc : (w.snakes killer).m_mass
      > (w.snakes job.bot).m_mass * FieldConfig.KILLER_MIN_MASS_RATIO fcfg
  · obtain ⟨w', N, hN⟩ := killBot_returns fcfg lm w job.bot killer δ hδ hw
    have hr : Returns (fun n => w.resolveJob cfg fcfg lm n job) w' := by
      refine ⟨N, fun n hn => ?_⟩
      have e : w.killBot fcfg lm n job.bot killer = some w' := hN n hn
      simp only [FieldState.resolveJob, hk, hc, if_true, e]
    obtain ⟨-, g2, g3, new, g4⟩ := killBot_spec fcfg lm N w w' job.bot killer (hN N le_rfl)
    refine ⟨w', new.map Call.foodSpawned ++ killCalls w.m_botKilledCallbacks job.bot killer,
      hr, by rw [g4, List.append_assoc], ?_, ?_, fun _ => g2, fun h => absurd hc h, by rw [g3]⟩
    · refine ⟨fun _ => hc, fun _ => ?_⟩
      rw [g2]
      simp
    · refine ⟨fun _ => hc, fun _ => ?_⟩
      simp [killCalls]
  · refine ⟨w, [], ⟨0, fun n _ => ?_⟩, by simp, ?_, ?_, fun h => absurd h hc, fun _ => rfl, rfl⟩
    · simp only [FieldState.resolveJob, hk, hc, if_false]
    · exact ⟨fun h => absurd hv h, fun h => absurd h hc⟩
    · exact ⟨fun h => absurd h (List.not_mem_nil _), fun h => absurd h hc⟩

theorem resolveJob_mass_gated_kill_witness :
    (0 : ℚ) < 6 ∧ trioField.Regular 6 ∧ (⟨1, 1, some 0⟩ : Job).killer = some 0 ∧
    (⟨1, 1, some 0⟩ : Job).bot ∈ trioField.m_bots ∧
    ∃ w' emitted, Returns (fun n =>
        trioField.resolveJob sampleConfig sampleFieldConfig sampleLibm n ⟨1, 1, some 0⟩) w' ∧
      w'.calls = trioField.calls ++ emitted ∧
      ((⟨1, 1, some 0⟩ : Job).bot ∉ w'.m_bots ↔ (trioField.snakes 0).m_mass
        > (trioField.snakes (⟨1, 1, some 0⟩ : Job).bot).m_mass
          * FieldConfig.KILLER_MIN_MASS_RATIO sampleFieldConfig) ∧
      (Call.botKilled 0 (⟨1, 1, some 0⟩ : Job).bot ∈ emitted ↔ (trioField.snakes 0).m_mass
        > (trioField.snakes (⟨1, 1, some 0⟩ : Job).bot).m_mass
          * FieldConfig.KILLER_MIN_MASS_RATIO sampleFieldConfig) ∧
      ((trioField.snakes 0).m_mass
          > (trioField.snakes (⟨1, 1, some 0⟩ : Job).bot).m_mass
            * FieldConfig.KILLER_MIN_MASS_RATIO sampleFieldConfig →
        w'.m_bots = trioField.m_bots.filter (fun b => b ≠ (⟨1, 1, some 0⟩ : Job).bot)) ∧
      (¬ (trioField.snakes 0).m_mass
          > (trioField.snakes (⟨1, 1, some 0⟩ : Job).bot).m_mass
            * FieldConfig.KILLER_MIN_MASS_RATIO sampleFieldConfig → w' = trioField) ∧
      (w'.snakes 0).m_mass = (trioField.snakes 0).m_mass :=
  ⟨by norm_num, fieldOf_regular _ _ _, rfl, by simp [trioField, fieldOf],
    resolveJob_mass_gated_kill sampleConfig sampleFieldConfig sampleLibm trioField ⟨1, 1, some 0⟩
      0 6 (by norm_num) (fieldOf_regular _ _ _) rfl (by simp [trioField, fieldOf])⟩

/-- C13 (code evaluated at the failing input): in the scenario "mass-gated kill rejected" bot
`1` of mass `2` boosted in its last move and its job records the killer `0` of mass `2.5`.
The kill is rejected (`2.5 > 2 · 1.5` is false), and the resolution of the job returns the
field as it was: no `botMoved(1, 1)` is emitted and bot `1` keeps the mass `2`, where the
boost loss would leave `1.8`. -/
theorem resolveJob_rejected_kill_skips_botMoved :
    sampleField.boostedLastMove 1 = true ∧
    ¬ ((sampleField.snakes 0).m_mass
      > (sampleField.snakes 1).m_mass * FieldConfig.KILLER_MIN_MASS_RATIO sampleFieldConfig) ∧
    ∀ n, ∃ w', sampleField.resolveJob sampleConfig sampleFieldConfig sampleLibm n
        ⟨1, 1, some 0⟩ = some w' ∧ w' = sampleField ∧
      Call.botMoved 1 1 ∉ w'.calls ∧ (w'.snakes 1).m_mass = 2 ∧
      (sampleField.snakes 1).m_mass
        - sampleFieldConfig.SNAKE_BOOST_LOSS_FACTOR * (sampleField.snakes 1).m_mass = 9 / 5 := by
  have hc : ¬ ((sampleField.snakes 0).m_mass
      > (sampleField.snakes 1).m_mass * FieldConfig.KILLER_MIN_MASS_RATIO sampleFieldConfig) := by
    norm_num [sampleField, fieldOf, sampleFieldConfig]
  refine ⟨by simp [sampleField, fieldOf], hc, fun n => ⟨sampleField, ?_, rfl, ?_, ?_, ?_⟩⟩
  · simp only [FieldState.resolveJob, hc, if_false]
  · simp [sampleField, fieldOf]
  · norm_num [sampleField, fieldOf]
  · norm_num [sampleField, fieldOf, sampleFieldConfig]

/-- The inner loop of `updateSnakeSegmentMap` appends the segments of one bot. -/
theorem addSegments_elements (b : BotId) (segs : List Segment) :
    ∀ map : SpatialMap (Segment × BotId),
      (segs.foldl (fun map s => map.addElement (s, b)) map).elements
        = map.elements ++ segs.map (fun s => (s, b)) := by
  induction segs with
  | nil => intro map; simp
  | cons s segs ih =>
    intro map
    rw [List.foldl_cons, ih]
    simp [SpatialMap.addElement]

/-- The outer loop of `updateSnakeSegmentMap` appends the segments of the bots in turn. -/
theorem addBots_elements (snakes : BotId → Snake) (bots : List BotId) :
    ∀ map : SpatialMap (Segment × BotId),
      (bots.foldl (fun map b =>
          (snakes b).m_segments.foldl (fun map s => map.addElement (s, b)) map) map).elements
        = map.elements
          ++ bots.flatMap (fun b => (snakes b).m_segments.map (fun s => (s, b))) := by
  induction bots with
  | nil => intro map; simp
  | cons b bots ih =>
    intro map
    rw [List.foldl_cons, ih, addSegments_elements]
    simp

/-- After `updateSnakeSegmentMap` the segment map holds the segments of the bots of the bot
set, bot by bot, and bots and snakes are the same as before. -/
theorem updateSnakeSegmentMap_elements (w : FieldState) :
    w.updateSnakeSegmentMap.m_segmentInfoMap.elements
        = w.updateSnakeSegmentMap.m_bots.flatMap
          (fun b => (w.updateSnakeSegmentMap.snakes b).m_segments.map (fun s => (s, b))) ∧
      w.updateSnakeSegmentMap.m_bots = w.m_bots ∧
      w.updateSnakeSegmentMap.snakes = w.snakes := by
  refine ⟨?_, rfl, rfl⟩
  show (w.m_bots.foldl (fun map b =>
      (w.snakes b).m_segments.foldl (fun map s => map.addElement (s, b)) map)
      w.m_segmentInfoMap.clear).elements = _
  rw [addBots_elements]
  rfl

/-- For the jobs of the sample field with three bots, `ensureSizeMatchesMass` is defined. -/
theorem trioJobs_sized : ∀ job ∈ trioJobs, job.killer = none → ∃ s',
    Snake.ensureSizeMatchesMass sampleConfig sampleLibm
      { trioField.snakes job.bot with
        m_mass := job.massAfter sampleFieldConfig trioField.boostedLastMove
          trioField.standing.mass } = some s' := by
  intro job hjob _
  simp only [trioJobs, List.mem_cons, List.mem_singleton, List.not_mem_nil, or_false] at hjob
  rcases hjob with rfl | rfl | rfl
  · refine ensureSizeMatchesMass_defined _ _ _ (List.cons_ne_nil _ _) ?_ ?_ <;>
      norm_num [trioField, fieldOf, sampleSnake, sampleConfig, sampleLibm, sampleFieldConfig,
        Job.massAfter, FieldState.standing]
  · refine ensureSizeMatchesMass_defined _ _ _ (List.cons_ne_nil _ _) ?_ ?_ <;>
      norm_num [trioField, fieldOf, sampleSnake, sampleConfig, sampleLibm, sampleFieldConfig,
        Job.massAfter, FieldState.standing]
  · refine ensureSizeMatchesMass_defined _ _ _ (List.cons_ne_nil _ _) ?_ ?_ <;>
      norm_num [trioField, fieldOf, sampleSnake, sampleConfig, sampleLibm, sampleFieldConfig,
        Job.massAfter, FieldState.standing]

/-- C14: after `updateSnakeSegmentMap`, called on any field, the elements of the segment map
are the (segment, owner) pairs of the segments of the bots in the bot set. The same holds
for the field that `moveAllBots` returns: a pair `(s, b)` is in the segment map if and only
if `b` is in the bot set and `s` is a segment of its snake. And `moveAllBots` returns, for
jobs of different bots, in a world of positive size with food-size values of at least
`δ > 0`, where `ensureSizeMatchesMass` is defined for the bots without killer. -/
theorem moveAllBots_segment_map (cfg : Config) (fcfg : FieldConfig) (lm : Libm)
    (w : FieldState) (jobs : List Job) :
    (w.updateSnakeSegmentMap.m_segmentInfoMap.elements
        = w.m_bots.flatMap (fun b => (w.snakes b).m_segments.map (fun s => (s, b)))) ∧
    (∀ n w', w.moveAllBots cfg fcfg lm n jobs = some w' →
      w'.m_segmentInfoMap.elements
          = w'.m_bots.flatMap (fun b => (w'.snakes b).m_segments.map (fun s => (s, b))) ∧
        ∀ s b, (s, b) ∈ w'.m_segmentInfoMap.elements
          ↔ b ∈ w'.m_bots ∧ s ∈ (w'.snakes b).m_segments) ∧
    (∀ δ : ℚ, 0 < δ → w.Regular δ → (jobs.map Job.bot).Nodup →
      (∀ job ∈ jobs, job.killer = none → ∃ s',
        Snake.ensureSizeMatchesMass cfg lm
          { w.snakes job.bot with
            m_mass := job.massAfter fcfg w.boostedLastMove w.standing.mass } = some s') →
      ∃ w', Returns (fun n => w.moveAllBots cfg fcfg lm n jobs) w') := by
  refine ⟨(updateSnakeSegmentMap_elements w).1, fun n w' h => ?_, fun δ hδ hw hnd hens => ?_⟩
  · simp only [FieldState.moveAllBots, Option.map_eq_some'] at h
    obtain ⟨u, -, rfl⟩ := h
    have e := (updateSnakeSegmentMap_elements u).1
    refine ⟨e, fun s b => ?_⟩
    rw [e, List.mem_flatMap]
    constructor
    · rintro ⟨a, ha, hs⟩
      obtain ⟨s0, hs0, heq⟩ := List.mem_map.mp hs
      simp only [Prod.mk.injEq] at heq
      obtain ⟨rfl, rfl⟩ := heq
      exact ⟨ha, hs0⟩
    · rintro ⟨hb, hs⟩
      exact ⟨b, hb, List.mem_map.mpr ⟨s, hs, rfl⟩⟩
  · obtain ⟨u, hu⟩ := resolveJobs_returns cfg fcfg lm δ hδ jobs w hw hnd hens
    exact ⟨_, Returns.map FieldState.updateSnakeSegmentMap hu⟩

theorem moveAllBots_segment_map_witness :
    ∃ w', Returns (fun n =>
        trioField.moveAllBots sampleConfig sampleFieldConfig sampleLibm n trioJobs) w' ∧
      w'.m_segmentInfoMap.elements
        = w'.m_bots.flatMap (fun b => (w'.snakes b).m_segments.map (fun s => (s, b))) :=
  have h := moveAllBots_segment_map sampleConfig sampleFieldConfig sampleLibm trioField trioJobs
  (h.2.2 6 (by norm_num) (fieldOf_regular _ _ _) (by decide) trioJobs_sized).elim
    (fun w' hr => ⟨w', hr, hr.elim (fun N hN => (h.2.1 N w' (hN N le_rfl)).1)⟩)

/-- For the jobs of the sample field with a boosting bot, `ensureSizeMatchesMass` is
defined. -/
theorem boostJobs_sized : ∀ job ∈ boostJobs, job.killer = none → ∃ s',
    Snake.ensureSizeMatchesMass sampleConfig sampleLibm
      { boostField.snakes job.bot with
        m_mass := job.massAfter sampleFieldConfig boostField.boostedLastMove
          boostField.standing.mass } = some s' := by
  intro job hjob _
  simp only [boostJobs, List.mem_cons, List.mem_singleton, List.not_mem_nil, or_false] at hjob
  rcases hjob with rfl | rfl
  · refine ensureSizeMatchesMass_defined _ _ _ (List.cons_ne_nil _ _) ?_ ?_ <;>
      norm_num [boostField, fieldOf, sampleSnake, sampleConfig, sampleLibm, sampleFieldConfig,
        Job.massAfter, FieldState.standing]
  · refine ensureSizeMatchesMass_defined _ _ _ (List.cons_ne_nil _ _) ?_ ?_ <;>
      norm_num [boostField, fieldOf, sampleSnake, sampleConfig, sampleLibm, sampleFieldConfig,
        Job.massAfter, FieldState.standing]

/-- C19 (counterexample): bot `0` of mass `3.1` boosted and has no killer, bot `1` of mass
`2` has the recorded killer `0`, and `KILLER_MIN_MASS_RATIO = 1.5`. When the job of bot `0`
is processed first, bot `0` has the mass `2.79` at the size check and bot `1` survives; when
the job of bot `1` is processed first, `3.1 > 3` holds and bot `1` is killed. -/
theorem moveAllBots_order_matters :
    ∃ w1 w2,
      Returns (fun n =>
        boostField.moveAllBots sampleConfig sampleFieldConfig sampleLibm n boostJobs) w1 ∧
      Returns (fun n =>
        boostField.moveAllBots sampleConfig sampleFieldConfig sampleLibm n boostJobs.reverse)
        w2 ∧
      w1.m_bots = [0, 1] ∧ w2.m_bots = [0] := by
  obtain ⟨u1, N1, h1⟩ := resolveJobs_returns sampleConfig sampleFieldConfig sampleLibm 6
    (by norm_num) boostJobs boostField (fieldOf_regular _ _ _) (by decide) boostJobs_sized
  obtain ⟨u2, N2, h2⟩ := resolveJobs_returns sampleConfig sampleFieldConfig sampleLibm 6
    (by norm_num) boostJobs.reverse boostField (fieldOf_regular _ _ _) (by decide)
    (fun job hjob => boostJobs_sized job (List.mem_reverse.mp hjob))
  obtain ⟨-, e1⟩ := resolveJobs_spec sampleConfig sampleFieldConfig sampleLibm N1 boostJobs
    boostField u1 (h1 N1 le_rfl)
  obtain ⟨-, e2⟩ := resolveJobs_spec sampleConfig sampleFieldConfig sampleLibm N2
    boostJobs.reverse boostField u2 (h2 N2 le_rfl)
  refine ⟨_, _, Returns.map FieldState.updateSnakeSegmentMap ⟨N1, h1⟩,
    Returns.map FieldState.updateSnakeSegmentMap ⟨N2, h2⟩, ?_, ?_⟩
  · show u1.standing.bots = [0, 1]
    rw [e1]
    norm_num [boostJobs, Standing.resolve, Job.removes, Job.massAfter, boostField, fieldOf,
      FieldState.standing, sampleFieldConfig, Function.update]
  · show u2.standing.bots = [0]
    rw [e2]
    norm_num [boostJobs, Standing.resolve, Job.removes, Job.massAfter, boostField, fieldOf,
      FieldState.standing, sampleFieldConfig, Function.update]

/-- C19 (amended): let `jobs1` and `jobs2` hold the same jobs in two orders, one job for each
bot, where no bot that is recorded as killer of another job boosted while its own job has no
killer (it would lose mass during the resolution). In a world of positive size with
food-size values of at least `δ > 0`, where `ensureSizeMatchesMass` is defined for the bots
without killer, `moveAllBots` returns for both orders, with the same bot set and the same
mass of every bot. -/
theorem moveAllBots_order_independent (cfg : Config) (fcfg : FieldConfig) (lm : Libm)
    (w : FieldState) (jobs1 jobs2 : List Job) (δ : ℚ) (hδ : 0 < δ) (hw : w.Regular δ)
    (hperm : jobs1.Perm jobs2) (hnodup : (jobs1.map Job.bot).Nodup)
    (hk : ∀ job ∈ jobs1, ∀ other ∈ jobs1, job.killer = some other.bot →
      other.killer = none → w.boostedLastMove other.bot = false)
    (hens : ∀ job ∈ jobs1, job.killer = none → ∃ s',
      Snake.ensureSizeMatchesMass cfg lm
        { w.snakes job.bot with
          m_mass := job.massAfter fcfg w.boostedLastMove w.standing.mass } = some s') :
    ∃ w1 w2,
      Returns (fun n => w.moveAllBots cfg fcfg lm n jobs1) w1 ∧
      Returns (fun n => w.moveAllBots cfg fcfg lm n jobs2) w2 ∧
      w1.m_bots = w2.m_bots ∧ ∀ b, (w1.snakes b).m_mass = (w2.snakes b).m_mass := by
  obtain ⟨u1, N1, h1⟩ := resolveJobs_returns cfg fcfg lm δ hδ jobs1 w hw hnodup hens
  obtain ⟨u2, N2, h2⟩ := resolveJobs_returns cfg fcfg lm δ hδ jobs2 w hw
    ((hperm.map Job.bot).nodup_iff.mp hnodup)
    (fun job hjob => hens job (hperm.mem_iff.mpr hjob))
  obtain ⟨-, e1⟩ := resolveJobs_spec cfg fcfg lm N1 jobs1 w u1 (h1 N1 le_rfl)
  obtain ⟨-, e2⟩ := resolveJobs_spec cfg fcfg lm N2 jobs2 w u2 (h2 N2 le_rfl)
  have e : u1.standing = u2.standing := by
    rw [e1, e2]
    exact Standing.resolve_perm fcfg w.boostedLastMove w.standing jobs1 jobs2 hperm hnodup hk
  refine ⟨_, _, Returns.map FieldState.updateSnakeSegmentMap ⟨N1, h1⟩,
    Returns.map FieldState.updateSnakeSegmentMap ⟨N2, h2⟩, ?_, fun b => ?_⟩
  · exact congrArg Standing.bots e
  · exact congrFun (congrArg Standing.mass e) b

theorem moveAllBots_order_independent_witness :
    (0 : ℚ) < 6 ∧ trioField.Regular 6 ∧ trioJobs.Perm trioJobs.reverse ∧
    (trioJobs.map Job.bot).Nodup ∧
    (∀ job ∈ trioJobs, ∀ other ∈ trioJobs, job.killer = some other.bot →
      other.killer = none → trioField.boostedLastMove other.bot = false) ∧
    ∃ w1 w2,
      Returns (fun n =>
        trioField.moveAllBots sampleConfig sampleFieldConfig sampleLibm n trioJobs) w1 ∧
      Returns (fun n =>
        trioField.moveAllBots sampleConfig sampleFieldConfig sampleLibm n trioJobs.reverse)
        w2 ∧
      w1.m_bots = w2.m_bots ∧ ∀ b, (w1.snakes b).m_mass = (w2.snakes b).m_mass :=
  have hk : ∀ job ∈ trioJobs, ∀ other ∈ trioJobs, job.killer = some other.bot →
      other.killer = none → trioField.boostedLastMove other.bot = false := by
    intro job hjob other hother
    simp only [trioJobs, List.mem_cons, List.mem_singleton, List.not_mem_nil, or_false]
      at hjob hother
    rcases hjob with rfl | rfl | rfl <;> rcases hother with rfl | rfl | rfl <;>
      simp [trioField, fieldOf]
  ⟨by norm_num, fieldOf_regular _ _ _, (List.reverse_perm trioJobs).symm, by decide, hk,
    moveAllBots_order_independent sampleConfig sampleFieldConfig sampleLibm trioField trioJobs
      trioJobs.reverse 6 (by norm_num) (fieldOf_regular _ _ _) (List.reverse_perm trioJobs).symm
      (by decide) hk trioJobs_sized⟩

end Spn
